import Mathlib

/-!
Verification of the ArcLikeExtension background core (src/background.ts).

The TypeScript source is shallowly embedded: chrome tab/window state is an
explicit `World`, the extension's process state (the activity ledger and the
alarm set) is a `BgState`, and every asynchronous collaborator call
(`chrome.tabs.get`, `chrome.windows.get`, `chrome.tabs.remove`, the clock) is
an explicit oracle parameter.  Machine numbers are modelled as `Int`/`Nat`
(JS numbers at these magnitudes are exact) and the fractional
`delayInMinutes` value is modelled as `ℚ` (JS float arithmetic on these
inputs is exact as well).  Alarm names are modelled as `List Char`.

Identifiers (tab ids, window ids) are `Int`, with the chrome sentinels
`chrome.tabs.TAB_ID_NONE = -1`, `chrome.tabGroups.TAB_GROUP_ID_NONE = -1`
and `chrome.windows.WINDOW_ID_NONE = -1`.  The JavaScript `=== undefined`
checks on ids have no counterpart here: in the model every id is present.
-/

namespace ArcLike

/-- `"minutes" | "hours"` from src/common/types.ts. -/
inductive TimeUnit where
  | minutes
  | hours
deriving DecidableEq, Repr

/-- `ExtensionSettings` from src/common/types.ts. -/
structure ExtensionSettings where
  autoArchiveEnabled : Bool
  archiveTimeValue : Int
  archiveTimeUnit : TimeUnit
  archiveInIncognito : Bool
  tabSortingEnabled : Bool
deriving DecidableEq, Repr

/-- `DefaultSettings` from src/common/types.ts. -/
def DefaultSettings : ExtensionSettings :=
  { autoArchiveEnabled := true
    archiveTimeValue := 12
    archiveTimeUnit := .hours
    archiveInIncognito := false
    tabSortingEnabled := true }

/-- `chrome.tabGroups.TAB_GROUP_ID_NONE`. -/
def TAB_GROUP_ID_NONE : Int := -1

/-- `chrome.tabs.TAB_ID_NONE`. -/
def TAB_ID_NONE : Int := -1

/-- `chrome.windows.WINDOW_ID_NONE`. -/
def WINDOW_ID_NONE : Int := -1

/-- The view of `chrome.tabs.Tab` used by background.ts: identifier, owning
window, position index within the window, and the flags read by the
eligibility and sorting logic. -/
structure Tab where
  id : Int
  windowId : Int
  index : Nat
  pinned : Bool
  groupId : Int
  incognito : Bool
  active : Bool
deriving DecidableEq, Repr

/-- `archiveThresholdMs` as computed (twice, identically) in
`isTabArchivable` and `startArchiveTimer`:
`settings.archiveTimeValue * (unit === "minutes" ? 60*1000 : 60*60*1000)`. -/
def archiveThresholdMs (settings : ExtensionSettings) : Int :=
  settings.archiveTimeValue *
    (if settings.archiveTimeUnit = TimeUnit.minutes then 60 * 1000 else 60 * 60 * 1000)

/-- `isTabArchivable(tab, lastActiveTime, settings, tabIsEffectivelyActive)`
from background.ts (lines 80–115).  `now` is the value of the `Date.now()`
call the function performs. -/
def isTabArchivable (tab : Tab) (lastActiveTime : Option Int)
    (settings : ExtensionSettings) (tabIsEffectivelyActive : Bool) (now : Int) : Bool :=
  if !settings.autoArchiveEnabled then false
  else if tab.pinned then false
  else if tab.groupId ≠ TAB_GROUP_ID_NONE ∧ tab.groupId ≠ -1 then false
  else if tab.incognito ∧ !settings.archiveInIncognito then false
  else if tabIsEffectivelyActive then false
  else
    match lastActiveTime with
    | none => false
    | some l =>
        let inactiveDurationMs := now - l
        decide (inactiveDurationMs ≥ archiveThresholdMs settings)

/-- Characterization of the eligibility evaluator as a single iff. -/
theorem isTabArchivable_true_iff (tab : Tab) (lastActiveTime : Option Int)
    (settings : ExtensionSettings) (eff : Bool) (now : Int) :
    isTabArchivable tab lastActiveTime settings eff now = true ↔
      (settings.autoArchiveEnabled = true ∧ tab.pinned = false ∧
       tab.groupId = TAB_GROUP_ID_NONE ∧
       (tab.incognito = true → settings.archiveInIncognito = true) ∧
       eff = false ∧
       ∃ l, lastActiveTime = some l ∧ archiveThresholdMs settings ≤ now - l) := by
  unfold isTabArchivable
  split_ifs with h1 h2 h3 h4 h5
  · simp at h1
    simp [h1]
  · simp [h2]
  · have : tab.groupId ≠ TAB_GROUP_ID_NONE := h3.1
    simp [this]
  · rcases h4 with ⟨hi, ha⟩
    simp at ha
    simp [hi, ha]
  · simp [h5]
  · cases lastActiveTime with
    | none => simp
    | some l =>
        simp at h1 h5
        have hg : tab.groupId = TAB_GROUP_ID_NONE := by
          by_contra hne
          exact h3 ⟨hne, by simpa [TAB_GROUP_ID_NONE] using hne⟩
        have hi : tab.incognito = true → settings.archiveInIncognito = true := by
          intro hinc
          by_contra hna
          exact h4 ⟨hinc, by simp [hna]⟩
        simp [h1, h2, hg, hi, h5]
        exact fun _ hinc => hi hinc

/-- **C1.** `isTabArchivable` returns false when auto-archive is disabled, the
tab is pinned, the tab has a non-sentinel groupId, the tab is incognito while
settings disallow it, the tab is effectively active, or no last-active time is
recorded; otherwise it returns true exactly when the inactive duration reaches
`archiveTimeValue * 60000` ms (unit `minutes`) or `archiveTimeValue * 3600000`
ms (unit `hours`). -/
theorem isTabArchivable_spec (tab : Tab) (lastActiveTime : Option Int)
    (settings : ExtensionSettings) (eff : Bool) (now : Int) :
    ((settings.autoArchiveEnabled = false ∨ tab.pinned = true ∨
        tab.groupId ≠ TAB_GROUP_ID_NONE ∨
        (tab.incognito = true ∧ settings.archiveInIncognito = false) ∨
        eff = true ∨ lastActiveTime = none) →
      isTabArchivable tab lastActiveTime settings eff now = false) ∧
    (∀ l, lastActiveTime = some l →
      settings.autoArchiveEnabled = true → tab.pinned = false →
      tab.groupId = TAB_GROUP_ID_NONE →
      (tab.incognito = true → settings.archiveInIncognito = true) → eff = false →
      (isTabArchivable tab lastActiveTime settings eff now = true ↔
        now - l ≥ settings.archiveTimeValue *
          (if settings.archiveTimeUnit = TimeUnit.minutes then 60000 else 3600000))) := by
  have hthr : archiveThresholdMs settings =
      settings.archiveTimeValue *
        (if settings.archiveTimeUnit = TimeUnit.minutes then 60000 else 3600000) := by
    unfold archiveThresholdMs
    norm_num
  constructor
  · intro h
    rcases Bool.eq_false_or_eq_true (isTabArchivable tab lastActiveTime settings eff now)
      with hb | hb
    · exfalso
      rcases (isTabArchivable_true_iff tab lastActiveTime settings eff now).mp hb with
        ⟨he, hp, hg, hi, heff, l, hl, _⟩
      rcases h with h | h | h | ⟨h1, h2⟩ | h | h
      · rw [he] at h; cases h
      · rw [hp] at h; cases h
      · exact h hg
      · rw [hi h1] at h2; cases h2
      · rw [heff] at h; cases h
      · rw [hl] at h; cases h
    · exact hb
  · intro l hl he hp hg hi heff
    rw [isTabArchivable_true_iff]
    constructor
    · rintro ⟨-, -, -, -, -, l', hl', hle⟩
      rw [hl] at hl'
      cases hl'
      rw [hthr] at hle
      exact hle
    · intro hle
      refine ⟨he, hp, hg, hi, heff, l, hl, ?_⟩
      rw [hthr]
      exact hle

/-- Witness for `isTabArchivable_spec`: a tab inactive for 61 minutes with a
60-minute threshold is archivable. -/
theorem isTabArchivable_spec_witness :
    isTabArchivable
      { id := 7, windowId := 1, index := 0, pinned := false, groupId := -1,
        incognito := false, active := false }
      (some 0)
      { autoArchiveEnabled := true, archiveTimeValue := 60, archiveTimeUnit := .minutes,
        archiveInIncognito := false, tabSortingEnabled := true }
      false (61 * 60000) = true := by
  have h := (isTabArchivable_spec
      { id := 7, windowId := 1, index := 0, pinned := false, groupId := -1,
        incognito := false, active := false }
      (some 0)
      { autoArchiveEnabled := true, archiveTimeValue := 60, archiveTimeUnit := .minutes,
        archiveInIncognito := false, tabSortingEnabled := true }
      false (61 * 60000)).2 0 rfl rfl rfl rfl (by intro h; exact absurd h (by decide)) rfl
  exact h.mpr (by decide)

/-! ## Alarm names

`getAlarmName` renders the tab id in decimal after the fixed prefix string
`ARCHIVE_ALARM_PREFIX = "archiveTimer_tab_"` (the template literal
`` `${ARCHIVE_ALARM_PREFIX}${tabId}` ``); `handleAlarm` strips that prefix
and applies `parseInt(..., 10)`.  Strings are modelled as `List Char`. -/

/-- The decimal digit character for `d < 10`. -/
def digitChar (d : Nat) : Char := Char.ofNat (48 + d)

/-- Decimal rendering of a natural number, accumulator form. -/
def natToCharsAux (n : Nat) (acc : List Char) : List Char :=
  if h : n < 10 then digitChar n :: acc
  else natToCharsAux (n / 10) (digitChar (n % 10) :: acc)
termination_by n
decreasing_by
  exact Nat.div_lt_self (by omega) (by omega)

/-- Decimal rendering of a natural number (JS `${n}` for a whole number). -/
def natToChars (n : Nat) : List Char := natToCharsAux n []

/-- JS `${i}` for a whole number of either sign. -/
def intToChars (i : Int) : List Char :=
  if i < 0 then '-' :: natToChars i.natAbs else natToChars i.toNat

/-- The fixed alarm-name lead-in, `ARCHIVE_ALARM_PREFIX` in background.ts. -/
def archiveAlarmNameStem : List Char := "archiveTimer_tab_".toList

/-- `getAlarmName(tabId)` from background.ts (lines 39–41). -/
def getAlarmName (tabId : Int) : List Char :=
  archiveAlarmNameStem ++ intToChars tabId

/-- Whether a character is a decimal digit (`0`–`9`). -/
def isDigitChar (c : Char) : Bool := decide (48 ≤ c.toNat ∧ c.toNat ≤ 57)

/-- Numeric value of a digit character. -/
def digitVal (c : Char) : Nat := c.toNat - 48

/-- Leading-digit-run parse: the digit-consuming part of `parseInt(s, 10)`.
Returns `none` when no leading digit exists (the `NaN` case). -/
def parseNatLead (s : List Char) : Option Nat :=
  let ds := s.takeWhile isDigitChar
  if ds.isEmpty then none
  else some (ds.foldl (fun acc c => acc * 10 + digitVal c) 0)

/-- `parseInt(s, 10)` as used by `handleAlarm`: an optional leading minus sign
followed by a leading run of decimal digits; anything else is `NaN` (`none`).
(The whitespace/plus-sign tolerance of `parseInt` is irrelevant here and not
modelled.) -/
def parseIntChars (s : List Char) : Option Int :=
  match s with
  | [] => none
  | c :: cs =>
      if c = '-' then (parseNatLead cs).map (fun n => -(n : Int))
      else (parseNatLead (c :: cs)).map (fun n => (n : Int))

/-- The tab-id decoding performed by `handleAlarm` (lines 619–622):
prefix test, prefix strip, decimal parse. -/
def alarmNameTabId (name : List Char) : Option Int :=
  if archiveAlarmNameStem.isPrefixOf name then
    parseIntChars (name.drop archiveAlarmNameStem.length)
  else none

theorem natToCharsAux_eq (n : Nat) :
    ∀ acc, natToCharsAux n acc = natToChars n ++ acc := by
  induction n using Nat.strong_induction_on with
  | _ n ih =>
    intro acc
    unfold natToChars natToCharsAux
    by_cases h : n < 10
    · simp [h]
    · have hlt : n / 10 < n := Nat.div_lt_self (by omega) (by omega)
      simp only [h, dif_neg, not_false_iff]
      rw [ih _ hlt, ih _ hlt (digitChar (n % 10) :: [])]
      simp

theorem digitChar_isDigit {d : Nat} (h : d < 10) : isDigitChar (digitChar d) = true := by
  interval_cases d <;> decide

theorem digitVal_digitChar {d : Nat} (h : d < 10) : digitVal (digitChar d) = d := by
  interval_cases d <;> decide

theorem natToChars_all_digits (n : Nat) : ∀ c ∈ natToChars n, isDigitChar c = true := by
  induction n using Nat.strong_induction_on with
  | _ n ih =>
    unfold natToChars natToCharsAux
    by_cases h : n < 10
    · simp only [h, dif_pos]
      intro c hc
      simp at hc
      rw [hc]
      exact digitChar_isDigit h
    · have hlt : n / 10 < n := Nat.div_lt_self (by omega) (by omega)
      simp only [h, dif_neg, not_false_iff]
      rw [natToCharsAux_eq]
      intro c hc
      rcases List.mem_append.mp hc with hc | hc
      · exact ih _ hlt c hc
      · simp at hc
        rw [hc]
        exact digitChar_isDigit (Nat.mod_lt _ (by omega))

theorem natToChars_ne_nil (n : Nat) : natToChars n ≠ [] := by
  unfold natToChars natToCharsAux
  by_cases h : n < 10
  · simp [h]
  · simp only [h, dif_neg, not_false_iff]
    rw [natToCharsAux_eq]
    simp

theorem natToChars_foldl (n : Nat) :
    ∀ a, (natToChars n).foldl (fun acc c => acc * 10 + digitVal c) a =
      a * 10 ^ (natToChars n).length + n := by
  induction n using Nat.strong_induction_on with
  | _ n ih =>
    intro a
    by_cases h : n < 10
    · have : natToChars n = [digitChar n] := by
        unfold natToChars natToCharsAux
        simp [h]
      rw [this]
      simp [digitVal_digitChar h]
    · have hlt : n / 10 < n := Nat.div_lt_self (by omega) (by omega)
      have hsplit : natToChars n = natToChars (n / 10) ++ [digitChar (n % 10)] := by
        conv_lhs => unfold natToChars natToCharsAux
        simp only [h, dif_neg, not_false_iff]
        rw [natToCharsAux_eq]
      rw [hsplit, List.foldl_append, ih _ hlt a]
      simp only [List.foldl_cons, List.foldl_nil, List.length_append, List.length_cons,
        List.length_nil]
      rw [digitVal_digitChar (Nat.mod_lt _ (by omega))]
      have : a * 10 ^ ((natToChars (n / 10)).length + (0 + 1)) =
          a * 10 ^ (natToChars (n / 10)).length * 10 := by
        ring
      rw [this]
      have := Nat.div_add_mod n 10
      omega

theorem parseNatLead_natToChars (n : Nat) : parseNatLead (natToChars n) = some n := by
  unfold parseNatLead
  have htake : (natToChars n).takeWhile isDigitChar = natToChars n := by
    apply List.takeWhile_eq_self_iff.mpr
    intro c hc
    exact natToChars_all_digits n c hc
  rw [htake]
  have hne := natToChars_ne_nil n
  simp only [List.isEmpty_iff, hne, if_false]
  rw [natToChars_foldl n 0]
  simp

theorem natToChars_head_digit (n : Nat) :
    ∃ c cs, natToChars n = c :: cs ∧ isDigitChar c = true := by
  cases hn : natToChars n with
  | nil => exact absurd hn (natToChars_ne_nil n)
  | cons c cs =>
      refine ⟨c, cs, rfl, ?_⟩
      have := natToChars_all_digits n c (by rw [hn]; exact List.mem_cons_self c cs)
      exact this

theorem parseIntChars_natToChars (n : Nat) :
    parseIntChars (natToChars n) = some (n : Int) := by
  rcases natToChars_head_digit n with ⟨c, cs, hcons, hdig⟩
  have hcne : ¬(c = '-') := by
    intro hc
    rw [hc] at hdig
    simp [isDigitChar] at hdig
  rw [hcons]
  unfold parseIntChars
  simp only [hcne, if_false]
  rw [← hcons, parseNatLead_natToChars n]
  simp

/-- Round trip through the alarm-name wire format for nonnegative ids. -/
theorem alarmNameTabId_getAlarmName (tabId : Int) (h : 0 ≤ tabId) :
    alarmNameTabId (getAlarmName tabId) = some tabId := by
  unfold alarmNameTabId getAlarmName
  have hpre : archiveAlarmNameStem.isPrefixOf (archiveAlarmNameStem ++ intToChars tabId)
      = true := by
    rw [List.isPrefixOf_iff_prefix]
    exact List.prefix_append _ _
  rw [if_pos hpre, List.drop_left]
  unfold intToChars
  have hneg : ¬(tabId < 0) := by omega
  simp only [hneg, if_false]
  rw [parseIntChars_natToChars]
  congr 1
  omega

/-- **C9.** The timer-name derivation is pure, collision-free and reversible:
`getAlarmName(id)` is the fixed prefix followed by the decimal rendering of
`id`; distinct valid (nonnegative) ids give distinct names; and `handleAlarm`'s
decoding (strip the prefix, `parseInt` base 10) recovers the id exactly. -/
theorem getAlarmName_wire_format (tabId : Int) (h : 0 ≤ tabId) :
    getAlarmName tabId = archiveAlarmNameStem ++ intToChars tabId ∧
    alarmNameTabId (getAlarmName tabId) = some tabId ∧
    (∀ tabId2 : Int, 0 ≤ tabId2 → getAlarmName tabId = getAlarmName tabId2 →
      tabId = tabId2) := by
  refine ⟨rfl, alarmNameTabId_getAlarmName tabId h, ?_⟩
  intro tabId2 h2 heq
  have := alarmNameTabId_getAlarmName tabId h
  rw [heq, alarmNameTabId_getAlarmName tabId2 h2] at this
  exact (Option.some_inj.mp this).symm

/-- Witness for `getAlarmName_wire_format` at id 42. -/
theorem getAlarmName_wire_format_witness :
    alarmNameTabId (getAlarmName 42) = some 42 :=
  (getAlarmName_wire_format 42 (by decide)).2.1

/-! ## Process state

`tabLastActiveTimes : Map<number, number>` is the Activity Ledger, modelled
as a function; the chrome alarm set is modelled as a list of
(name, delayInMinutes) registrations.  `chrome.alarms.create` replaces an
alarm with the same name; the model appends instead, so that the
one-timer-per-tab invariant proved below is established by the code's own
clear-before-create discipline and not by the collaborator's semantics
(a conservative model of the Timer Service). -/

/-- The Activity Ledger: tab id to last-active timestamp. -/
def Ledger : Type := Int → Option Int

/-- `tabLastActiveTimes.set(tabId, v)`. -/
def ledgerSet (led : Ledger) (tabId v : Int) : Ledger :=
  fun j => if j = tabId then some v else led j

/-- `tabLastActiveTimes.delete(tabId)`. -/
def ledgerDelete (led : Ledger) (tabId : Int) : Ledger :=
  fun j => if j = tabId then none else led j

/-- The extension's process-wide mutable state. -/
structure BgState where
  tabLastActiveTimes : Ledger
  alarms : List (List Char × ℚ)

/-- `chrome.alarms.clear(name)`: drops every registration with that name. -/
def alarmsClear (alarms : List (List Char × ℚ)) (name : List Char) :
    List (List Char × ℚ) :=
  alarms.filter (fun a => a.1 ≠ name)

/-- `chrome.alarms.create(name, {delayInMinutes})` under the conservative
multiset model (see above). -/
def alarmsCreate (alarms : List (List Char × ℚ)) (name : List Char) (d : ℚ) :
    List (List Char × ℚ) :=
  alarms ++ [(name, d)]

/-- Number of outstanding registrations with a given name. -/
def alarmCount (alarms : List (List Char × ℚ)) (name : List Char) : Nat :=
  alarms.countP (fun a => a.1 = name)

/-- `updateTabLastActiveTime(tabId)` (lines 47–51); `now` is the `Date.now()`
value. -/
def updateTabLastActiveTime (st : BgState) (tabId now : Int) : BgState :=
  if tabId = TAB_ID_NONE then st
  else { st with tabLastActiveTimes := ledgerSet st.tabLastActiveTimes tabId now }

/-- `cancelArchiveTimer(tabId)` (lines 194–198). -/
def cancelArchiveTimer (st : BgState) (tabId : Int) : BgState :=
  if tabId = TAB_ID_NONE then st
  else { st with alarms := alarmsClear st.alarms (getAlarmName tabId) }

/-! ## Eviction Executor (`archiveTab`) -/

/-- Result of one `chrome.tabs.remove` attempt: success, the recognized
transient "Tabs cannot be edited right now" error, or any other error. -/
inductive RemoveResult where
  | ok
  | errTransient
  | errOther
deriving DecidableEq, Repr

/-- `MAX_RETRIES` in `archiveTab`. -/
def MAX_RETRIES : Nat := 5

/-- How the `while` retry loop in `archiveTab` (lines 229–251) ends. -/
inductive RemoveLoopResult where
  | success (attempt : Nat)
  | thrown (transient : Bool) (attemptsMade : Nat)
  | exhausted (retries : Nat)
deriving DecidableEq, Repr

/-- The retry loop of `archiveTab`: `res k` is the outcome of the k-th
(0-based) `chrome.tabs.remove` attempt.  `fuel` encodes the
`while (retries < MAX_RETRIES)` guard: the loop is entered with
`retries = 0` and `fuel = MAX_RETRIES`, and `fuel = MAX_RETRIES - retries`
is maintained, so `fuel = 0` exactly when the guard fails. -/
def tabsRemoveLoop (res : Nat → RemoveResult) : Nat → Nat → RemoveLoopResult
  | retries, 0 => .exhausted retries
  | retries, fuel + 1 =>
      match res retries with
      | .ok => .success retries
      | .errTransient =>
          if retries < MAX_RETRIES - 1 then tabsRemoveLoop res (retries + 1) fuel
          else .thrown true (retries + 1)
      | .errOther => .thrown false (retries + 1)

/-- The failure captured by the outer `catch` of `archiveTab`. -/
inductive ArchiveFailure where
  | tabNotFound
  | removeThrown (transient : Bool) (attemptsMade : Nat)
deriving DecidableEq, Repr

/-- Outcome of one `archiveTab` call. -/
inductive ArchiveOutcome where
  | earlyReturn
  | removed (attempt : Nat)
  | exhaustedLogged
  | notEligible
  | caught (e : ArchiveFailure)
deriving DecidableEq, Repr

/-- Oracle inputs of one `archiveTab` call: the result of the
`chrome.tabs.get` fallback, the `isTabEffectivelyActive` round trip, the
`Date.now()` reading inside `isTabArchivable`, and the per-attempt
`chrome.tabs.remove` results. -/
structure ArchiveEnv where
  tabGet : Option Tab
  effActive : Bool
  now : Int
  removeRes : Nat → RemoveResult

/-- `archiveTab(tabId, tabForCheck?)` (lines 206–270).  The `finally` block
(ledger delete + alarm clear) applies on every path except the guard-clause
early return, exactly as in the source. -/
def archiveTab (cs : Option ExtensionSettings) (tabId : Int) (tabForCheck : Option Tab)
    (env : ArchiveEnv) (st : BgState) : ArchiveOutcome × BgState :=
  match cs with
  | none => (.earlyReturn, st)
  | some settings =>
      if tabId = TAB_ID_NONE then (.earlyReturn, st)
      else
        let outcome :=
          match tabForCheck.orElse (fun _ => env.tabGet) with
          | none => ArchiveOutcome.caught .tabNotFound
          | some tab =>
              if isTabArchivable tab (st.tabLastActiveTimes tabId) settings
                  env.effActive env.now then
                match tabsRemoveLoop env.removeRes 0 MAX_RETRIES with
                | .success a => ArchiveOutcome.removed a
                | .thrown t n => ArchiveOutcome.caught (.removeThrown t n)
                | .exhausted _ => ArchiveOutcome.exhaustedLogged
              else ArchiveOutcome.notEligible
        (outcome,
          { tabLastActiveTimes := ledgerDelete st.tabLastActiveTimes tabId
            alarms := alarmsClear st.alarms (getAlarmName tabId) })

theorem alarmCount_clear_self (alarms : List (List Char × ℚ)) (name : List Char) :
    alarmCount (alarmsClear alarms name) name = 0 := by
  unfold alarmCount alarmsClear
  rw [List.countP_eq_zero]
  intro a ha
  have := (List.mem_filter.mp ha).2
  simpa using this

theorem alarmCount_clear_ne (alarms : List (List Char × ℚ)) {name n : List Char}
    (h : n ≠ name) :
    alarmCount (alarmsClear alarms name) n = alarmCount alarms n := by
  unfold alarmCount alarmsClear
  induction alarms with
  | nil => rfl
  | cons a as ih =>
      simp only [List.filter_cons, List.countP_cons, ne_eq, decide_not] at ih ⊢
      by_cases h1 : a.1 = name
      · have hne : (decide (a.1 = n)) = false :=
          decide_eq_false (by rw [h1]; exact fun hc => h hc.symm)
        simp [h1, hne, ih]
        exact fun hc => h hc.symm
      · have hcond : (!decide (a.1 = name)) = true := by simp [h1]
        rw [if_pos hcond, List.countP_cons, ih]

theorem alarmCount_alarmsClear (alarms : List (List Char × ℚ)) (name n : List Char) :
    alarmCount (alarmsClear alarms name) n = if n = name then 0 else alarmCount alarms n := by
  by_cases h : n = name
  · subst h
    simp [alarmCount_clear_self]
  · simp [h, alarmCount_clear_ne alarms h]

theorem alarmCount_alarmsCreate (alarms : List (List Char × ℚ)) (name n : List Char)
    (d : ℚ) :
    alarmCount (alarmsCreate alarms name d) n =
      alarmCount alarms n + (if n = name then 1 else 0) := by
  unfold alarmCount alarmsCreate
  rw [List.countP_append]
  congr 1
  rw [List.countP_cons]
  simp only [List.countP_nil]
  by_cases h : n = name
  · subst h
    simp
  · have : ¬(name = n) := fun hc => h hc.symm
    simp [this, h]

/-- On every non-early-return path, `archiveTab` ends in the `finally` state:
ledger entry deleted, alarm name cleared. -/
theorem archiveTab_snd (settings : ExtensionSettings) (tabId : Int)
    (tabForCheck : Option Tab) (env : ArchiveEnv) (st : BgState)
    (hid : tabId ≠ TAB_ID_NONE) :
    (archiveTab (some settings) tabId tabForCheck env st).2 =
      { tabLastActiveTimes := ledgerDelete st.tabLastActiveTimes tabId
        alarms := alarmsClear st.alarms (getAlarmName tabId) } := by
  unfold archiveTab
  simp [hid]

theorem tabsRemoveLoop_ok (res : Nat → RemoveResult) (r fuel : Nat)
    (h : res r = .ok) :
    tabsRemoveLoop res r (fuel + 1) = .success r := by
  unfold tabsRemoveLoop
  rw [h]

theorem tabsRemoveLoop_transient_step (res : Nat → RemoveResult) (r fuel : Nat)
    (h : res r = .errTransient) (hlt : r < MAX_RETRIES - 1) :
    tabsRemoveLoop res r (fuel + 1) = tabsRemoveLoop res (r + 1) fuel := by
  conv_lhs => unfold tabsRemoveLoop
  rw [h, if_pos hlt]

theorem tabsRemoveLoop_transient_last (res : Nat → RemoveResult) (r fuel : Nat)
    (h : res r = .errTransient) (hge : ¬r < MAX_RETRIES - 1) :
    tabsRemoveLoop res r (fuel + 1) = .thrown true (r + 1) := by
  unfold tabsRemoveLoop
  rw [h]
  simp [hge]

theorem tabsRemoveLoop_other (res : Nat → RemoveResult) (r fuel : Nat)
    (h : res r = .errOther) :
    tabsRemoveLoop res r (fuel + 1) = .thrown false (r + 1) := by
  unfold tabsRemoveLoop
  rw [h]

/-- On the still-eligible path the outcome of `archiveTab` is the outcome of
the retry loop. -/
theorem archiveTab_fst_eligible (settings : ExtensionSettings) (tabId : Int)
    (tabForCheck : Option Tab) (env : ArchiveEnv) (st : BgState) (tab : Tab)
    (hid : tabId ≠ TAB_ID_NONE)
    (htab : tabForCheck.orElse (fun _ => env.tabGet) = some tab)
    (helig : isTabArchivable tab (st.tabLastActiveTimes tabId) settings
        env.effActive env.now = true) :
    (archiveTab (some settings) tabId tabForCheck env st).1 =
      match tabsRemoveLoop env.removeRes 0 MAX_RETRIES with
      | .success a => ArchiveOutcome.removed a
      | .thrown t n1 => ArchiveOutcome.caught (.removeThrown t n1)
      | .exhausted _ => ArchiveOutcome.exhaustedLogged := by
  unfold archiveTab
  simp [hid, htab, helig]

/-- **C2.** On a still-eligible eviction attempt: four transient-lock
failures followed by a success yield a successful removal on the 5th attempt;
five transient-lock failures yield a caught-and-logged failure after exactly
5 attempts (no crash); a non-transient error is not retried (it aborts after
1 attempt); and in every case the `finally` cleanup (ledger entry deleted,
timer cleared) runs. -/
theorem archiveTab_retry_spec (settings : ExtensionSettings) (tabId : Int)
    (tabForCheck : Option Tab) (env : ArchiveEnv) (st : BgState) (tab : Tab)
    (hid : tabId ≠ TAB_ID_NONE)
    (htab : tabForCheck.orElse (fun _ => env.tabGet) = some tab)
    (helig : isTabArchivable tab (st.tabLastActiveTimes tabId) settings
        env.effActive env.now = true) :
    ((∀ k, k < 4 → env.removeRes k = .errTransient) → env.removeRes 4 = .ok →
      (archiveTab (some settings) tabId tabForCheck env st).1 = .removed 4) ∧
    ((∀ k, k < 5 → env.removeRes k = .errTransient) →
      (archiveTab (some settings) tabId tabForCheck env st).1 =
        .caught (.removeThrown true 5)) ∧
    (env.removeRes 0 = .errOther →
      (archiveTab (some settings) tabId tabForCheck env st).1 =
        .caught (.removeThrown false 1)) ∧
    ((archiveTab (some settings) tabId tabForCheck env st).2.tabLastActiveTimes tabId
        = none ∧
     alarmCount (archiveTab (some settings) tabId tabForCheck env st).2.alarms
        (getAlarmName tabId) = 0) := by
  have hfst := archiveTab_fst_eligible settings tabId tabForCheck env st tab hid htab helig
  refine ⟨?_, ?_, ?_, ?_⟩
  · intro htr hok
    have e0 : tabsRemoveLoop env.removeRes 0 MAX_RETRIES
        = tabsRemoveLoop env.removeRes 1 4 :=
      tabsRemoveLoop_transient_step env.removeRes 0 4 (htr 0 (by omega)) (by decide)
    have e1 : tabsRemoveLoop env.removeRes 1 4 = tabsRemoveLoop env.removeRes 2 3 :=
      tabsRemoveLoop_transient_step env.removeRes 1 3 (htr 1 (by omega)) (by decide)
    have e2 : tabsRemoveLoop env.removeRes 2 3 = tabsRemoveLoop env.removeRes 3 2 :=
      tabsRemoveLoop_transient_step env.removeRes 2 2 (htr 2 (by omega)) (by decide)
    have e3 : tabsRemoveLoop env.removeRes 3 2 = tabsRemoveLoop env.removeRes 4 1 :=
      tabsRemoveLoop_transient_step env.removeRes 3 1 (htr 3 (by omega)) (by decide)
    have e4 : tabsRemoveLoop env.removeRes 4 1 = .success 4 :=
      tabsRemoveLoop_ok env.removeRes 4 0 hok
    rw [hfst, e0, e1, e2, e3, e4]
  · intro htr
    have e0 : tabsRemoveLoop env.removeRes 0 MAX_RETRIES
        = tabsRemoveLoop env.removeRes 1 4 :=
      tabsRemoveLoop_transient_step env.removeRes 0 4 (htr 0 (by omega)) (by decide)
    have e1 : tabsRemoveLoop env.removeRes 1 4 = tabsRemoveLoop env.removeRes 2 3 :=
      tabsRemoveLoop_transient_step env.removeRes 1 3 (htr 1 (by omega)) (by decide)
    have e2 : tabsRemoveLoop env.removeRes 2 3 = tabsRemoveLoop env.removeRes 3 2 :=
      tabsRemoveLoop_transient_step env.removeRes 2 2 (htr 2 (by omega)) (by decide)
    have e3 : tabsRemoveLoop env.removeRes 3 2 = tabsRemoveLoop env.removeRes 4 1 :=
      tabsRemoveLoop_transient_step env.removeRes 3 1 (htr 3 (by omega)) (by decide)
    have e4 : tabsRemoveLoop env.removeRes 4 1 = .thrown true 5 :=
      tabsRemoveLoop_transient_last env.removeRes 4 0 (htr 4 (by omega)) (by decide)
    rw [hfst, e0, e1, e2, e3, e4]
  · intro hother
    have e0 : tabsRemoveLoop env.removeRes 0 MAX_RETRIES = .thrown false 1 :=
      tabsRemoveLoop_other env.removeRes 0 4 hother
    rw [hfst, e0]
  · rw [archiveTab_snd settings tabId tabForCheck env st hid]
    constructor
    · simp [ledgerDelete]
    · rw [alarmCount_alarmsClear]
      simp

/-- Witness for `archiveTab_retry_spec`: four transient failures then success
evicts on the fifth attempt. -/
theorem archiveTab_retry_spec_witness :
    (archiveTab (some DefaultSettings) 9 (some
        { id := 9, windowId := 1, index := 0, pinned := false, groupId := -1,
          incognito := false, active := false })
        { tabGet := none, effActive := false, now := 100000000,
          removeRes := fun k => if k < 4 then .errTransient else .ok }
        { tabLastActiveTimes := fun j => if j = 9 then some 0 else none
          alarms := [] }).1 = .removed 4 := by
  have h := (archiveTab_retry_spec DefaultSettings 9 (some
      { id := 9, windowId := 1, index := 0, pinned := false, groupId := -1,
        incognito := false, active := false })
      { tabGet := none, effActive := false, now := 100000000,
        removeRes := fun k => if k < 4 then .errTransient else .ok }
      { tabLastActiveTimes := fun j => if j = 9 then some 0 else none
        alarms := [] }
      { id := 9, windowId := 1, index := 0, pinned := false, groupId := -1,
        incognito := false, active := false }
      (by decide) rfl (by decide)).1
  exact h (by intro k hk; interval_cases k <;> rfl) rfl

/-- **C3.** With settings loaded and a valid id, every `archiveTab` call —
whatever its outcome — terminates with no ledger entry for the id and no
outstanding alarm with the id's derived name. -/
theorem archiveTab_no_leak (settings : ExtensionSettings) (tabId : Int)
    (tabForCheck : Option Tab) (env : ArchiveEnv) (st : BgState)
    (hid : tabId ≠ TAB_ID_NONE) :
    (archiveTab (some settings) tabId tabForCheck env st).2.tabLastActiveTimes tabId
        = none ∧
    alarmCount (archiveTab (some settings) tabId tabForCheck env st).2.alarms
        (getAlarmName tabId) = 0 := by
  rw [archiveTab_snd settings tabId tabForCheck env st hid]
  constructor
  · simp [ledgerDelete]
  · rw [alarmCount_alarmsClear]
    simp

/-- Witness for `archiveTab_no_leak`: a concrete call on a missing tab leaves
no ledger entry and no alarm for the id. -/
theorem archiveTab_no_leak_witness :
    (archiveTab (some DefaultSettings) 3 none
        { tabGet := none, effActive := false, now := 0, removeRes := fun _ => .ok }
        { tabLastActiveTimes := fun j => if j = 3 then some 5 else none
          alarms := [(getAlarmName 3, 1)] }).2.tabLastActiveTimes 3 = none := by
  have h := archiveTab_no_leak DefaultSettings 3 none
      { tabGet := none, effActive := false, now := 0, removeRes := fun _ => .ok }
      { tabLastActiveTimes := fun j => if j = 3 then some 5 else none
        alarms := [(getAlarmName 3, 1)] }
      (by decide)
  exact h.1

/-! ## Expiration Scheduler (`startArchiveTimer`) -/

/-- The `delayInMinutes` computation of `startArchiveTimer` (lines 163–172).
JS truthiness is preserved: `if (lastActiveTime)` skips the computation not
only when the ledger has no entry but also when the recorded timestamp is the
(falsy) number 0.  `nowDelay` is the `Date.now()` call at line 170. -/
def computeDelayInMinutes (settings : ExtensionSettings) (lastActiveTime : Option Int)
    (nowDelay : Int) : ℚ :=
  match lastActiveTime with
  | none => 0
  | some l =>
      if l = 0 then 0
      else
        max 0 ((((archiveThresholdMs settings : Int) : ℚ) -
          ((nowDelay : ℚ) - (l : ℚ))) / (60 * 1000))

/-- Outcome of one `startArchiveTimer` call. -/
inductive ArmOutcome where
  | earlyReturn
  | tabMissing
  | cancelledActive
  | archivedNow (o : ArchiveOutcome)
  | timerCreated (delayInMinutes : ℚ)
  | notArchivable
deriving DecidableEq, Repr

/-- Oracle inputs of one `startArchiveTimer` call: the `chrome.tabs.get`
fallback, the `isTabEffectivelyActive` round trip, the `Date.now()` readings
inside `isTabArchivable` (`nowElig`) and in the delay computation
(`nowDelay`), and the oracle for the possible synchronous `archiveTab`. -/
structure ArmEnv where
  tabGet : Option Tab
  effActive : Bool
  nowElig : Int
  nowDelay : Int
  archiveEnv : ArchiveEnv

/-- `startArchiveTimer(tabId, tabInfoProvided?)` (lines 122–188). -/
def startArchiveTimer (cs : Option ExtensionSettings) (tabId : Int)
    (tabInfoProvided : Option Tab) (env : ArmEnv) (st : BgState) :
    ArmOutcome × BgState :=
  match cs with
  | none => (.earlyReturn, st)
  | some settings =>
      if ¬settings.autoArchiveEnabled ∨ tabId = TAB_ID_NONE then (.earlyReturn, st)
      else
        let st1 : BgState :=
          { st with alarms := alarmsClear st.alarms (getAlarmName tabId) }
        match tabInfoProvided.orElse (fun _ => env.tabGet) with
        | none => (.tabMissing, st1)
        | some tabInfo =>
            if env.effActive then (.cancelledActive, cancelArchiveTimer st1 tabId)
            else
              let lastActiveTime := st1.tabLastActiveTimes tabId
              if isTabArchivable tabInfo lastActiveTime settings env.effActive
                  env.nowElig then
                let delayInMinutes :=
                  computeDelayInMinutes settings lastActiveTime env.nowDelay
                if delayInMinutes < (0.016 : ℚ) then
                  let r := archiveTab (some settings) tabId (some tabInfo)
                    env.archiveEnv st1
                  (.archivedNow r.1, r.2)
                else
                  (.timerCreated delayInMinutes,
                    { st1 with alarms :=
                        alarmsCreate st1.alarms (getAlarmName tabId) delayInMinutes })
              else (.notArchivable, st1)

/-- **C10.** Whenever `startArchiveTimer` finds the tab archivable, under a
non-decreasing clock the computed `delayInMinutes` is 0, so the
under-one-second branch fires, `archiveTab` runs synchronously, and no alarm
with a positive delay is ever created — the `chrome.alarms.create` branch is
unreachable. -/
theorem startArchiveTimer_archivable_immediate (settings : ExtensionSettings)
    (tabId : Int) (tabInfoProvided : Option Tab) (env : ArmEnv) (st : BgState)
    (tabInfo : Tab)
    (henabled : settings.autoArchiveEnabled = true)
    (hid : tabId ≠ TAB_ID_NONE)
    (htab : tabInfoProvided.orElse (fun _ => env.tabGet) = some tabInfo)
    (heff : env.effActive = false)
    (helig : isTabArchivable tabInfo (st.tabLastActiveTimes tabId) settings
        env.effActive env.nowElig = true)
    (hclock : env.nowElig ≤ env.nowDelay)
    (hthr : 0 < archiveThresholdMs settings) :
    computeDelayInMinutes settings (st.tabLastActiveTimes tabId) env.nowDelay = 0 ∧
    (startArchiveTimer (some settings) tabId tabInfoProvided env st).1 =
      .archivedNow (archiveTab (some settings) tabId (some tabInfo) env.archiveEnv
        { st with alarms := alarmsClear st.alarms (getAlarmName tabId) }).1 ∧
    (∀ d : ℚ, (startArchiveTimer (some settings) tabId tabInfoProvided env st).1 ≠
      .timerCreated d) := by
  have hdelay : computeDelayInMinutes settings (st.tabLastActiveTimes tabId)
      env.nowDelay = 0 := by
    rcases (isTabArchivable_true_iff tabInfo (st.tabLastActiveTimes tabId) settings
        env.effActive env.nowElig).mp helig with ⟨-, -, -, -, -, l, hl, hle⟩
    rw [hl]
    unfold computeDelayInMinutes
    by_cases hl0 : l = 0
    · simp [hl0]
    · simp only [hl0, if_false]
      have hnum : (((archiveThresholdMs settings : Int) : ℚ) -
          ((env.nowDelay : ℚ) - (l : ℚ))) ≤ 0 := by
        have h1 : ((archiveThresholdMs settings : Int) : ℚ) ≤
            ((env.nowElig : ℚ) - (l : ℚ)) := by
          exact_mod_cast hle
        have h2 : ((env.nowElig : ℚ) - (l : ℚ)) ≤ ((env.nowDelay : ℚ) - (l : ℚ)) := by
          have : (env.nowElig : ℚ) ≤ (env.nowDelay : ℚ) := by exact_mod_cast hclock
          linarith
        linarith
      have hdiv : (((archiveThresholdMs settings : Int) : ℚ) -
          ((env.nowDelay : ℚ) - (l : ℚ))) / (60 * 1000) ≤ 0 := by
        apply div_nonpos_of_nonpos_of_nonneg hnum
        norm_num
      simp [max_eq_left hdiv]
  have hguard : ¬(¬settings.autoArchiveEnabled ∨ tabId = TAB_ID_NONE) := by
    simp [henabled, hid]
  rw [heff] at helig
  refine ⟨hdelay, ?_, ?_⟩
  · unfold startArchiveTimer
    simp only [hguard, if_false, htab, heff, Bool.false_eq_true, hdelay]
    norm_num
    simp [helig]
  · intro d
    unfold startArchiveTimer
    simp only [hguard, if_false, htab, heff, Bool.false_eq_true, hdelay]
    norm_num
    simp [helig]

/-- Witness for `startArchiveTimer_archivable_immediate`: a long-idle tab is
archived synchronously. -/
theorem startArchiveTimer_archivable_immediate_witness :
    (startArchiveTimer (some DefaultSettings) 4 (some
        { id := 4, windowId := 1, index := 0, pinned := false, groupId := -1,
          incognito := false, active := false })
        { tabGet := none, effActive := false, nowElig := 100000000,
          nowDelay := 100000000,
          archiveEnv := { tabGet := none, effActive := false, now := 100000000,
                          removeRes := fun _ => .ok } }
        { tabLastActiveTimes := fun j => if j = 4 then some 1 else none
          alarms := [] }).1 =
      .archivedNow (.removed 0) := by
  have h := (startArchiveTimer_archivable_immediate DefaultSettings 4 (some
      { id := 4, windowId := 1, index := 0, pinned := false, groupId := -1,
        incognito := false, active := false })
      { tabGet := none, effActive := false, nowElig := 100000000,
        nowDelay := 100000000,
        archiveEnv := { tabGet := none, effActive := false, now := 100000000,
                        removeRes := fun _ => .ok } }
      { tabLastActiveTimes := fun j => if j = 4 then some 1 else none
        alarms := [] }
      { id := 4, windowId := 1, index := 0, pinned := false, groupId := -1,
        incognito := false, active := false }
      rfl (by decide) rfl rfl (by decide) (by decide) (by decide)).2.1
  rw [h]
  rfl

/-! ## Timer arm/disarm sequences -/

theorem alarmsClear_append (l m : List (List Char × ℚ)) (name : List Char) :
    alarmsClear (l ++ m) name = alarmsClear l name ++ alarmsClear m name := by
  unfold alarmsClear
  rw [List.filter_append]

theorem alarmsClear_idem (l : List (List Char × ℚ)) (name : List Char) :
    alarmsClear (alarmsClear l name) name = alarmsClear l name := by
  unfold alarmsClear
  rw [List.filter_filter]
  apply List.filter_congr
  intro a _
  by_cases h : a.1 = name <;> simp [h]

theorem alarmsClear_single_self (name : List Char) (d : ℚ) :
    alarmsClear [(name, d)] name = [] := by
  unfold alarmsClear
  simp

theorem alarmsClear_alarmsCreate_self (l : List (List Char × ℚ)) (name : List Char)
    (d : ℚ) :
    alarmsClear (alarmsCreate (alarmsClear l name) name d) name = alarmsClear l name := by
  unfold alarmsCreate
  rw [alarmsClear_append, alarmsClear_idem, alarmsClear_single_self]
  simp

/-- The alarm list after `startArchiveTimer` has one of four shapes: untouched
(guard-clause return), cleared, cleared twice (the cancel-on-active path and
the synchronous-archive path), or cleared then re-created under the same
name. -/
theorem startArchiveTimer_alarms_shape (cs : Option ExtensionSettings) (tabId : Int)
    (tabInfoProvided : Option Tab) (env : ArmEnv) (st : BgState) :
    (startArchiveTimer cs tabId tabInfoProvided env st).2.alarms = st.alarms ∨
    (startArchiveTimer cs tabId tabInfoProvided env st).2.alarms =
      alarmsClear st.alarms (getAlarmName tabId) ∨
    (startArchiveTimer cs tabId tabInfoProvided env st).2.alarms =
      alarmsClear (alarmsClear st.alarms (getAlarmName tabId)) (getAlarmName tabId) ∨
    (∃ d, (startArchiveTimer cs tabId tabInfoProvided env st).2.alarms =
      alarmsCreate (alarmsClear st.alarms (getAlarmName tabId)) (getAlarmName tabId) d) := by
  cases cs with
  | none => exact Or.inl rfl
  | some settings =>
      by_cases hg : ¬settings.autoArchiveEnabled ∨ tabId = TAB_ID_NONE
      · rcases hg with hg | hg
        · refine Or.inl ?_
          simp [startArchiveTimer, hg]
        · refine Or.inl ?_
          simp [startArchiveTimer, hg]
      · have hid : tabId ≠ TAB_ID_NONE := fun hc => hg (Or.inr hc)
        have hen : settings.autoArchiveEnabled = true := by
          by_contra hc
          exact hg (Or.inl (by simpa using hc))
        cases htab : tabInfoProvided.orElse (fun _ => env.tabGet) with
        | none =>
            refine Or.inr (Or.inl ?_)
            simp [startArchiveTimer, hen, hid, htab]
        | some tabInfo =>
            by_cases heff : env.effActive
            · refine Or.inr (Or.inr (Or.inl ?_))
              simp [startArchiveTimer, hen, hid, htab, heff, cancelArchiveTimer]
            · have heff' : env.effActive = false := by simpa using heff
              by_cases harch : isTabArchivable tabInfo
                  (st.tabLastActiveTimes tabId) settings false env.nowElig
              · by_cases hd : computeDelayInMinutes settings (st.tabLastActiveTimes tabId)
                    env.nowDelay < (0.016 : ℚ)
                · refine Or.inr (Or.inr (Or.inl ?_))
                  simp only [startArchiveTimer, hen, hid, htab, heff', harch, hd, if_true,
                    if_false, Bool.false_eq_true]
                  rw [archiveTab_snd _ _ _ _ _ hid]
                  simp [hen, hid]
                · refine Or.inr (Or.inr (Or.inr
                    ⟨computeDelayInMinutes settings (st.tabLastActiveTimes tabId)
                      env.nowDelay, ?_⟩))
                  simp [startArchiveTimer, hen, hid, htab, heff', harch, hd]
              · refine Or.inr (Or.inl ?_)
                simp [startArchiveTimer, hen, hid, htab, heff', harch]

/-- `cancelArchiveTimer` leaves the alarm list untouched or cleared. -/
theorem cancelArchiveTimer_alarms_shape (st : BgState) (tabId : Int) :
    (cancelArchiveTimer st tabId).alarms = st.alarms ∨
    (cancelArchiveTimer st tabId).alarms = alarmsClear st.alarms (getAlarmName tabId) := by
  unfold cancelArchiveTimer
  by_cases h : tabId = TAB_ID_NONE
  · simp [h]
  · simp [h]

/-- One interleaved Expiration Scheduler operation: an arm
(`startArchiveTimer`) or a disarm (`cancelArchiveTimer`), with the oracle
inputs it observes. -/
inductive TimerOp where
  | arm (cs : Option ExtensionSettings) (tabId : Int) (tabInfoProvided : Option Tab)
      (env : ArmEnv)
  | disarm (tabId : Int)

/-- Apply one timer operation to the process state. -/
def applyTimerOp (st : BgState) : TimerOp → BgState
  | .arm cs tabId tabInfoProvided env =>
      (startArchiveTimer cs tabId tabInfoProvided env st).2
  | .disarm tabId => cancelArchiveTimer st tabId

/-- Apply a finite sequence of timer operations in order. -/
def applyTimerOps (st : BgState) (ops : List TimerOp) : BgState :=
  ops.foldl applyTimerOp st

theorem alarmCount_le_one_clear (st : List (List Char × ℚ)) (name n : List Char)
    (h : alarmCount st n ≤ 1) : alarmCount (alarmsClear st name) n ≤ 1 := by
  rw [alarmCount_alarmsClear]
  by_cases hn : n = name
  · simp [hn]
  · simp [hn, h]

theorem applyTimerOp_count_le (st : BgState) (op : TimerOp) (n : List Char)
    (h : alarmCount st.alarms n ≤ 1) :
    alarmCount (applyTimerOp st op).alarms n ≤ 1 := by
  cases op with
  | arm cs tabId tabInfoProvided env =>
      rcases startArchiveTimer_alarms_shape cs tabId tabInfoProvided env st with
        hs | hs | hs | ⟨d, hs⟩
      · rw [applyTimerOp, hs]; exact h
      · rw [applyTimerOp, hs]; exact alarmCount_le_one_clear _ _ _ h
      · rw [applyTimerOp, hs]
        exact alarmCount_le_one_clear _ _ _ (alarmCount_le_one_clear _ _ _ h)
      · rw [applyTimerOp, hs, alarmCount_alarmsCreate, alarmCount_alarmsClear]
        by_cases hn : n = getAlarmName tabId
        · simp [hn]
        · simp [hn, h]
  | disarm tabId =>
      rcases cancelArchiveTimer_alarms_shape st tabId with hs | hs
      · rw [applyTimerOp, hs]; exact h
      · rw [applyTimerOp, hs]; exact alarmCount_le_one_clear _ _ _ h

/-- **C6.** After any finite interleaved sequence of arm/disarm operations
starting from a state with at most one registration per name, every
identifier still has at most one outstanding timer: every arm clears the
identifier's derived name before (possibly) creating one registration under
it, and every other path only clears. -/
theorem timer_per_tab_at_most_one (st : BgState) (ops : List TimerOp)
    (h : ∀ n, alarmCount st.alarms n ≤ 1) (tabId : Int) :
    alarmCount (applyTimerOps st ops).alarms (getAlarmName tabId) ≤ 1 := by
  suffices hall : ∀ n, alarmCount (applyTimerOps st ops).alarms n ≤ 1 by
    exact hall (getAlarmName tabId)
  induction ops generalizing st with
  | nil => exact h
  | cons op ops ih =>
      intro n
      exact ih (applyTimerOp st op) (fun m => applyTimerOp_count_le st op m (h m)) n

/-- Witness for `timer_per_tab_at_most_one`: two arms and a disarm from the
empty state. -/
theorem timer_per_tab_at_most_one_witness :
    alarmCount (applyTimerOps
      { tabLastActiveTimes := fun _ => none, alarms := [] }
      [TimerOp.arm (some DefaultSettings) 2 (some
          { id := 2, windowId := 1, index := 0, pinned := false, groupId := -1,
            incognito := false, active := false })
          { tabGet := none, effActive := false, nowElig := 50, nowDelay := 50,
            archiveEnv := { tabGet := none, effActive := false, now := 50,
                            removeRes := fun _ => .ok } },
       TimerOp.arm (some DefaultSettings) 2 (some
          { id := 2, windowId := 1, index := 0, pinned := false, groupId := -1,
            incognito := false, active := false })
          { tabGet := none, effActive := false, nowElig := 50, nowDelay := 50,
            archiveEnv := { tabGet := none, effActive := false, now := 50,
                            removeRes := fun _ => .ok } },
       TimerOp.disarm 2]).alarms (getAlarmName 2) ≤ 1 :=
  timer_per_tab_at_most_one
    { tabLastActiveTimes := fun _ => none, alarms := [] }
    _ (fun n => by simp [alarmCount]) 2

/-- **C7 counterexample.** Arming twice in immediate succession does *not*
always leave exactly one active timer: with auto-archive disabled both calls
are guard-clause no-ops and zero timers remain for the identifier. -/
theorem startArchiveTimer_twice_no_timer :
    alarmCount
      (startArchiveTimer
        (some { autoArchiveEnabled := false, archiveTimeValue := 12,
                archiveTimeUnit := .hours, archiveInIncognito := false,
                tabSortingEnabled := true }) 1 none
        { tabGet := none, effActive := false, nowElig := 0, nowDelay := 0,
          archiveEnv := { tabGet := none, effActive := false, now := 0,
                          removeRes := fun _ => .ok } }
        (startArchiveTimer
          (some { autoArchiveEnabled := false, archiveTimeValue := 12,
                  archiveTimeUnit := .hours, archiveInIncognito := false,
                  tabSortingEnabled := true }) 1 none
          { tabGet := none, effActive := false, nowElig := 0, nowDelay := 0,
            archiveEnv := { tabGet := none, effActive := false, now := 0,
                            removeRes := fun _ => .ok } }
          { tabLastActiveTimes := fun _ => none, alarms := [] }).2).2.alarms
      (getAlarmName 1) = 0 := by
  rfl

/-- On the timer-creation path, `startArchiveTimer` keeps the ledger and
replaces the identifier's alarm with one carrying the freshly computed
delay. -/
theorem startArchiveTimer_create_snd (settings : ExtensionSettings) (tabId : Int)
    (tabInfoProvided : Option Tab) (env : ArmEnv) (st : BgState) (tabInfo : Tab)
    (henabled : settings.autoArchiveEnabled = true)
    (hid : tabId ≠ TAB_ID_NONE)
    (htab : tabInfoProvided.orElse (fun _ => env.tabGet) = some tabInfo)
    (heff : env.effActive = false)
    (helig : isTabArchivable tabInfo (st.tabLastActiveTimes tabId) settings
        false env.nowElig = true)
    (hd : ¬computeDelayInMinutes settings (st.tabLastActiveTimes tabId)
        env.nowDelay < (0.016 : ℚ)) :
    (startArchiveTimer (some settings) tabId tabInfoProvided env st).2 =
      { tabLastActiveTimes := st.tabLastActiveTimes
        alarms := alarmsCreate (alarmsClear st.alarms (getAlarmName tabId))
          (getAlarmName tabId)
          (computeDelayInMinutes settings (st.tabLastActiveTimes tabId)
            env.nowDelay) } := by
  have hguard : ¬(¬settings.autoArchiveEnabled ∨ tabId = TAB_ID_NONE) := by
    simp [henabled, hid]
  unfold startArchiveTimer
  simp only [hguard, if_false, htab, heff, Bool.false_eq_true, helig, if_true, hd]

theorem alarmCount_zero_of_sublist {l l' : List (List Char × ℚ)} {name : List Char}
    (hsub : List.Sublist l' l) (h : alarmCount l name = 0) :
    alarmCount l' name = 0 := by
  unfold alarmCount at *
  have := List.Sublist.countP_le (fun a => decide (a.1 = name)) hsub
  omega

theorem alarmsClear_sublist (alarms : List (List Char × ℚ)) (name : List Char) :
    List.Sublist (alarmsClear alarms name) alarms :=
  List.filter_sublist _

/-- Complete alarm effect of a guarded `startArchiveTimer` call: either the
timer-creation branch fires, creating exactly the freshly computed delay on
top of the cleared state, or the call ends with the identifier's alarm
cleared. -/
theorem startArchiveTimer_alarm_outcome (settings : ExtensionSettings)
    (tabId : Int) (tabInfoProvided : Option Tab) (env : ArmEnv) (st : BgState)
    (henabled : settings.autoArchiveEnabled = true)
    (hid : tabId ≠ TAB_ID_NONE) :
    ((startArchiveTimer (some settings) tabId tabInfoProvided env st).1 =
        .timerCreated (computeDelayInMinutes settings
          (st.tabLastActiveTimes tabId) env.nowDelay) ∧
      (startArchiveTimer (some settings) tabId tabInfoProvided env st).2.alarms =
        alarmsCreate (alarmsClear st.alarms (getAlarmName tabId))
          (getAlarmName tabId)
          (computeDelayInMinutes settings (st.tabLastActiveTimes tabId)
            env.nowDelay)) ∨
    ((∀ d : ℚ, (startArchiveTimer (some settings) tabId tabInfoProvided env st).1 ≠
        .timerCreated d) ∧
      alarmCount (startArchiveTimer (some settings) tabId tabInfoProvided
        env st).2.alarms (getAlarmName tabId) = 0) := by
  have hguard : ¬(¬settings.autoArchiveEnabled ∨ tabId = TAB_ID_NONE) := by
    simp [henabled, hid]
  cases htab : tabInfoProvided.orElse (fun _ => env.tabGet) with
  | none =>
      right
      have hr : startArchiveTimer (some settings) tabId tabInfoProvided env st =
          (.tabMissing,
            { st with alarms := alarmsClear st.alarms (getAlarmName tabId) }) := by
        simp [startArchiveTimer, henabled, hid, htab]
      rw [hr]
      exact ⟨fun d => by simp, alarmCount_clear_self _ _⟩
  | some tabInfo =>
      by_cases heff : env.effActive
      · right
        have hr : startArchiveTimer (some settings) tabId tabInfoProvided env st =
            (.cancelledActive, cancelArchiveTimer
              { st with alarms := alarmsClear st.alarms (getAlarmName tabId) }
                tabId) := by
          simp [startArchiveTimer, henabled, hid, htab, heff]
        rw [hr]
        refine ⟨fun d => by simp, ?_⟩
        unfold cancelArchiveTimer
        rw [if_neg hid]
        exact alarmCount_zero_of_sublist (alarmsClear_sublist _ _)
          (alarmCount_clear_self _ _)
      · have heff' : env.effActive = false := by simpa using heff
        by_cases harch : isTabArchivable tabInfo (st.tabLastActiveTimes tabId)
            settings false env.nowElig
        · by_cases hd : computeDelayInMinutes settings
              (st.tabLastActiveTimes tabId) env.nowDelay < (0.016 : ℚ)
          · right
            have hr : startArchiveTimer (some settings) tabId tabInfoProvided
                env st =
                (.archivedNow (archiveTab (some settings) tabId (some tabInfo)
                    env.archiveEnv
                    { st with alarms :=
                        alarmsClear st.alarms (getAlarmName tabId) }).1,
                  (archiveTab (some settings) tabId (some tabInfo) env.archiveEnv
                    { st with alarms :=
                        alarmsClear st.alarms (getAlarmName tabId) }).2) := by
              simp [startArchiveTimer, henabled, hid, htab, heff', harch, hd]
            rw [hr]
            refine ⟨fun d => by simp, ?_⟩
            rw [archiveTab_snd settings tabId _ _ _ hid]
            exact alarmCount_zero_of_sublist (alarmsClear_sublist _ _)
              (alarmCount_clear_self _ _)
          · left
            have hr : startArchiveTimer (some settings) tabId tabInfoProvided
                env st =
                (.timerCreated (computeDelayInMinutes settings
                    (st.tabLastActiveTimes tabId) env.nowDelay),
                  { tabLastActiveTimes := st.tabLastActiveTimes
                    alarms := alarmsCreate
                      (alarmsClear st.alarms (getAlarmName tabId))
                      (getAlarmName tabId)
                      (computeDelayInMinutes settings
                        (st.tabLastActiveTimes tabId) env.nowDelay) }) := by
              unfold startArchiveTimer
              simp only [hguard, if_false, htab, heff', Bool.false_eq_true,
                harch, if_true, hd]
            rw [hr]
            exact ⟨rfl, rfl⟩
        · right
          have hr : startArchiveTimer (some settings) tabId tabInfoProvided
              env st =
              (.notArchivable,
                { st with alarms :=
                    alarmsClear st.alarms (getAlarmName tabId) }) := by
            simp [startArchiveTimer, henabled, hid, htab, heff', harch]
          rw [hr]
          exact ⟨fun d => by simp, alarmCount_clear_self _ _⟩

/-- A guard-clause `startArchiveTimer` call returns its state untouched. -/
theorem startArchiveTimer_guard_noop (cs : Option ExtensionSettings)
    (tabId : Int) (tabInfoProvided : Option Tab) (env : ArmEnv) (st : BgState)
    (hg : cs = none ∨ (∃ s, cs = some s ∧ s.autoArchiveEnabled = false) ∨
      tabId = TAB_ID_NONE) :
    startArchiveTimer cs tabId tabInfoProvided env st = (.earlyReturn, st) := by
  rcases hg with hg | ⟨s, hcs, hs⟩ | hg
  · rw [hg]
    rfl
  · rw [hcs]
    simp [startArchiveTimer, hs]
  · cases cs with
    | none => rfl
    | some s => simp [startArchiveTimer, hg]

/-- **C7 (amended).** For two `startArchiveTimer` calls in immediate
succession: if settings are missing, auto-archive is disabled, or the id is
`TAB_ID_NONE`, both calls are guard-clause no-ops and the state (so in
particular any pre-existing timer) is returned unchanged.  Otherwise at most
one timer remains for the identifier; exactly one — registered with the delay
computed by the second call — remains precisely when the second call reaches
its timer-creation branch, and zero remain in every other outcome of the
second call. -/
theorem startArchiveTimer_twice_spec (cs : Option ExtensionSettings)
    (tabId : Int) (tabInfoProvided : Option Tab) (env1 env2 : ArmEnv)
    (st : BgState) :
    ((cs = none ∨ (∃ s, cs = some s ∧ s.autoArchiveEnabled = false) ∨
        tabId = TAB_ID_NONE) →
      (startArchiveTimer cs tabId tabInfoProvided env2
        (startArchiveTimer cs tabId tabInfoProvided env1 st).2).2 = st) ∧
    (∀ s, cs = some s → s.autoArchiveEnabled = true → tabId ≠ TAB_ID_NONE →
      alarmCount
          (startArchiveTimer cs tabId tabInfoProvided env2
            (startArchiveTimer cs tabId tabInfoProvided env1 st).2).2.alarms
          (getAlarmName tabId) ≤ 1 ∧
      ((∀ d : ℚ, (startArchiveTimer cs tabId tabInfoProvided env2
          (startArchiveTimer cs tabId tabInfoProvided env1 st).2).1 ≠
          .timerCreated d) →
        alarmCount
          (startArchiveTimer cs tabId tabInfoProvided env2
            (startArchiveTimer cs tabId tabInfoProvided env1 st).2).2.alarms
          (getAlarmName tabId) = 0) ∧
      (∀ d : ℚ, (startArchiveTimer cs tabId tabInfoProvided env2
          (startArchiveTimer cs tabId tabInfoProvided env1 st).2).1 =
          .timerCreated d →
        d = computeDelayInMinutes s
          ((startArchiveTimer cs tabId tabInfoProvided env1
            st).2.tabLastActiveTimes tabId) env2.nowDelay ∧
        ((startArchiveTimer cs tabId tabInfoProvided env2
          (startArchiveTimer cs tabId tabInfoProvided env1 st).2).2.alarms.filter
          (fun a => a.1 = getAlarmName tabId)) = [(getAlarmName tabId, d)])) := by
  constructor
  · intro hg
    rw [startArchiveTimer_guard_noop cs tabId tabInfoProvided env1 st hg]
    rw [startArchiveTimer_guard_noop cs tabId tabInfoProvided env2 st hg]
  · intro s hcs hen hid
    subst hcs
    rcases startArchiveTimer_alarm_outcome s tabId tabInfoProvided env2
        (startArchiveTimer (some s) tabId tabInfoProvided env1 st).2 hen hid with
      ⟨hout, halarm⟩ | ⟨hout, halarm⟩
    · have hcount : alarmCount
          (startArchiveTimer (some s) tabId tabInfoProvided env2
            (startArchiveTimer (some s) tabId tabInfoProvided env1
              st).2).2.alarms (getAlarmName tabId) = 1 := by
        rw [halarm, alarmCount_alarmsCreate, alarmCount_clear_self]
        simp
      refine ⟨by rw [hcount], ?_, ?_⟩
      · intro hnone
        exact absurd hout (hnone _)
      · intro d hd
        rw [hout] at hd
        have hdeq : d = computeDelayInMinutes s
            ((startArchiveTimer (some s) tabId tabInfoProvided env1
              st).2.tabLastActiveTimes tabId) env2.nowDelay := by
          cases hd
          rfl
        refine ⟨hdeq, ?_⟩
        rw [halarm, hdeq]
        unfold alarmsCreate
        rw [List.filter_append]
        have hnil : (alarmsClear
            (startArchiveTimer (some s) tabId tabInfoProvided env1 st).2.alarms
            (getAlarmName tabId)).filter
            (fun a => a.1 = getAlarmName tabId) = [] := by
          rw [List.filter_eq_nil_iff]
          intro a ha
          have := (List.mem_filter.mp ha).2
          simp at this ⊢
          exact this
        rw [hnil]
        simp
    · refine ⟨by rw [halarm]; exact Nat.zero_le 1, fun _ => halarm, ?_⟩
      intro d hd
      exact absurd hd (hout d)

/-- Witness for `startArchiveTimer_twice_spec`: with auto-archive disabled a
pre-existing timer survives two calls untouched, and on an enabled double
call at most one timer remains for the identifier. -/
theorem startArchiveTimer_twice_spec_witness :
    (startArchiveTimer
        (some { autoArchiveEnabled := false, archiveTimeValue := 12,
                archiveTimeUnit := .hours, archiveInIncognito := false,
                tabSortingEnabled := true }) 1 none
        { tabGet := none, effActive := false, nowElig := 0, nowDelay := 0,
          archiveEnv := { tabGet := none, effActive := false, now := 0,
                          removeRes := fun _ => .ok } }
        (startArchiveTimer
          (some { autoArchiveEnabled := false, archiveTimeValue := 12,
                  archiveTimeUnit := .hours, archiveInIncognito := false,
                  tabSortingEnabled := true }) 1 none
          { tabGet := none, effActive := false, nowElig := 0, nowDelay := 0,
            archiveEnv := { tabGet := none, effActive := false, now := 0,
                            removeRes := fun _ => .ok } }
          { tabLastActiveTimes := fun _ => none
            alarms := [(getAlarmName 1, 5)] }).2).2 =
      { tabLastActiveTimes := fun _ => none
        alarms := [(getAlarmName 1, 5)] } ∧
    alarmCount
      (startArchiveTimer (some DefaultSettings) 6 (some
          { id := 6, windowId := 1, index := 0, pinned := false, groupId := -1,
            incognito := false, active := false })
        { tabGet := none, effActive := false, nowElig := 43200001, nowDelay := 1,
          archiveEnv := { tabGet := none, effActive := false, now := 43200001,
                          removeRes := fun _ => .ok } }
        (startArchiveTimer (some DefaultSettings) 6 (some
            { id := 6, windowId := 1, index := 0, pinned := false, groupId := -1,
              incognito := false, active := false })
          { tabGet := none, effActive := false, nowElig := 43200001, nowDelay := 1,
            archiveEnv := { tabGet := none, effActive := false, now := 43200001,
                            removeRes := fun _ => .ok } }
          { tabLastActiveTimes := fun j => if j = 6 then some 1 else none
            alarms := [] }).2).2.alarms
      (getAlarmName 6) ≤ 1 :=
  ⟨(startArchiveTimer_twice_spec
      (some { autoArchiveEnabled := false, archiveTimeValue := 12,
              archiveTimeUnit := .hours, archiveInIncognito := false,
              tabSortingEnabled := true }) 1 none
      { tabGet := none, effActive := false, nowElig := 0, nowDelay := 0,
        archiveEnv := { tabGet := none, effActive := false, now := 0,
                        removeRes := fun _ => .ok } }
      { tabGet := none, effActive := false, nowElig := 0, nowDelay := 0,
        archiveEnv := { tabGet := none, effActive := false, now := 0,
                        removeRes := fun _ => .ok } }
      { tabLastActiveTimes := fun _ => none
        alarms := [(getAlarmName 1, 5)] }).1
      (Or.inr (Or.inl ⟨_, rfl, rfl⟩)),
   ((startArchiveTimer_twice_spec (some DefaultSettings) 6 (some
        { id := 6, windowId := 1, index := 0, pinned := false, groupId := -1,
          incognito := false, active := false })
      { tabGet := none, effActive := false, nowElig := 43200001, nowDelay := 1,
        archiveEnv := { tabGet := none, effActive := false, now := 43200001,
                        removeRes := fun _ => .ok } }
      { tabGet := none, effActive := false, nowElig := 43200001, nowDelay := 1,
        archiveEnv := { tabGet := none, effActive := false, now := 43200001,
                        removeRes := fun _ => .ok } }
      { tabLastActiveTimes := fun j => if j = 6 then some 1 else none
        alarms := [] }).2 DefaultSettings rfl rfl (by decide)).1⟩

/-! ## The external world: windows and tabs

Chrome's tab/window state is a `World`.  A window's tabs are an ordered list
of `TabProps`; the `chrome.tabs.Tab` records the code receives from queries
carry the owning window id and the position index, which the model derives
from the list position (`index` is chrome's source-of-truth position). -/

/-- Per-tab attributes stored by the browser. -/
structure TabProps where
  id : Int
  pinned : Bool
  groupId : Int
  incognito : Bool
  active : Bool
deriving DecidableEq, Repr

/-- A browser window (all windows in the model are of type "normal"). -/
structure Window where
  id : Int
  focused : Bool
  tabs : List TabProps
deriving DecidableEq, Repr

/-- The browser state plus the current `Date.now()` reading. -/
structure World where
  windows : List Window
  now : Int
deriving DecidableEq, Repr

/-- Pair every element with its position, starting at `n`. -/
def enumFrom {α : Type} (n : Nat) : List α → List (Nat × α)
  | [] => []
  | a :: as => (n, a) :: enumFrom (n + 1) as

/-- The `chrome.tabs.Tab` view of a stored tab. -/
def mkTab (winId : Int) (idx : Nat) (p : TabProps) : Tab :=
  { id := p.id, windowId := winId, index := idx, pinned := p.pinned,
    groupId := p.groupId, incognito := p.incognito, active := p.active }

/-- `chrome.tabs.query({windowId})` for one window. -/
def queryWindowTabs (win : Window) : List Tab :=
  (enumFrom 0 win.tabs).map (fun p => mkTab win.id p.1 p.2)

/-- `chrome.tabs.query({})`. -/
def queryAllTabs (w : World) : List Tab :=
  (w.windows.map queryWindowTabs).flatten

/-- Look a window up by id. -/
def findWindow (w : World) (windowId : Int) : Option Window :=
  w.windows.find? (fun win => win.id = windowId)

/-- Replace the tab list of the window with the given id. -/
def updateWindowTabs (w : World) (windowId : Int) (tabs : List TabProps) : World :=
  { w with windows := w.windows.map (fun win =>
      if win.id = windowId then { win with tabs := tabs } else win) }

/-! ## Container Reorder Engine (`sortTabsInWindow`) -/

/-- Insert into a list sorted by ascending `index` (the comparator
`(a, b) => a.index - b.index` of the `.sort` call). -/
def insertByIndex (t : Tab) : List Tab → List Tab
  | [] => [t]
  | u :: us => if t.index ≤ u.index then t :: u :: us else u :: insertByIndex t us

/-- Sort by ascending `index`. -/
def sortByIndex : List Tab → List Tab
  | [] => []
  | t :: ts => insertByIndex t (sortByIndex ts)

/-- The `unpinnedTabs` local of `sortTabsInWindow`. -/
def unpinnedTabs (allTabsInWindow : List Tab) : List Tab :=
  allTabsInWindow.filter (fun t => !t.pinned)

/-- The `tabsInGroups` local of `sortTabsInWindow`: grouped non-pinned tabs. -/
def tabsInGroups (allTabsInWindow : List Tab) : List Tab :=
  (unpinnedTabs allTabsInWindow).filter
    (fun t => t.groupId ≠ TAB_GROUP_ID_NONE ∧ t.groupId ≠ -1)

/-- The `nonGroupedTabs` local of `sortTabsInWindow`. -/
def nonGroupedTabs (allTabsInWindow : List Tab) : List Tab :=
  (unpinnedTabs allTabsInWindow).filter
    (fun t => t.groupId = TAB_GROUP_ID_NONE ∨ t.groupId = -1)

/-- `maxIndexOfGroupedTabs` (the claim's `boundaryIndex`), meaningful on the
branch where `tabsInGroups` is nonempty. -/
def maxIndexOfGroupedTabs (allTabsInWindow : List Tab) : Nat :=
  ((tabsInGroups allTabsInWindow).map (fun t => t.index)).foldl max 0

/-- The `nonGroupedTabsToRelocate` local: ungrouped non-pinned tabs before
the boundary, sorted by ascending current index. -/
def nonGroupedTabsToRelocate (allTabsInWindow : List Tab) : List Tab :=
  sortByIndex ((nonGroupedTabs allTabsInWindow).filter
    (fun t => t.index < maxIndexOfGroupedTabs allTabsInWindow))

/-- The list of `chrome.tabs.move` calls issued by `sortTabsInWindow`
(lines 335–384), as (tab id, target index) pairs in issue order, computed
from one query snapshot exactly as in the source. -/
def sortTabsMoves (allTabsInWindow : List Tab) : List (Int × Nat) :=
  if allTabsInWindow.length = 0 then []
  else if (tabsInGroups allTabsInWindow).length = 0 then []
  else (nonGroupedTabsToRelocate allTabsInWindow).map
    (fun t => (t.id, maxIndexOfGroupedTabs allTabsInWindow + 1))

/-- Remove the first tab with the given id. -/
def removeFirstById : List TabProps → Int → List TabProps
  | [], _ => []
  | t :: ts, i => if t.id = i then ts else t :: removeFirstById ts i

/-- Insert at a position, clamping to the end when the position exceeds the
length (chrome clamps an out-of-range move index to the end). -/
def insertAtClamped : List TabProps → Nat → TabProps → List TabProps
  | l, 0, a => a :: l
  | [], _ + 1, a => [a]
  | x :: xs, n + 1, a => x :: insertAtClamped xs n a

/-- `chrome.tabs.move(tabId, {index})` within one window's tab list: remove
the tab from its current slot and re-insert it at the (clamped) target.  A
move is retried on the transient-lock error with a bounded attempt count
(`MAX_MOVE_RETRIES = 100`); the model takes the attempt that succeeds. -/
def moveTabInList (l : List TabProps) (tabId : Int) (targetIndex : Nat) :
    List TabProps :=
  match l.find? (fun t => t.id = tabId) with
  | none => l
  | some t => insertAtClamped (removeFirstById l tabId) targetIndex t

/-- Apply a sequence of move commands in order. -/
def applyMoves (l : List TabProps) (moves : List (Int × Nat)) : List TabProps :=
  moves.foldl (fun acc mv => moveTabInList acc mv.1 mv.2) l

/-- `sortTabsInWindow(windowId)` (lines 327–415): compute the violators from
one query snapshot and move each, in order, to `maxIndexOfGroupedTabs + 1`. -/
def sortTabsInWindow (cs : Option ExtensionSettings) (w : World) (windowId : Int) :
    World :=
  match cs with
  | none => w
  | some settings =>
      if ¬settings.tabSortingEnabled then w
      else
        match findWindow w windowId with
        | none => w
        | some win =>
            updateWindowTabs w windowId
              (applyMoves win.tabs (sortTabsMoves (queryWindowTabs win)))

theorem insertByIndex_perm (t : Tab) (l : List Tab) :
    List.Perm (insertByIndex t l) (t :: l) := by
  induction l with
  | nil => rfl
  | cons u us ih =>
      unfold insertByIndex
      by_cases h : t.index ≤ u.index
      · simp [h]
      · simp only [h, if_false]
        exact (List.Perm.cons u ih).trans (List.Perm.swap t u us)

theorem sortByIndex_perm (l : List Tab) : List.Perm (sortByIndex l) l := by
  induction l with
  | nil => rfl
  | cons t ts ih =>
      unfold sortByIndex
      exact (insertByIndex_perm t (sortByIndex ts)).trans (List.Perm.cons t ih)

theorem insertByIndex_sorted (t : Tab) (l : List Tab)
    (h : l.Pairwise (fun a b => a.index ≤ b.index)) :
    (insertByIndex t l).Pairwise (fun a b => a.index ≤ b.index) := by
  induction l with
  | nil => simp [insertByIndex]
  | cons u us ih =>
      unfold insertByIndex
      by_cases hle : t.index ≤ u.index
      · simp only [hle, if_true]
        refine List.Pairwise.cons ?_ h
        intro b hb
        rcases List.mem_cons.mp hb with hb | hb
        · rw [hb]
          exact hle
        · have := (List.pairwise_cons.mp h).1 b hb
          omega
      · simp only [hle, if_false]
        rcases List.pairwise_cons.mp h with ⟨hu, hus⟩
        refine List.Pairwise.cons ?_ (ih hus)
        intro b hb
        have hmem : b ∈ t :: us := (insertByIndex_perm t us).mem_iff.mp hb
        rcases List.mem_cons.mp hmem with hb' | hb'
        · rw [hb']; omega
        · exact hu b hb'

theorem sortByIndex_sorted (l : List Tab) :
    (sortByIndex l).Pairwise (fun a b => a.index ≤ b.index) := by
  induction l with
  | nil => simp [sortByIndex]
  | cons t ts ih => exact insertByIndex_sorted t (sortByIndex ts) ih

/-- **C4.** When a window has at least one grouped non-pinned tab,
`sortTabsInWindow` issues moves for exactly the non-pinned ungrouped tabs
whose index is below `boundaryIndex` (the maximum index over grouped
non-pinned tabs), in ascending index order, each to `boundaryIndex + 1`; for
`[grouped@0, ungrouped@1, grouped@2]` the single move sends the ungrouped tab
to index 3, giving `[grouped, grouped, ungrouped]` with the grouped pair's
relative order unchanged; with zero grouped non-pinned tabs no move is
issued. -/
theorem sortTabsInWindow_spec (allTabsInWindow : List Tab) :
    (tabsInGroups allTabsInWindow ≠ [] →
      ∃ violators : List Tab,
        sortTabsMoves allTabsInWindow =
          violators.map (fun t => (t.id, maxIndexOfGroupedTabs allTabsInWindow + 1)) ∧
        violators.Pairwise (fun a b => a.index ≤ b.index) ∧
        (∀ t, t ∈ violators ↔
          (t ∈ allTabsInWindow ∧ t.pinned = false ∧
            (t.groupId = TAB_GROUP_ID_NONE ∨ t.groupId = -1) ∧
            t.index < maxIndexOfGroupedTabs allTabsInWindow))) ∧
    (tabsInGroups allTabsInWindow = [] → sortTabsMoves allTabsInWindow = []) ∧
    (sortTabsInWindow (some DefaultSettings)
        { windows := [{ id := 1, focused := true, tabs :=
            [{ id := 10, pinned := false, groupId := 5, incognito := false,
               active := false },
             { id := 11, pinned := false, groupId := -1, incognito := false,
               active := false },
             { id := 12, pinned := false, groupId := 5, incognito := false,
               active := false }] }], now := 0 } 1 =
      { windows := [{ id := 1, focused := true, tabs :=
            [{ id := 10, pinned := false, groupId := 5, incognito := false,
               active := false },
             { id := 12, pinned := false, groupId := 5, incognito := false,
               active := false },
             { id := 11, pinned := false, groupId := -1, incognito := false,
               active := false }] }], now := 0 } ∧
     sortTabsMoves (queryWindowTabs
        { id := 1, focused := true, tabs :=
            [{ id := 10, pinned := false, groupId := 5, incognito := false,
               active := false },
             { id := 11, pinned := false, groupId := -1, incognito := false,
               active := false },
             { id := 12, pinned := false, groupId := 5, incognito := false,
               active := false }] }) = [(11, 3)]) := by
  refine ⟨?_, ?_, by decide, by decide⟩
  · intro hne
    have hlen : ¬(allTabsInWindow.length = 0) := by
      intro h0
      rw [List.length_eq_zero] at h0
      unfold tabsInGroups unpinnedTabs at hne
      rw [h0] at hne
      simp at hne
    have hlen2 : ¬((tabsInGroups allTabsInWindow).length = 0) := by
      intro h0
      rw [List.length_eq_zero] at h0
      exact hne h0
    refine ⟨nonGroupedTabsToRelocate allTabsInWindow, ?_, ?_, ?_⟩
    · unfold sortTabsMoves
      rw [if_neg hlen, if_neg hlen2]
    · unfold nonGroupedTabsToRelocate
      exact sortByIndex_sorted _
    · intro t
      unfold nonGroupedTabsToRelocate nonGroupedTabs unpinnedTabs
      rw [(sortByIndex_perm _).mem_iff]
      simp only [List.mem_filter]
      constructor
      · rintro ⟨⟨⟨ht, hup⟩, hng⟩, hlt⟩
        exact ⟨ht, by simpa using hup, by simpa using hng, by simpa using hlt⟩
      · rintro ⟨ht, hup, hng, hlt⟩
        exact ⟨⟨⟨ht, by simpa using hup⟩, by simpa using hng⟩, by simpa using hlt⟩
  · intro h
    unfold sortTabsMoves
    by_cases hlen : allTabsInWindow.length = 0
    · rw [if_pos hlen]
    · rw [if_neg hlen, if_pos (by rw [h]; rfl)]

/-- Witness for `sortTabsInWindow_spec`: in the three-tab scenario the issued
moves are exactly the single ungrouped violator to index 3. -/
theorem sortTabsInWindow_spec_witness :
    ∃ violators : List Tab,
      sortTabsMoves (queryWindowTabs
        { id := 1, focused := true, tabs :=
            [{ id := 10, pinned := false, groupId := 5, incognito := false,
               active := false },
             { id := 11, pinned := false, groupId := -1, incognito := false,
               active := false },
             { id := 12, pinned := false, groupId := 5, incognito := false,
               active := false }] }) = violators.map (fun t => (t.id,
        maxIndexOfGroupedTabs (queryWindowTabs
          { id := 1, focused := true, tabs :=
              [{ id := 10, pinned := false, groupId := 5, incognito := false,
                 active := false },
               { id := 11, pinned := false, groupId := -1, incognito := false,
                 active := false },
               { id := 12, pinned := false, groupId := 5, incognito := false,
                 active := false }] }) + 1)) ∧
      violators.Pairwise (fun a b => a.index ≤ b.index) ∧
      (∀ t, t ∈ violators ↔
        (t ∈ queryWindowTabs
          { id := 1, focused := true, tabs :=
              [{ id := 10, pinned := false, groupId := 5, incognito := false,
                 active := false },
               { id := 11, pinned := false, groupId := -1, incognito := false,
                 active := false },
               { id := 12, pinned := false, groupId := 5, incognito := false,
                 active := false }] } ∧ t.pinned = false ∧
          (t.groupId = TAB_GROUP_ID_NONE ∨ t.groupId = -1) ∧
          t.index < maxIndexOfGroupedTabs (queryWindowTabs
            { id := 1, focused := true, tabs :=
                [{ id := 10, pinned := false, groupId := 5, incognito := false,
                   active := false },
                 { id := 11, pinned := false, groupId := -1, incognito := false,
                   active := false },
                 { id := 12, pinned := false, groupId := 5, incognito := false,
                   active := false }] }))) :=
  (sortTabsInWindow_spec (queryWindowTabs
      { id := 1, focused := true, tabs :=
          [{ id := 10, pinned := false, groupId := 5, incognito := false,
             active := false },
           { id := 11, pinned := false, groupId := -1, incognito := false,
             active := false },
           { id := 12, pinned := false, groupId := 5, incognito := false,
             active := false }] })).1 (by decide)

/-! ## World-driven wrappers

The oracle-parameterized components above are wired to a `World`: the oracle
answers are what chrome would answer in that world, and a successful removal
updates the world.  Moves and removals succeed (no transient lock — the
scenarios below have no concurrent user interaction). -/

/-- `isTabEffectivelyActive(tab)` (lines 59–70): active in a focused window;
a failed window lookup counts as not active. -/
def isTabEffectivelyActiveW (w : World) (tab : Tab) : Bool :=
  if !tab.active then false
  else
    match findWindow w tab.windowId with
    | some win => win.focused
    | none => false

/-- `chrome.tabs.get(tabId)` (`none` = the not-found rejection). -/
def findTabW (w : World) (tabId : Int) : Option Tab :=
  (queryAllTabs w).find? (fun t => t.id = tabId)

/-- Whether a tab with the id exists. -/
def tabExistsW (w : World) (tabId : Int) : Bool := (findTabW w tabId).isSome

/-- `chrome.tabs.remove(tabId)`'s effect on the world. -/
def removeTabW (w : World) (tabId : Int) : World :=
  { w with windows := w.windows.map (fun win =>
      { win with tabs := removeFirstById win.tabs tabId }) }

/-- The oracle record for an `archiveTab` call issued in world `w`. -/
def archiveEnvW (w : World) (tabId : Int) (tabForCheck : Option Tab) : ArchiveEnv :=
  { tabGet := findTabW w tabId
    effActive :=
      match tabForCheck.orElse (fun _ => findTabW w tabId) with
      | some t => isTabEffectivelyActiveW w t
      | none => false
    now := w.now
    removeRes := fun _ => if tabExistsW w tabId then .ok else .errOther }

/-- `archiveTab` wired to a world: the oracle answers come from `w`, and a
successful removal takes the tab out of the world. -/
def archiveTabW (cs : Option ExtensionSettings) (tabId : Int)
    (tabForCheck : Option Tab) (w : World) (st : BgState) : World × BgState :=
  let r := archiveTab cs tabId tabForCheck (archiveEnvW w tabId tabForCheck) st
  (match r.1 with
   | .removed _ => removeTabW w tabId
   | _ => w, r.2)

/-- The oracle record for a `startArchiveTimer` call issued in world `w`. -/
def armEnvW (w : World) (tabId : Int) (tabInfoProvided : Option Tab) : ArmEnv :=
  { tabGet := findTabW w tabId
    effActive :=
      match tabInfoProvided.orElse (fun _ => findTabW w tabId) with
      | some t => isTabEffectivelyActiveW w t
      | none => false
    nowElig := w.now
    nowDelay := w.now
    archiveEnv := archiveEnvW w tabId
      (tabInfoProvided.orElse (fun _ => findTabW w tabId)) }

/-- `startArchiveTimer` wired to a world. -/
def startArchiveTimerW (cs : Option ExtensionSettings) (tabId : Int)
    (tabInfoProvided : Option Tab) (w : World) (st : BgState) : World × BgState :=
  let r := startArchiveTimer cs tabId tabInfoProvided (armEnvW w tabId tabInfoProvided) st
  (match r.1 with
   | .archivedNow (.removed _) => removeTabW w tabId
   | _ => w, r.2)

/-! ## Reconciliation Scan (`initialTabScan`) -/

/-- The per-tab body of the `initialTabScan` loop (lines 290–308). -/
def scanTabStep (settings : ExtensionSettings) (focusedWindowId : Option Int)
    (acc : World × BgState) (tab : Tab) : World × BgState :=
  if tab.active ∧ focusedWindowId = some tab.windowId then
    (acc.1, cancelArchiveTimer (updateTabLastActiveTime acc.2 tab.id acc.1.now) tab.id)
  else
    let st1 :=
      if (acc.2.tabLastActiveTimes tab.id).isSome then acc.2
      else { acc.2 with
              tabLastActiveTimes := ledgerSet acc.2.tabLastActiveTimes tab.id acc.1.now }
    startArchiveTimerW (some settings) tab.id (some tab) acc.1 st1

/-- `initialTabScan()` (lines 276–319): evaluate every tab from one query
snapshot, then reorder every window from the window snapshot (the
`window.id &&` truthiness check skips a window with id 0). -/
def initialTabScan (cs : Option ExtensionSettings) (w : World) (st : BgState) :
    World × BgState :=
  match cs with
  | none => (w, st)
  | some settings =>
      let allTabs := queryAllTabs w
      let focusedWindowId := (w.windows.find? (fun win => win.focused)).map
        (fun win => win.id)
      let p1 := allTabs.foldl (scanTabStep settings focusedWindowId) (w, st)
      ((w.windows.map (fun win => win.id)).foldl
        (fun wacc wid => if wid ≠ 0 then sortTabsInWindow (some settings) wacc wid
          else wacc) p1.1,
       p1.2)

/-! ## Event Dispatcher -/

/-- `chrome.tabs.query({windowId})`. -/
def queryWindowTabsById (w : World) (windowId : Int) : List Tab :=
  match findWindow w windowId with
  | some win => queryWindowTabs win
  | none => []

/-- `handleTabCreated(tab)` (lines 425–442). -/
def handleTabCreated (cs : Option ExtensionSettings) (tab : Tab) (w : World)
    (st : BgState) : World × BgState :=
  match cs with
  | none => (w, st)
  | some _ =>
      let eff := isTabEffectivelyActiveW w tab
      let st1 := updateTabLastActiveTime st tab.id w.now
      let p :=
        if eff then (w, cancelArchiveTimer st1 tab.id)
        else startArchiveTimerW cs tab.id (some tab) w st1
      if tab.windowId ≠ WINDOW_ID_NONE then
        (sortTabsInWindow cs p.1 tab.windowId, p.2)
      else p

/-- The `changeInfo` payload of `chrome.tabs.onUpdated`. -/
structure TabChangeInfo where
  groupId : Option Int
  pinned : Option Bool
  status : Option String
deriving DecidableEq, Repr

/-- `handleTabUpdated(tabId, changeInfo, tab)` (lines 452–477). -/
def handleTabUpdated (cs : Option ExtensionSettings) (tabId : Int)
    (changeInfo : TabChangeInfo) (tab : Tab) (w : World) (st : BgState) :
    World × BgState :=
  match cs with
  | none => (w, st)
  | some _ =>
      let eff := isTabEffectivelyActiveW w tab
      let p1 :=
        if eff then (w, cancelArchiveTimer (updateTabLastActiveTime st tabId w.now) tabId)
        else startArchiveTimerW cs tabId (some tab) w st
      let p2 :=
        if (changeInfo.groupId.isSome ∨ changeInfo.pinned.isSome) ∧
            tab.windowId ≠ WINDOW_ID_NONE then
          (sortTabsInWindow cs p1.1 tab.windowId, p1.2)
        else p1
      if changeInfo.status = some "complete" ∧ eff = false then
        startArchiveTimerW cs tabId (some tab) p2.1 p2.2
      else p2

/-- The payload of `chrome.tabs.onActivated`. -/
structure TabActiveInfo where
  tabId : Int
  windowId : Int
deriving DecidableEq, Repr

/-- `handleTabActivated(activeInfo)` (lines 485–503); the `if (t.id)`
truthiness check skips a tab with id 0. -/
def handleTabActivated (cs : Option ExtensionSettings) (activeInfo : TabActiveInfo)
    (w : World) (st : BgState) : World × BgState :=
  match cs with
  | none => (w, st)
  | some _ =>
      if activeInfo.tabId = TAB_ID_NONE then (w, st)
      else
        let st1 := cancelArchiveTimer
          (updateTabLastActiveTime st activeInfo.tabId w.now) activeInfo.tabId
        let otherTabs := (queryWindowTabsById w activeInfo.windowId).filter
          (fun t => !t.active)
        otherTabs.foldl (fun acc t =>
          if t.id ≠ 0 then startArchiveTimerW cs t.id (some t) acc.1 acc.2
          else acc) (w, st1)

/-- The payload of `chrome.tabs.onMoved` (only `windowId` is read). -/
structure TabMoveInfo where
  windowId : Int
deriving DecidableEq, Repr

/-- `handleTabMoved(tabId, moveInfo)` (lines 511–517). -/
def handleTabMoved (cs : Option ExtensionSettings) (_tabId : Int)
    (moveInfo : TabMoveInfo) (w : World) (st : BgState) : World × BgState :=
  match cs with
  | none => (w, st)
  | some _ =>
      if moveInfo.windowId ≠ WINDOW_ID_NONE then
        (sortTabsInWindow cs w moveInfo.windowId, st)
      else (w, st)

/-- The payload of `chrome.tabs.onRemoved`. -/
structure TabRemoveInfo where
  windowId : Int
  isWindowClosing : Bool
deriving DecidableEq, Repr

/-- `handleTabRemoved(tabId, removeInfo)` (lines 526–539).  Unlike every
other handler, there is no `currentSettings` guard before the timer cancel
and the ledger delete; the deferred (`setTimeout`) reorder is modelled as
running when its condition holds. -/
def handleTabRemoved (cs : Option ExtensionSettings) (tabId : Int)
    (removeInfo : TabRemoveInfo) (w : World) (st : BgState) : World × BgState :=
  let st1 := cancelArchiveTimer st tabId
  let st2 := { st1 with tabLastActiveTimes := ledgerDelete st1.tabLastActiveTimes tabId }
  match cs with
  | none => (w, st2)
  | some settings =>
      if ¬removeInfo.isWindowClosing ∧ settings.tabSortingEnabled ∧
          removeInfo.windowId ≠ WINDOW_ID_NONE then
        (sortTabsInWindow cs w removeInfo.windowId, st2)
      else (w, st2)

/-- The payload of `chrome.tabGroups.onUpdated` (only `windowId` is read). -/
structure TabGroup where
  id : Int
  windowId : Int
deriving DecidableEq, Repr

/-- `handleTabGroupUpdated(group)` (lines 546–552). -/
def handleTabGroupUpdated (cs : Option ExtensionSettings) (group : TabGroup)
    (w : World) (st : BgState) : World × BgState :=
  match cs with
  | none => (w, st)
  | some _ =>
      if group.windowId ≠ WINDOW_ID_NONE then
        (sortTabsInWindow cs w group.windowId, st)
      else (w, st)

/-- `handleWindowFocusChanged(windowId)` (lines 561–609); the `if (tab.id)`
truthiness checks skip a tab with id 0. -/
def handleWindowFocusChanged (cs : Option ExtensionSettings) (windowId : Int)
    (w : World) (st : BgState) : World × BgState :=
  match cs with
  | none => (w, st)
  | some _ =>
      if windowId = WINDOW_ID_NONE then
        (queryAllTabs w).foldl (fun acc tab =>
          if tab.id ≠ 0 ∧ isTabEffectivelyActiveW acc.1 tab = false then
            startArchiveTimerW cs tab.id (some tab) acc.1 acc.2
          else acc) (w, st)
      else
        let p1 := (queryWindowTabsById w windowId).foldl (fun acc tab =>
          if isTabEffectivelyActiveW acc.1 tab then
            (acc.1, cancelArchiveTimer
              (updateTabLastActiveTime acc.2 tab.id acc.1.now) tab.id)
          else startArchiveTimerW cs tab.id (some tab) acc.1 acc.2) (w, st)
        (queryAllTabs p1.1).foldl (fun acc tab =>
          if tab.windowId ≠ windowId ∧ tab.id ≠ 0 then
            startArchiveTimerW cs tab.id (some tab) acc.1 acc.2
          else acc) p1

/-- `handleAlarm(alarm)` (lines 616–626). -/
def handleAlarm (cs : Option ExtensionSettings) (alarmName : List Char)
    (w : World) (st : BgState) : World × BgState :=
  match cs with
  | none => (w, st)
  | some _ =>
      if archiveAlarmNameStem.isPrefixOf alarmName then
        match parseIntChars (alarmName.drop archiveAlarmNameStem.length) with
        | some tabId => archiveTabW cs tabId none w st
        | none => (w, st)
      else (w, st)

/-- `handleStorageChanged(changes, areaName)` (lines 635–652).
`settingsChange` is `changes.arcLikeExtensionSettings` (`some nv?` when the
key changed, with `nv?` the possibly-absent new value).  Returns the new
`currentSettings` along with the world/state. -/
def handleStorageChanged (cs : Option ExtensionSettings) (areaName : String)
    (settingsChange : Option (Option ExtensionSettings)) (w : World) (st : BgState) :
    Option ExtensionSettings × World × BgState :=
  if areaName = "local" ∧ settingsChange.isSome then
    let newSettings := (settingsChange.getD none).getD DefaultSettings
    let st1 := { st with
                  alarms := st.alarms.filter
                    (fun a => !archiveAlarmNameStem.isPrefixOf a.1) }
    let p := initialTabScan (some newSettings) w st1
    (some newSettings, p.1, p.2)
  else (cs, w, st)

/-- **C8 counterexample.** Not every entry point is a no-op when settings are
absent: `handleTabRemoved` has no settings guard and still deletes the tab's
ledger entry (and clears its timer). -/
theorem handleTabRemoved_mutates_without_settings :
    (handleTabRemoved none 5 { windowId := 1, isWindowClosing := false }
      { windows := [], now := 0 }
      { tabLastActiveTimes := fun j => if j = 5 then some 7 else none
        alarms := [(getAlarmName 5, 1)] }).2.tabLastActiveTimes 5 ≠
    ({ tabLastActiveTimes := fun j => if j = 5 then some 7 else none
       alarms := [(getAlarmName 5, 1)] } : BgState).tabLastActiveTimes 5 := by
  decide

/-- **C8 (amended).** When settings have not yet been loaded: the tab
created/updated/activated/moved, group-updated, window-focus-changed and
alarm entry points are no-ops on world, ledger and timers, and none fails;
the tab-removed entry point still clears the tab's timer and deletes its
ledger entry (skipping only the reorder); the storage-changed entry point is
a no-op for changes that do not carry the settings key, and for a settings
change it loads the new settings (it is the loading path). -/
theorem handlers_settings_absent_spec :
    (∀ tab w st, handleTabCreated none tab w st = (w, st)) ∧
    (∀ tabId ci tab w st, handleTabUpdated none tabId ci tab w st = (w, st)) ∧
    (∀ ai w st, handleTabActivated none ai w st = (w, st)) ∧
    (∀ tabId mi w st, handleTabMoved none tabId mi w st = (w, st)) ∧
    (∀ g w st, handleTabGroupUpdated none g w st = (w, st)) ∧
    (∀ wid w st, handleWindowFocusChanged none wid w st = (w, st)) ∧
    (∀ name w st, handleAlarm none name w st = (w, st)) ∧
    (∀ tabId ri w st, handleTabRemoved none tabId ri w st =
      (w, { cancelArchiveTimer st tabId with
            tabLastActiveTimes :=
              ledgerDelete (cancelArchiveTimer st tabId).tabLastActiveTimes tabId })) ∧
    (∀ area change w st, ¬(area = "local" ∧ Option.isSome change = true) →
      handleStorageChanged none area change w st = (none, w, st)) ∧
    (∀ nv w st, (handleStorageChanged none "local" (some nv) w st).1 =
      some (nv.getD DefaultSettings)) := by
  refine ⟨fun _ _ _ => rfl, fun _ _ _ _ _ => rfl, fun _ _ _ => rfl,
    fun _ _ _ _ => rfl, fun _ _ _ => rfl, fun _ _ _ => rfl, fun _ _ _ => rfl,
    fun _ _ _ _ => rfl, ?_, ?_⟩
  · intro area change w st h
    unfold handleStorageChanged
    rw [if_neg h]
  · intro nv w st
    unfold handleStorageChanged
    rw [if_pos ⟨rfl, rfl⟩]
    rfl

/-- Witness for `handlers_settings_absent_spec`: the non-settings storage
change leaves everything untouched. -/
theorem handlers_settings_absent_spec_witness :
    handleStorageChanged none "sync" none { windows := [], now := 0 }
      { tabLastActiveTimes := fun _ => none, alarms := [] } =
    (none, { windows := [], now := 0 },
      { tabLastActiveTimes := fun _ => none, alarms := [] }) :=
  (handlers_settings_absent_spec).2.2.2.2.2.2.2.2.1 "sync" none
    { windows := [], now := 0 }
    { tabLastActiveTimes := fun _ => none, alarms := [] }
    (by simp)

/-! ## Reconciliation Scan idempotence: groundwork

Generic facts about the world model used by the idempotence proof. -/

/-- All (windowId, tab) pairs of a world (order immaterial). -/
def wtabs (w : World) : List (Int × TabProps) :=
  (w.windows.map (fun win => win.tabs.map (fun p => (win.id, p)))).flatten

/-- The observable ids of every tab. -/
def allTabIds (w : World) : List Int := (wtabs w).map (fun q => q.2.id)

/-- The identity-and-focus skeleton of the window list. -/
def windowsShape (w : World) : List (Int × Bool) :=
  w.windows.map (fun win => (win.id, win.focused))

/-- The attribute part of a queried `Tab`. -/
def tabProps (t : Tab) : TabProps :=
  { id := t.id, pinned := t.pinned, groupId := t.groupId,
    incognito := t.incognito, active := t.active }

theorem tabProps_mkTab (wid : Int) (idx : Nat) (p : TabProps) :
    tabProps (mkTab wid idx p) = p := rfl

theorem enumFrom_append {α : Type} (n : Nat) (xs ys : List α) :
    enumFrom n (xs ++ ys) = enumFrom n xs ++ enumFrom (n + xs.length) ys := by
  induction xs generalizing n with
  | nil => simp [enumFrom]
  | cons a as ih =>
      simp only [List.cons_append, enumFrom, List.length_cons, List.append_eq]
      rw [ih]
      have harith : n + 1 + as.length = n + (as.length + 1) := by omega
      rw [harith]

theorem mem_enumFrom {α : Type} {q : Nat × α} :
    ∀ {n : Nat} {xs : List α}, q ∈ enumFrom n xs →
      n ≤ q.1 ∧ q.1 < n + xs.length ∧ q.2 ∈ xs := by
  intro n xs
  induction xs generalizing n with
  | nil => intro h; simp [enumFrom] at h
  | cons a as ih =>
      intro h
      simp only [enumFrom, List.mem_cons] at h
      rcases h with h | h
      · rw [h]
        refine ⟨Nat.le_refl n, by simp only [List.length_cons]; omega,
          List.mem_cons_self a as⟩
      · obtain ⟨h1, h2, h3⟩ := ih h
        refine ⟨by omega, by simp only [List.length_cons]; omega,
          List.mem_cons_of_mem a h3⟩

theorem enumFrom_map_snd {α β : Type} (f : α → β) :
    ∀ (n : Nat) (xs : List α),
      (enumFrom n xs).map (fun q => f q.2) = xs.map f := by
  intro n xs
  induction xs generalizing n with
  | nil => rfl
  | cons a as ih => simp [enumFrom, ih]

theorem pairwise_fst_lt_enumFrom {α : Type} :
    ∀ (n : Nat) (xs : List α),
      (enumFrom n xs).Pairwise (fun a b => a.1 < b.1) := by
  intro n xs
  induction xs generalizing n with
  | nil => exact List.Pairwise.nil
  | cons a as ih =>
      refine List.Pairwise.cons ?_ (ih (n + 1))
      intro q hq
      have := (mem_enumFrom hq).1
      omega

/-- The query view determines the (windowId, props) pairs. -/
theorem queryAllTabs_pairs (w : World) :
    (queryAllTabs w).map (fun t => (t.windowId, tabProps t)) = wtabs w := by
  unfold queryAllTabs wtabs
  rw [List.map_flatten, List.map_map]
  congr 1
  apply List.map_congr_left
  intro win _
  unfold queryWindowTabs
  simp only [Function.comp, List.map_map]
  exact enumFrom_map_snd (fun p => (win.id, p)) 0 win.tabs

theorem mem_wtabs_of_mem_query {w : World} {t : Tab} (h : t ∈ queryAllTabs w) :
    (t.windowId, tabProps t) ∈ wtabs w := by
  rw [← queryAllTabs_pairs]
  exact List.mem_map_of_mem _ h

theorem queryAllTabs_ids (w : World) :
    (queryAllTabs w).map (fun t => t.id) = allTabIds w := by
  unfold allTabIds
  rw [← queryAllTabs_pairs, List.map_map]
  rfl

theorem mem_wtabs_iff {w : World} {winId : Int} {p : TabProps} :
    (winId, p) ∈ wtabs w ↔ ∃ win ∈ w.windows, win.id = winId ∧ p ∈ win.tabs := by
  unfold wtabs
  rw [List.mem_flatten]
  constructor
  · rintro ⟨l, hl, hmem⟩
    rw [List.mem_map] at hl
    obtain ⟨win, hwin, rfl⟩ := hl
    rw [List.mem_map] at hmem
    obtain ⟨p', hp', heq⟩ := hmem
    cases heq
    exact ⟨win, hwin, rfl, hp'⟩
  · rintro ⟨win, hwin, hid, hp⟩
    refine ⟨win.tabs.map (fun p => (win.id, p)), List.mem_map_of_mem _ hwin, ?_⟩
    rw [← hid]
    exact List.mem_map_of_mem _ hp

theorem removeFirstById_sublist (l : List TabProps) (i : Int) :
    List.Sublist (removeFirstById l i) l := by
  induction l with
  | nil => exact List.Sublist.refl _
  | cons t ts ih =>
      unfold removeFirstById
      by_cases h : t.id = i
      · simp only [h, if_true]
        exact List.sublist_cons_self t ts
      · simp only [h, if_false]
        exact List.Sublist.cons₂ t ih

theorem wtabs_removeTabW_sublist (w : World) (i : Int) :
    List.Sublist (wtabs (removeTabW w i)) (wtabs w) := by
  unfold wtabs removeTabW
  simp only [List.map_map]
  induction w.windows with
  | nil => exact List.Sublist.refl _
  | cons win ws ih =>
      simp only [List.map_cons, List.flatten_cons]
      exact List.Sublist.append
        (List.Sublist.map _ (removeFirstById_sublist win.tabs i)) ih

theorem windowsShape_removeTabW (w : World) (i : Int) :
    windowsShape (removeTabW w i) = windowsShape w := by
  unfold windowsShape removeTabW
  simp [List.map_map]

theorem now_removeTabW (w : World) (i : Int) : (removeTabW w i).now = w.now := rfl

theorem windowsShape_updateWindowTabs (w : World) (wid : Int) (ts : List TabProps) :
    windowsShape (updateWindowTabs w wid ts) = windowsShape w := by
  unfold windowsShape updateWindowTabs
  simp only [List.map_map]
  apply List.map_congr_left
  intro win _
  by_cases h : win.id = wid <;> simp [h, Function.comp]

theorem now_updateWindowTabs (w : World) (wid : Int) (ts : List TabProps) :
    (updateWindowTabs w wid ts).now = w.now := rfl

theorem find_focused_shape_eq (wid : Int) :
    ∀ (l l' : List Window),
      l.map (fun win => (win.id, win.focused)) =
        l'.map (fun win => (win.id, win.focused)) →
      (l.find? (fun win => win.id = wid)).map (fun win => win.focused) =
        (l'.find? (fun win => win.id = wid)).map (fun win => win.focused) := by
  intro l
  induction l with
  | nil =>
      intro l' h
      cases l' with
      | nil => rfl
      | cons b bs => simp at h
  | cons a as ih =>
      intro l' h
      cases l' with
      | nil => simp at h
      | cons b bs =>
          simp only [List.map_cons, List.cons.injEq] at h
          obtain ⟨h1, h2⟩ := h
          have hid : a.id = b.id := congrArg Prod.fst h1
          have hfoc : a.focused = b.focused := congrArg Prod.snd h1
          by_cases hcase : a.id = wid
          · rw [List.find?_cons_of_pos _ (by simpa using hcase),
              List.find?_cons_of_pos _ (by simp [← hid, hcase])]
            simp [hfoc]
          · rw [List.find?_cons_of_neg _ (by simpa using hcase),
              List.find?_cons_of_neg _ (by simp [← hid, hcase])]
            exact ih bs h2

/-- `findWindow` then `.focused` is determined by the windows' shape. -/
theorem findWindow_shape_eq {w w' : World} (h : windowsShape w = windowsShape w')
    (wid : Int) :
    ((findWindow w wid).map (fun win => win.focused) =
      (findWindow w' wid).map (fun win => win.focused)) :=
  find_focused_shape_eq wid w.windows w'.windows h

theorem find_id_shape_eq :
    ∀ (l l' : List Window),
      l.map (fun win => (win.id, win.focused)) =
        l'.map (fun win => (win.id, win.focused)) →
      (l.find? (fun win => win.focused)).map (fun win => win.id) =
        (l'.find? (fun win => win.focused)).map (fun win => win.id) := by
  intro l
  induction l with
  | nil =>
      intro l' h
      cases l' with
      | nil => rfl
      | cons b bs => simp at h
  | cons a as ih =>
      intro l' h
      cases l' with
      | nil => simp at h
      | cons b bs =>
          simp only [List.map_cons, List.cons.injEq] at h
          obtain ⟨h1, h2⟩ := h
          have hid : a.id = b.id := congrArg Prod.fst h1
          have hfoc : a.focused = b.focused := congrArg Prod.snd h1
          cases hf : a.focused with
          | true =>
              rw [List.find?_cons_of_pos _ (by simpa using hf),
                List.find?_cons_of_pos _ (by rw [← hfoc]; simpa using hf)]
              simp [hid]
          | false =>
              rw [List.find?_cons_of_neg _ (by simp [hf]),
                List.find?_cons_of_neg _ (by rw [← hfoc]; simp [hf])]
              exact ih bs h2

/-- The focused-window-id computation is determined by the windows' shape. -/
theorem focusedId_shape_eq {w w' : World} (h : windowsShape w = windowsShape w') :
    (w.windows.find? (fun win => win.focused)).map (fun win => win.id) =
      (w'.windows.find? (fun win => win.focused)).map (fun win => win.id) :=
  find_id_shape_eq w.windows w'.windows h

/-- Effective activeness is determined by the attributes and the shape. -/
theorem isTabEffectivelyActiveW_shape_eq {w w' : World}
    (h : windowsShape w = windowsShape w') (tab : Tab) :
    isTabEffectivelyActiveW w tab = isTabEffectivelyActiveW w' tab := by
  unfold isTabEffectivelyActiveW
  by_cases ha : tab.active
  · simp only [ha]
    have := findWindow_shape_eq h tab.windowId
    cases h1 : findWindow w tab.windowId with
    | none =>
        cases h2 : findWindow w' tab.windowId with
        | none => rfl
        | some win2 => rw [h1, h2] at this; simp at this
    | some win1 =>
        cases h2 : findWindow w' tab.windowId with
        | none => rw [h1, h2] at this; simp at this
        | some win2 =>
            rw [h1, h2] at this
            simp at this
            simp [this]
  · simp [ha]

theorem tabExistsW_iff (w : World) (i : Int) :
    tabExistsW w i = true ↔ ∃ q ∈ wtabs w, q.2.id = i := by
  unfold tabExistsW findTabW
  rw [List.find?_isSome]
  constructor
  · rintro ⟨t, ht, hid⟩
    exact ⟨(t.windowId, tabProps t), mem_wtabs_of_mem_query ht, by simpa using hid⟩
  · rintro ⟨q, hq, hid⟩
    rw [← queryAllTabs_pairs] at hq
    rw [List.mem_map] at hq
    obtain ⟨t, ht, hteq⟩ := hq
    cases hteq
    exact ⟨t, ht, by simpa using hid⟩

/-! ## Sort-pass analysis

The reorder pass is analysed through the decomposition of a window's tab
list at its *last* grouped non-pinned tab. -/

/-- Grouped in the sense of the sorting/eligibility checks. -/
def isGroupedProps (p : TabProps) : Prop :=
  p.groupId ≠ TAB_GROUP_ID_NONE ∧ p.groupId ≠ -1

instance (p : TabProps) : Decidable (isGroupedProps p) := by
  unfold isGroupedProps
  infer_instance

/-- A grouped non-pinned tab (the kind that defines the boundary). -/
def isAnchorProps (p : TabProps) : Prop := p.pinned = false ∧ isGroupedProps p

instance (p : TabProps) : Decidable (isAnchorProps p) := by
  unfold isAnchorProps
  infer_instance

/-- An ungrouped non-pinned tab (the kind the pass may move). -/
def relocatableB (p : TabProps) : Bool :=
  !p.pinned && decide (p.groupId = TAB_GROUP_ID_NONE ∨ p.groupId = -1)

theorem relocatableB_iff (p : TabProps) :
    relocatableB p = true ↔ (p.pinned = false ∧ ¬isGroupedProps p) := by
  unfold relocatableB isGroupedProps TAB_GROUP_ID_NONE
  constructor
  · intro h
    simp at h
    exact ⟨h.1, fun hc => hc.2 h.2⟩
  · rintro ⟨h1, h2⟩
    simp [h1]
    by_contra hne
    exact h2 ⟨hne, hne⟩

theorem not_anchor_of_relocatable {p : TabProps} (h : relocatableB p = true) :
    ¬isAnchorProps p := by
  rw [relocatableB_iff] at h
  intro hc
  exact h.2 hc.2

/-- The queried tabs of a window content, with positions starting at `n`. -/
def etabs (wid : Int) (n : Nat) (ts : List TabProps) : List Tab :=
  (enumFrom n ts).map (fun q => mkTab wid q.1 q.2)

theorem queryWindowTabs_eq_etabs (win : Window) :
    queryWindowTabs win = etabs win.id 0 win.tabs := rfl

theorem etabs_append (wid : Int) (n : Nat) (xs ys : List TabProps) :
    etabs wid n (xs ++ ys) = etabs wid n xs ++ etabs wid (n + xs.length) ys := by
  unfold etabs
  rw [enumFrom_append, List.map_append]

theorem etabs_cons (wid : Int) (n : Nat) (p : TabProps) (ts : List TabProps) :
    etabs wid n (p :: ts) = mkTab wid n p :: etabs wid (n + 1) ts := rfl

theorem etabs_length (wid : Int) (n : Nat) (ts : List TabProps) :
    (etabs wid n ts).length = ts.length := by
  unfold etabs
  rw [List.length_map]
  induction ts generalizing n with
  | nil => rfl
  | cons a as ih => simp [enumFrom, ih]

theorem filter_map_comm {α β : Type} (f : α → β) (P : β → Bool) :
    ∀ l : List α, (l.map f).filter P = (l.filter (fun a => P (f a))).map f := by
  intro l
  induction l with
  | nil => rfl
  | cons a as ih =>
      simp only [List.map_cons, List.filter_cons]
      by_cases h : P (f a) = true
      · simp only [h, if_true, List.map_cons, ih]
      · simp only [h, if_false, ih]
        simp at h
        simp [h]

theorem le_foldl_max (L : List Nat) : ∀ (a : Nat), a ≤ L.foldl max a := by
  induction L with
  | nil => intro a; exact Nat.le_refl a
  | cons x xs ih =>
      intro a
      calc a ≤ max a x := Nat.le_max_left a x
        _ ≤ xs.foldl max (max a x) := ih (max a x)

theorem mem_le_foldl_max (L : List Nat) : ∀ (a x : Nat), x ∈ L → x ≤ L.foldl max a := by
  induction L with
  | nil => intro a x h; cases h
  | cons y ys ih =>
      intro a x h
      rcases List.mem_cons.mp h with h | h
      · rw [h]
        calc y ≤ max a y := Nat.le_max_right a y
          _ ≤ ys.foldl max (max a y) := le_foldl_max ys (max a y)
      · exact ih (max a y) x h

theorem foldl_max_le (L : List Nat) : ∀ (a b : Nat), a ≤ b → (∀ x ∈ L, x ≤ b) →
    L.foldl max a ≤ b := by
  induction L with
  | nil => intro a b h _; exact h
  | cons x xs ih =>
      intro a b h hall
      refine ih (max a x) b ?_ ?_
      · exact Nat.max_le.mpr ⟨h, hall x (List.mem_cons_self x xs)⟩
      · intro y hy
        exact hall y (List.mem_cons_of_mem x hy)

theorem foldl_max_eq (L : List Nat) (b : Nat) (hmem : b ∈ L) (hub : ∀ x ∈ L, x ≤ b) :
    L.foldl max 0 = b :=
  Nat.le_antisymm (foldl_max_le L 0 b (Nat.zero_le b) hub) (mem_le_foldl_max L 0 b hmem)

theorem sortByIndex_eq_self_of_sorted :
    ∀ l : List Tab, l.Pairwise (fun a b => a.index ≤ b.index) → sortByIndex l = l := by
  intro l
  induction l with
  | nil => intro _; rfl
  | cons t ts ih =>
      intro h
      rcases List.pairwise_cons.mp h with ⟨ht, hts⟩
      unfold sortByIndex
      rw [ih hts]
      cases ts with
      | nil => rfl
      | cons u us =>
          unfold insertByIndex
          rw [if_pos (ht u (List.mem_cons_self u us))]

/-- Push an attribute-level filter and map through the enumerated view. -/
theorem enum_filter_map_props {α : Type} (R : TabProps → Bool) (f : TabProps → α) :
    ∀ (n : Nat) (ts : List TabProps),
      (((enumFrom n ts).filter (fun q => R q.2)).map (fun q => f q.2)) =
        (ts.filter R).map f := by
  intro n ts
  induction ts generalizing n with
  | nil => rfl
  | cons p ps ih =>
      simp only [enumFrom, List.filter_cons]
      by_cases h : R p = true
      · simp only [h, if_true, List.map_cons, List.filter_cons, ih]
      · simp only [h, Bool.false_eq_true, if_false, List.filter_cons, ih]

/-- Decompose a list at its last element satisfying `P`. -/
theorem exists_last_satisfying {α : Type} (P : α → Prop) [DecidablePred P] :
    ∀ (l : List α), (∃ x ∈ l, P x) →
      ∃ A g B, l = A ++ g :: B ∧ P g ∧ ∀ x ∈ B, ¬P x := by
  intro l
  induction l with
  | nil => rintro ⟨x, hx, -⟩; cases hx
  | cons a as ih =>
      intro hex
      by_cases htail : ∃ x ∈ as, P x
      · obtain ⟨A, g, B, hsplit, hg, hB⟩ := ih htail
        exact ⟨a :: A, g, B, by rw [hsplit]; rfl, hg, hB⟩
      · have ha : P a := by
          obtain ⟨x, hx, hPx⟩ := hex
          rcases List.mem_cons.mp hx with hx | hx
          · rw [← hx]; exact hPx
          · exact absurd ⟨x, hx, hPx⟩ htail
        refine ⟨[], a, as, rfl, ha, ?_⟩
        intro x hx hPx
        exact htail ⟨x, hx, hPx⟩

theorem mem_etabs {t : Tab} {wid : Int} {n : Nat} {ts : List TabProps}
    (h : t ∈ etabs wid n ts) :
    n ≤ t.index ∧ t.index < n + ts.length ∧ tabProps t ∈ ts := by
  unfold etabs at h
  rw [List.mem_map] at h
  obtain ⟨q, hq, rfl⟩ := h
  obtain ⟨h1, h2, h3⟩ := mem_enumFrom hq
  exact ⟨h1, h2, h3⟩

theorem mem_tabsInGroups {t : Tab} {l : List Tab} :
    t ∈ tabsInGroups l ↔
      (t ∈ l ∧ t.pinned = false ∧ t.groupId ≠ TAB_GROUP_ID_NONE ∧ t.groupId ≠ -1) := by
  unfold tabsInGroups unpinnedTabs
  simp [List.mem_filter]
  tauto

theorem mem_nonGroupedTabs {t : Tab} {l : List Tab} :
    t ∈ nonGroupedTabs l ↔
      (t ∈ l ∧ t.pinned = false ∧ (t.groupId = TAB_GROUP_ID_NONE ∨ t.groupId = -1)) := by
  unfold nonGroupedTabs unpinnedTabs
  simp [List.mem_filter]
  tauto

theorem tabsInGroups_append (X Y : List Tab) :
    tabsInGroups (X ++ Y) = tabsInGroups X ++ tabsInGroups Y := by
  unfold tabsInGroups unpinnedTabs
  rw [List.filter_append, List.filter_append]

theorem nonGroupedTabs_append (X Y : List Tab) :
    nonGroupedTabs (X ++ Y) = nonGroupedTabs X ++ nonGroupedTabs Y := by
  unfold nonGroupedTabs unpinnedTabs
  rw [List.filter_append, List.filter_append]

theorem pairwise_index_etabs (wid : Int) (n : Nat) (ts : List TabProps) :
    (etabs wid n ts).Pairwise (fun a b => a.index ≤ b.index) := by
  unfold etabs
  rw [List.pairwise_map]
  refine (pairwise_fst_lt_enumFrom n ts).imp ?_
  intro a b h
  exact Nat.le_of_lt h

/-- The computation of one sort pass on a window whose content is split at
its last grouped non-pinned tab: the issued moves are exactly the
relocatable tabs of the prefix, in order, to position `A.length + 1`. -/
theorem sortTabsMoves_etabs_decomp (wid : Int) (A : List TabProps) (g : TabProps)
    (B : List TabProps) (hg : isAnchorProps g) (hB : ∀ p ∈ B, ¬isAnchorProps p) :
    sortTabsMoves (etabs wid 0 (A ++ g :: B)) =
      (A.filter relocatableB).map (fun p => (p.id, A.length + 1)) := by
  have hdecomp : etabs wid 0 (A ++ g :: B) =
      etabs wid 0 A ++ (mkTab wid A.length g :: etabs wid (A.length + 1) B) := by
    rw [etabs_append, etabs_cons]
    norm_num
  have hlen : ¬((etabs wid 0 (A ++ g :: B)).length = 0) := by
    rw [etabs_length]
    simp
  -- the grouped non-pinned tabs of each part
  have htig_mid : tabsInGroups [mkTab wid A.length g] = [mkTab wid A.length g] := by
    unfold tabsInGroups unpinnedTabs
    have hg1 : g.pinned = false := hg.1
    have hg2 : g.groupId ≠ TAB_GROUP_ID_NONE := hg.2.1
    have hg3 : g.groupId ≠ -1 := hg.2.2
    simp [mkTab, hg1, hg2, hg3]
  have htig_B : tabsInGroups (etabs wid (A.length + 1) B) = [] := by
    rw [List.eq_nil_iff_forall_not_mem]
    intro t ht
    rw [mem_tabsInGroups] at ht
    obtain ⟨hmem, hp, hg1, hg2⟩ := ht
    obtain ⟨-, -, hprops⟩ := mem_etabs hmem
    exact hB (tabProps t) hprops ⟨hp, hg1, hg2⟩
  have htig : tabsInGroups (etabs wid 0 (A ++ g :: B)) =
      tabsInGroups (etabs wid 0 A) ++ [mkTab wid A.length g] := by
    rw [hdecomp]
    rw [show mkTab wid A.length g :: etabs wid (A.length + 1) B =
      [mkTab wid A.length g] ++ etabs wid (A.length + 1) B from rfl]
    rw [tabsInGroups_append, tabsInGroups_append, htig_mid, htig_B]
    simp
  have hlen2 : ¬((tabsInGroups (etabs wid 0 (A ++ g :: B))).length = 0) := by
    rw [htig]
    simp
  -- the boundary is the anchor's position
  have hmax : maxIndexOfGroupedTabs (etabs wid 0 (A ++ g :: B)) = A.length := by
    unfold maxIndexOfGroupedTabs
    rw [htig]
    apply foldl_max_eq
    · rw [List.map_append]
      apply List.mem_append_right
      simp [mkTab]
    · intro x hx
      rw [List.map_append, List.mem_append] at hx
      rcases hx with hx | hx
      · rw [List.mem_map] at hx
        obtain ⟨t, ht, rfl⟩ := hx
        have := (mem_etabs (mem_tabsInGroups.mp ht).1).2.1
        omega
      · simp [mkTab] at hx
        omega
  -- the violators are exactly the prefix's relocatable tabs
  have hngt_mid : nonGroupedTabs [mkTab wid A.length g] = [] := by
    unfold nonGroupedTabs unpinnedTabs
    have hg1 : g.pinned = false := hg.1
    have hg3 : ¬(g.groupId = -1) := hg.2.2
    simp [mkTab, hg1, TAB_GROUP_ID_NONE, hg3]
  have hviol : (nonGroupedTabs (etabs wid 0 (A ++ g :: B))).filter
      (fun t => t.index < maxIndexOfGroupedTabs (etabs wid 0 (A ++ g :: B))) =
      nonGroupedTabs (etabs wid 0 A) := by
    rw [hmax, hdecomp]
    rw [show mkTab wid A.length g :: etabs wid (A.length + 1) B =
      [mkTab wid A.length g] ++ etabs wid (A.length + 1) B from rfl]
    rw [nonGroupedTabs_append, nonGroupedTabs_append, hngt_mid]
    rw [List.nil_append, List.filter_append]
    have h1 : (nonGroupedTabs (etabs wid 0 A)).filter
        (fun t => t.index < A.length) = nonGroupedTabs (etabs wid 0 A) := by
      rw [List.filter_eq_self]
      intro t ht
      have := (mem_etabs (mem_nonGroupedTabs.mp ht).1).2.1
      simpa using this
    have h2 : (nonGroupedTabs (etabs wid (A.length + 1) B)).filter
        (fun t => t.index < A.length) = [] := by
      rw [List.filter_eq_nil_iff]
      intro t ht
      have := (mem_etabs (mem_nonGroupedTabs.mp ht).1).1
      simp
      omega
    rw [h1, h2, List.append_nil]
  -- assembled computation
  unfold sortTabsMoves
  rw [if_neg hlen, if_neg hlen2]
  unfold nonGroupedTabsToRelocate
  rw [hviol, hmax]
  have hsorted : (nonGroupedTabs (etabs wid 0 A)).Pairwise
      (fun a b => a.index ≤ b.index) := by
    refine List.Pairwise.sublist ?_ (pairwise_index_etabs wid 0 A)
    unfold nonGroupedTabs unpinnedTabs
    exact (List.filter_sublist _).trans (List.filter_sublist _)
  rw [sortByIndex_eq_self_of_sorted _ hsorted]
  -- translate the Tab-level filter chain to the attribute level
  unfold nonGroupedTabs unpinnedTabs etabs
  rw [filter_map_comm, filter_map_comm, List.map_map, List.filter_filter]
  have hpred : ∀ q ∈ enumFrom 0 A,
      (decide ((mkTab wid q.1 q.2).groupId = TAB_GROUP_ID_NONE ∨
          (mkTab wid q.1 q.2).groupId = -1) &&
        (!(mkTab wid q.1 q.2).pinned)) = relocatableB q.2 := by
    intro q _
    rw [Bool.and_comm]
    rfl
  rw [List.filter_congr hpred]
  have hmap : ((enumFrom 0 A).filter (fun q => relocatableB q.2)).map
      ((fun t => (t.id, A.length + 1)) ∘ (fun q => mkTab wid q.1 q.2)) =
      ((enumFrom 0 A).filter (fun q => relocatableB q.2)).map
      (fun q => ((q.2.id, A.length + 1) : Int × Nat)) := by
    apply List.map_congr_left
    intro q _
    rfl
  rw [hmap]
  exact enum_filter_map_props relocatableB (fun p => (p.id, A.length + 1)) 0 A

theorem removeFirstById_append_left (X Y : List TabProps) (i : Int)
    (h : ∃ p ∈ X, p.id = i) :
    removeFirstById (X ++ Y) i = removeFirstById X i ++ Y := by
  induction X with
  | nil => obtain ⟨p, hp, -⟩ := h; cases hp
  | cons x xs ih =>
      unfold removeFirstById
      by_cases hx : x.id = i
      · simp [hx]
      · simp only [hx, if_false, List.cons_append]
        congr 1
        apply ih
        obtain ⟨p, hp, hpi⟩ := h
        rcases List.mem_cons.mp hp with hp | hp
        · rw [← hp] at hx; exact absurd hpi hx
        · exact ⟨p, hp, hpi⟩

theorem removeFirstById_of_not_mem (X : List TabProps) (i : Int)
    (h : ∀ p ∈ X, p.id ≠ i) :
    removeFirstById X i = X := by
  induction X with
  | nil => rfl
  | cons x xs ih =>
      unfold removeFirstById
      rw [if_neg (h x (List.mem_cons_self x xs))]
      rw [ih (fun p hp => h p (List.mem_cons_of_mem x hp))]

theorem removeFirstById_middle (A1 A2 : List TabProps) (v : TabProps)
    (h : ∀ p ∈ A1, p.id ≠ v.id) :
    removeFirstById (A1 ++ v :: A2) v.id = A1 ++ A2 := by
  induction A1 with
  | nil => simp [removeFirstById]
  | cons a as ih =>
      rw [List.cons_append]
      unfold removeFirstById
      rw [if_neg (h a (List.mem_cons_self a as))]
      rw [ih (fun p hp => h p (List.mem_cons_of_mem a hp))]
      rw [List.cons_append]

theorem find_by_id_eq_some (l : List TabProps) (v : TabProps)
    (hmem : v ∈ l) (hnodup : (l.map (fun p => p.id)).Nodup) :
    l.find? (fun p => p.id = v.id) = some v := by
  induction l with
  | nil => cases hmem
  | cons a as ih =>
      rcases List.mem_cons.mp hmem with hv | hv
      · rw [← hv]
        exact List.find?_cons_of_pos _ (by simp)
      · have hne : a.id ≠ v.id := by
          intro hc
          have : v.id ∈ as.map (fun p => p.id) := List.mem_map_of_mem _ hv
          rw [← hc] at this
          exact (List.nodup_cons.mp (by simpa using hnodup)).1 this
        rw [List.find?_cons_of_neg _ (by simpa using hne)]
        exact ih hv (List.nodup_cons.mp (by simpa using hnodup)).2

theorem insertAtClamped_append (X Y : List TabProps) (m : Nat) (a : TabProps)
    (h : X.length ≤ m) :
    insertAtClamped (X ++ Y) m a = X ++ insertAtClamped Y (m - X.length) a := by
  induction X generalizing m with
  | nil => simp
  | cons x xs ih =>
      cases m with
      | zero => simp at h
      | succ m' =>
          have harith : m' + 1 - (x :: xs).length = m' - xs.length := by
            simp
          rw [harith, List.cons_append, List.cons_append]
          show x :: insertAtClamped (xs ++ Y) m' a =
            x :: (xs ++ insertAtClamped Y (m' - xs.length) a)
          rw [ih m' (by simpa using h)]

theorem mem_insertAtClamped {x a : TabProps} :
    ∀ {l : List TabProps} {m : Nat}, x ∈ insertAtClamped l m a → x ∈ l ∨ x = a := by
  intro l
  induction l with
  | nil =>
      intro m h
      cases m with
      | zero =>
          have h' : x ∈ [a] := h
          simp at h'
          exact Or.inr h'
      | succ m' =>
          have h' : x ∈ [a] := h
          simp at h'
          exact Or.inr h'
  | cons y ys ih =>
      intro m h
      cases m with
      | zero =>
          have h' : x ∈ a :: y :: ys := h
          rcases List.mem_cons.mp h' with h1 | h1
          · exact Or.inr h1
          · exact Or.inl h1
      | succ m' =>
          have h' : x ∈ y :: insertAtClamped ys m' a := h
          rcases List.mem_cons.mp h' with h1 | h1
          · exact Or.inl (by rw [h1]; exact List.mem_cons_self y ys)
          · rcases ih h1 with h2 | h2
            · exact Or.inl (List.mem_cons_of_mem y h2)
            · exact Or.inr h2

theorem insertAtClamped_perm (l : List TabProps) (m : Nat) (a : TabProps) :
    List.Perm (insertAtClamped l m a) (a :: l) := by
  induction l generalizing m with
  | nil => cases m <;> exact List.Perm.refl _
  | cons y ys ih =>
      cases m with
      | zero => exact List.Perm.refl _
      | succ m' =>
          unfold insertAtClamped
          exact (List.Perm.cons y (ih m')).trans (List.Perm.swap a y ys)

theorem removeFirst_cons_perm (l : List TabProps) (v : TabProps)
    (hmem : v ∈ l) (hnodup : (l.map (fun p => p.id)).Nodup) :
    List.Perm (v :: removeFirstById l v.id) l := by
  induction l with
  | nil => cases hmem
  | cons a as ih =>
      rcases List.mem_cons.mp hmem with hv | hv
      · rw [← hv]
        unfold removeFirstById
        rw [if_pos rfl]
      · have hne : a.id ≠ v.id := by
          intro hc
          have : v.id ∈ as.map (fun p => p.id) := List.mem_map_of_mem _ hv
          rw [← hc] at this
          exact (List.nodup_cons.mp (by simpa using hnodup)).1 this
        unfold removeFirstById
        rw [if_neg hne]
        have ihp := ih hv (List.nodup_cons.mp (by simpa using hnodup)).2
        exact (List.Perm.swap a v (removeFirstById as v.id)).trans (List.Perm.cons a ihp)

theorem moveTabInList_perm (l : List TabProps) (i : Int) (m : Nat)
    (hnodup : (l.map (fun p => p.id)).Nodup) :
    List.Perm (moveTabInList l i m) l := by
  unfold moveTabInList
  cases hfind : l.find? (fun p => p.id = i) with
  | none => exact List.Perm.refl l
  | some v =>
      have hvl : v ∈ l := List.mem_of_find?_eq_some hfind
      have hvi : v.id = i := by
        have := List.find?_some hfind
        simpa using this
      refine (insertAtClamped_perm _ m v).trans ?_
      rw [← hvi]
      exact removeFirst_cons_perm l v hvl hnodup

theorem applyMoves_perm (moves : List (Int × Nat)) :
    ∀ (l : List TabProps), (l.map (fun p => p.id)).Nodup →
      List.Perm (applyMoves l moves) l := by
  induction moves with
  | nil => intro l _; exact List.Perm.refl l
  | cons mv rest ih =>
      intro l hnodup
      unfold applyMoves
      rw [List.foldl_cons]
      have h1 : List.Perm (moveTabInList l mv.1 mv.2) l :=
        moveTabInList_perm l mv.1 mv.2 hnodup
      have h2 : ((moveTabInList l mv.1 mv.2).map (fun p => p.id)).Nodup :=
        (List.Perm.nodup_iff (List.Perm.map _ h1)).mpr hnodup
      exact (ih (moveTabInList l mv.1 mv.2) h2).trans h1

/-- Decompose a filtered list at its first kept element. -/
theorem filter_eq_cons_decomp (P : TabProps → Bool) :
    ∀ (A : List TabProps) (v : TabProps) (V : List TabProps),
      A.filter P = v :: V →
      ∃ A1 A2, A = A1 ++ v :: A2 ∧ (∀ p ∈ A1, P p = false) ∧ A2.filter P = V := by
  intro A
  induction A with
  | nil => intro v V h; simp at h
  | cons a as ih =>
      intro v V h
      rw [List.filter_cons] at h
      by_cases ha : P a = true
      · rw [if_pos ha] at h
        obtain ⟨h1, h2⟩ := List.cons.injEq .. ▸ h
        refine ⟨[], as, ?_, ?_, ?_⟩
        · rw [h1]
          rfl
        · intro p hp
          cases hp
        · exact h2
      · rw [if_neg ha] at h
        obtain ⟨A1, A2, hsplit, hA1, hA2⟩ := ih v V h
        refine ⟨a :: A1, A2, by rw [hsplit]; rfl, ?_, hA2⟩
        intro p hp
        rcases List.mem_cons.mp hp with hp | hp
        · rw [hp]; simpa using ha
        · exact hA1 p hp

/-- The effect of the issued moves on the window content: every relocatable
tab of the prefix is pulled out of the prefix and lands after the anchor; the
suffix stays anchor-free, and the content is a permutation of the original. -/
theorem applyMoves_decomp :
    ∀ (V A B : List TabProps) (g : TabProps) (n : Nat),
      A.filter relocatableB = V →
      (((A ++ g :: B).map (fun p => p.id)).Nodup) →
      (∀ p ∈ B, ¬isAnchorProps p) →
      A.length ≤ n →
      ∃ B', applyMoves (A ++ g :: B) (V.map (fun p => (p.id, n + 1)))
          = (A.filter (fun p => !relocatableB p)) ++ g :: B' ∧
        (∀ p ∈ B', ¬isAnchorProps p) ∧
        List.Perm ((A.filter (fun p => !relocatableB p)) ++ g :: B') (A ++ g :: B) := by
  intro V
  induction V with
  | nil =>
      intro A B g n hV hnodup hB _
      have hAfix : A.filter (fun p => !relocatableB p) = A := by
        rw [List.filter_eq_self]
        intro p hp
        have hfalse : relocatableB p = false := by
          rcases Bool.eq_false_or_eq_true (relocatableB p) with h | h
          · exfalso
            have : p ∈ A.filter relocatableB := List.mem_filter.mpr ⟨hp, h⟩
            rw [hV] at this
            cases this
          · exact h
        simp [hfalse]
      refine ⟨B, ?_, hB, ?_⟩
      · show applyMoves (A ++ g :: B) [] = _
        unfold applyMoves
        rw [List.foldl_nil, hAfix]
      · rw [hAfix]
  | cons v V' ih =>
      intro A B g n hV hnodup hB hlen
      obtain ⟨A1, A2, hsplit, hA1, hA2⟩ := filter_eq_cons_decomp relocatableB A v V' hV
      have hvrel : relocatableB v = true := by
        have : v ∈ A.filter relocatableB := by rw [hV]; exact List.mem_cons_self v V'
        exact (List.mem_filter.mp this).2
      subst hsplit
      -- one move: find v, remove it, reinsert after the anchor
      rw [List.map_cons]
      unfold applyMoves
      rw [List.foldl_cons]
      have hstep : moveTabInList ((A1 ++ v :: A2) ++ g :: B) v.id (n + 1) =
          (A1 ++ A2) ++ g :: insertAtClamped B (n - (A1 ++ A2).length) v := by
        unfold moveTabInList
        have hfind : ((A1 ++ v :: A2) ++ g :: B).find? (fun p => p.id = v.id) = some v := by
          apply find_by_id_eq_some
          · exact List.mem_append_left _ (List.mem_append_right _ (List.mem_cons_self v A2))
          · exact hnodup
        simp only [hfind]
        have hrem : removeFirstById ((A1 ++ v :: A2) ++ g :: B) v.id =
            (A1 ++ A2) ++ g :: B := by
          rw [List.append_assoc, List.cons_append]
          have hA1ne : ∀ p ∈ A1, p.id ≠ v.id := by
            intro p hp hc
            have hsub : List.Sublist (A1 ++ v :: A2) ((A1 ++ v :: A2) ++ g :: B) :=
              List.sublist_append_left _ _
            have h' : ((A1 ++ v :: A2).map (fun p => p.id)).Nodup :=
              List.Nodup.sublist (List.Sublist.map _ hsub) hnodup
            rw [List.map_append] at h'
            rcases List.nodup_append.mp h' with ⟨-, -, hdisj⟩
            have hpmem : v.id ∈ A1.map (fun p => p.id) := by
              rw [← hc]
              exact List.mem_map_of_mem _ hp
            exact hdisj hpmem (by simp)
          rw [removeFirstById_middle A1 (A2 ++ g :: B) v hA1ne]
          rw [← List.append_assoc]
        rw [hrem]
        have hle : (A1 ++ A2).length ≤ n + 1 := by
          have : (A1 ++ A2).length + 1 = (A1 ++ v :: A2).length := by
            simp only [List.length_append, List.length_cons]
            omega
          omega
        rw [insertAtClamped_append _ _ _ _ hle]
        have hpos : n + 1 - (A1 ++ A2).length = (n - (A1 ++ A2).length) + 1 := by
          have h1 : (A1 ++ A2).length + 1 = (A1 ++ v :: A2).length := by
            simp only [List.length_append, List.length_cons]
            omega
          omega
        rw [hpos]
        rw [show insertAtClamped (g :: B) ((n - (A1 ++ A2).length) + 1) v =
          g :: insertAtClamped B (n - (A1 ++ A2).length) v from rfl]
      rw [hstep]
      -- recurse on the remaining moves
      have hperm1 : List.Perm ((A1 ++ A2) ++ g :: insertAtClamped B
          (n - (A1 ++ A2).length) v) ((A1 ++ v :: A2) ++ g :: B) := by
        rw [← hstep]
        apply moveTabInList_perm
        exact hnodup
      have hnodup2 : (((A1 ++ A2) ++ g :: insertAtClamped B
          (n - (A1 ++ A2).length) v).map (fun p => p.id)).Nodup :=
        (List.Perm.nodup_iff (List.Perm.map _ hperm1)).mpr hnodup
      have hBins : ∀ p ∈ insertAtClamped B (n - (A1 ++ A2).length) v,
          ¬isAnchorProps p := by
        intro p hp
        rcases mem_insertAtClamped hp with hp | hp
        · exact hB p hp
        · rw [hp]
          exact not_anchor_of_relocatable hvrel
      have hfiltA12 : (A1 ++ A2).filter relocatableB = V' := by
        rw [List.filter_append]
        have : A1.filter relocatableB = [] := by
          rw [List.filter_eq_nil_iff]
          intro p hp
          simp [hA1 p hp]
        rw [this, hA2]
        rfl
      have hlen2 : (A1 ++ A2).length ≤ n := by
        have : (A1 ++ A2).length + 1 = (A1 ++ v :: A2).length := by
          simp only [List.length_append, List.length_cons]
          omega
        omega
      obtain ⟨B', heq, hB', hperm2⟩ := ih (A1 ++ A2)
        (insertAtClamped B (n - (A1 ++ A2).length) v) g n
        hfiltA12 hnodup2 hBins hlen2
      refine ⟨B', ?_, hB', ?_⟩
      · show applyMoves _ (V'.map (fun p => (p.id, n + 1))) = _
        rw [heq]
        congr 1
        rw [List.filter_append, List.filter_append]
        congr 1
        rw [List.filter_cons]
        have : (!relocatableB v) = false := by simp [hvrel]
        rw [this]
        simp
      · have hfeq : (A1 ++ v :: A2).filter (fun p => !relocatableB p) =
            (A1 ++ A2).filter (fun p => !relocatableB p) := by
          rw [List.filter_append, List.filter_append, List.filter_cons]
          have hv : (!relocatableB v) = false := by simp [hvrel]
          rw [hv]
          simp
        rw [hfeq]
        exact hperm2.trans hperm1

theorem sortTabsMoves_nil_of_no_anchor (wid : Int) (ts : List TabProps)
    (h : ∀ p ∈ ts, ¬isAnchorProps p) :
    sortTabsMoves (etabs wid 0 ts) = [] := by
  unfold sortTabsMoves
  by_cases hlen : (etabs wid 0 ts).length = 0
  · rw [if_pos hlen]
  · rw [if_neg hlen, if_pos ?_]
    rw [List.length_eq_zero, List.eq_nil_iff_forall_not_mem]
    intro t ht
    rw [mem_tabsInGroups] at ht
    obtain ⟨hmem, hp, h1, h2⟩ := ht
    exact h (tabProps t) (mem_etabs hmem).2.2 ⟨hp, h1, h2⟩

/-- One sort pass reaches a fixpoint: re-computing the moves on the updated
content yields none. -/
theorem sortTabsMoves_after_pass_nil (wid : Int) (ts : List TabProps)
    (hnodup : (ts.map (fun p => p.id)).Nodup) :
    sortTabsMoves (etabs wid 0
      (applyMoves ts (sortTabsMoves (etabs wid 0 ts)))) = [] := by
  by_cases hex : ∃ p ∈ ts, isAnchorProps p
  · obtain ⟨A, g, B, hsplit, hg, hB⟩ := exists_last_satisfying isAnchorProps ts hex
    subst hsplit
    rw [sortTabsMoves_etabs_decomp wid A g B hg hB]
    obtain ⟨B', heq, hB', -⟩ := applyMoves_decomp (A.filter relocatableB) A B g
      A.length rfl hnodup hB (Nat.le_refl _)
    rw [heq]
    rw [sortTabsMoves_etabs_decomp wid _ g B' hg hB']
    have hfix : (A.filter (fun p => !relocatableB p)).filter relocatableB = [] := by
      rw [List.filter_eq_nil_iff]
      intro p hp
      have := (List.mem_filter.mp hp).2
      simp at this
      simp [this]
    rw [hfix]
    rfl
  · have hno : ∀ p ∈ ts, ¬isAnchorProps p := by
      intro p hp hc
      exact hex ⟨p, hp, hc⟩
    rw [sortTabsMoves_nil_of_no_anchor wid ts hno]
    show sortTabsMoves (etabs wid 0 ts) = []
    exact sortTabsMoves_nil_of_no_anchor wid ts hno

/-! Window-level behaviour of one `sortTabsInWindow` call. -/

theorem find_update_winlist_self (ws : List Window) (wid : Int) (ts : List TabProps)
    {win : Window}
    (hfind : ws.find? (fun x => x.id = wid) = some win) :
    (ws.map (fun x => if x.id = wid then { x with tabs := ts } else x)).find?
      (fun x => x.id = wid) = some { win with tabs := ts } := by
  induction ws with
  | nil => simp at hfind
  | cons a as ih =>
      by_cases ha : a.id = wid
      · rw [List.find?_cons_of_pos _ (by simpa using ha)] at hfind
        cases hfind
        simp only [List.map_cons, if_pos ha]
        rw [List.find?_cons_of_pos _ (by simpa using ha)]
      · rw [List.find?_cons_of_neg _ (by simpa using ha)] at hfind
        simp only [List.map_cons, if_neg ha]
        rw [List.find?_cons_of_neg _ (by simpa using ha)]
        exact ih hfind

theorem findWindow_updateWindowTabs_self (w : World) (wid : Int) (ts : List TabProps)
    {win : Window} (hfind : findWindow w wid = some win) :
    findWindow (updateWindowTabs w wid ts) wid = some { win with tabs := ts } :=
  find_update_winlist_self w.windows wid ts hfind

theorem find_update_winlist_other (ws : List Window) (wid wid' : Int)
    (ts : List TabProps) (hne : wid' ≠ wid) :
    (ws.map (fun x => if x.id = wid then { x with tabs := ts } else x)).find?
      (fun x => x.id = wid') = ws.find? (fun x => x.id = wid') := by
  induction ws with
  | nil => rfl
  | cons a as ih =>
      by_cases ha : a.id = wid'
      · have hne2 : ¬(a.id = wid) := by rw [ha]; exact hne
        simp only [List.map_cons, if_neg hne2]
        rw [List.find?_cons_of_pos _ (by simpa using ha),
          List.find?_cons_of_pos _ (by simpa using ha)]
      · by_cases hb : a.id = wid
        · simp only [List.map_cons, if_pos hb]
          have ha' : ¬(({ a with tabs := ts } : Window).id = wid') := ha
          rw [List.find?_cons_of_neg _ (by simpa using ha'),
            List.find?_cons_of_neg _ (by simpa using ha)]
          exact ih
        · simp only [List.map_cons, if_neg hb]
          rw [List.find?_cons_of_neg _ (by simpa using ha),
            List.find?_cons_of_neg _ (by simpa using ha)]
          exact ih

theorem findWindow_updateWindowTabs_other (w : World) (wid wid' : Int)
    (ts : List TabProps) (hne : wid' ≠ wid) :
    findWindow (updateWindowTabs w wid ts) wid' = findWindow w wid' :=
  find_update_winlist_other w.windows wid wid' ts hne

theorem updateWindowTabs_self (w : World) {win : Window}
    (hmem : win ∈ w.windows)
    (hnodup : (w.windows.map (fun x => x.id)).Nodup) :
    updateWindowTabs w win.id win.tabs = w := by
  unfold updateWindowTabs
  obtain ⟨ws, now⟩ := w
  simp only [World.mk.injEq, and_true]
  simp only at hmem hnodup
  have hinj := List.inj_on_of_nodup_map hnodup
  conv_rhs => rw [show ws = ws.map id from (List.map_id ws).symm]
  apply List.map_congr_left
  intro x hx
  by_cases hid : x.id = win.id
  · have hxw : x = win := hinj hx hmem hid
    subst hxw
    simp [hid]
  · simp [hid]

theorem windowsShape_sortTabsInWindow (cs : Option ExtensionSettings) (w : World)
    (wid : Int) :
    windowsShape (sortTabsInWindow cs w wid) = windowsShape w := by
  cases cs with
  | none => rfl
  | some s =>
      show windowsShape
        (if ¬s.tabSortingEnabled then w
         else match findWindow w wid with
           | none => w
           | some win =>
               updateWindowTabs w wid
                 (applyMoves win.tabs (sortTabsMoves (queryWindowTabs win)))) =
        windowsShape w
      by_cases hs : ¬s.tabSortingEnabled
      · rw [if_pos hs]
      · rw [if_neg hs]
        cases findWindow w wid with
        | none => rfl
        | some win => exact windowsShape_updateWindowTabs w wid _

theorem now_sortTabsInWindow (cs : Option ExtensionSettings) (w : World) (wid : Int) :
    (sortTabsInWindow cs w wid).now = w.now := by
  cases cs with
  | none => rfl
  | some s =>
      show (if ¬s.tabSortingEnabled then w
         else match findWindow w wid with
           | none => w
           | some win =>
               updateWindowTabs w wid
                 (applyMoves win.tabs (sortTabsMoves (queryWindowTabs win)))).now =
        w.now
      by_cases hs : ¬s.tabSortingEnabled
      · rw [if_pos hs]
      · rw [if_neg hs]
        cases findWindow w wid with
        | none => rfl
        | some win => rfl

/-! ## Scan-step analysis

Lemmas on when the primitive state operations are identities, used to show
the second reconciliation scan replays the first one without effect. -/

theorem ledgerSet_eq_self {led : Ledger} {i v : Int} (h : led i = some v) :
    ledgerSet led i v = led := by
  funext j
  unfold ledgerSet
  by_cases hj : j = i
  · rw [if_pos hj, hj, h]
  · rw [if_neg hj]

theorem alarmsClear_eq_self {alarms : List (List Char × ℚ)} {name : List Char}
    (h : alarmCount alarms name = 0) : alarmsClear alarms name = alarms := by
  unfold alarmsClear
  unfold alarmCount at h
  rw [List.countP_eq_zero] at h
  apply List.filter_eq_self.mpr
  intro a ha
  have := h a ha
  simpa using this

theorem bgstate_eta_ledger (st : BgState) {led : Ledger}
    (h : led = st.tabLastActiveTimes) :
    ({ st with tabLastActiveTimes := led } : BgState) = st := by
  cases st
  simp only at h
  rw [h]

theorem bgstate_eta_alarms (st : BgState) {al : List (List Char × ℚ)}
    (h : al = st.alarms) :
    ({ st with alarms := al } : BgState) = st := by
  cases st
  simp only at h
  rw [h]

theorem updateTabLastActiveTime_eq_self {st : BgState} {i now : Int}
    (h : i ≠ TAB_ID_NONE → st.tabLastActiveTimes i = some now) :
    updateTabLastActiveTime st i now = st := by
  unfold updateTabLastActiveTime
  by_cases hi : i = TAB_ID_NONE
  · rw [if_pos hi]
  · rw [if_neg hi]
    exact bgstate_eta_ledger st (ledgerSet_eq_self (h hi))

theorem cancelArchiveTimer_eq_self {st : BgState} {i : Int}
    (h : i ≠ TAB_ID_NONE → alarmCount st.alarms (getAlarmName i) = 0) :
    cancelArchiveTimer st i = st := by
  unfold cancelArchiveTimer
  by_cases hi : i = TAB_ID_NONE
  · rw [if_pos hi]
  · rw [if_neg hi]
    exact bgstate_eta_alarms st (alarmsClear_eq_self (h hi))

theorem mem_removeFirstById_of_ne {p : TabProps} {ts : List TabProps} {i : Int}
    (hp : p ∈ ts) (hne : p.id ≠ i) : p ∈ removeFirstById ts i := by
  induction ts with
  | nil => simp at hp
  | cons a as ih =>
      unfold removeFirstById
      rcases List.mem_cons.mp hp with h | h
      · subst h
        rw [if_neg hne]
        exact List.mem_cons_self _ _
      · by_cases ha : a.id = i
        · rw [if_pos ha]; exact h
        · rw [if_neg ha]; exact List.mem_cons_of_mem a (ih h)

theorem mem_wtabs_removeTabW_of_ne {q : Int × TabProps} {w : World} {i : Int}
    (hq : q ∈ wtabs w) (hne : q.2.id ≠ i) : q ∈ wtabs (removeTabW w i) := by
  obtain ⟨winId, p⟩ := q
  rw [mem_wtabs_iff] at hq
  obtain ⟨win, hwin, hid, hp⟩ := hq
  rw [mem_wtabs_iff]
  refine ⟨{ win with tabs := removeFirstById win.tabs i }, ?_, hid, ?_⟩
  · unfold removeTabW
    simp only [List.mem_map]
    exact ⟨win, hwin, rfl⟩
  · exact mem_removeFirstById_of_ne hp hne

/-- With globally distinct tab ids, a pair is determined by its id. -/
theorem wtabs_unique_id {w : World} (hnodup : (allTabIds w).Nodup)
    {q q' : Int × TabProps} (hq : q ∈ wtabs w) (hq' : q' ∈ wtabs w)
    (heq : q.2.id = q'.2.id) : q = q' := by
  unfold allTabIds at hnodup
  exact List.inj_on_of_nodup_map hnodup hq hq' heq

theorem not_mem_removeFirstById_self {p : TabProps} {ts : List TabProps}
    (hnodup : (ts.map (fun x => x.id)).Nodup) (hp : p ∈ ts) :
    p ∉ removeFirstById ts p.id := by
  induction ts with
  | nil => simp at hp
  | cons a as ih =>
      simp only [List.map_cons, List.nodup_cons] at hnodup
      unfold removeFirstById
      rcases List.mem_cons.mp hp with h | h
      · subst h
        rw [if_pos rfl]
        intro hc
        exact hnodup.1 (List.mem_map_of_mem _ hc)
      · by_cases ha : a.id = p.id
        · rw [if_pos ha]
          intro _
          exact hnodup.1 (ha ▸ List.mem_map_of_mem (fun x => x.id) h)
        · rw [if_neg ha]
          intro hc
          rcases List.mem_cons.mp hc with h2 | h2
          · exact ha (by rw [h2])
          · exact ih hnodup.2 h h2

theorem allTabIds_eq_flatten (w : World) :
    allTabIds w = (w.windows.map (fun win => win.tabs.map (fun p => p.id))).flatten := by
  unfold allTabIds wtabs
  rw [List.map_flatten, List.map_map]
  congr 1
  apply List.map_congr_left
  intro win _
  simp [Function.comp, List.map_map]

/-- Global id distinctness restricts to each window. -/
theorem window_tab_ids_nodup {w : World} (h : (allTabIds w).Nodup)
    {win : Window} (hwin : win ∈ w.windows) :
    (win.tabs.map (fun p => p.id)).Nodup := by
  rw [allTabIds_eq_flatten] at h
  exact List.Nodup.sublist
    (List.sublist_flatten_of_mem
      (List.mem_map_of_mem (fun win => win.tabs.map (fun p => p.id)) hwin)) h

/-- Removing a pair's id removes the pair. -/
theorem pair_not_mem_removeTabW {w : World} (hnodup : (allTabIds w).Nodup)
    {winId : Int} {p : TabProps} (hq : (winId, p) ∈ wtabs w) :
    (winId, p) ∉ wtabs (removeTabW w p.id) := by
  intro hc
  rw [mem_wtabs_iff] at hq hc
  obtain ⟨win, hwin, hid, hp⟩ := hq
  obtain ⟨win', hwin', hid', hp'⟩ := hc
  unfold removeTabW at hwin'
  simp only [List.mem_map] at hwin'
  obtain ⟨win0, hwin0, heq⟩ := hwin'
  subst heq
  simp only at hp' hid'
  have hsub : p ∈ win0.tabs := (removeFirstById_sublist win0.tabs p.id).mem hp'
  exact not_mem_removeFirstById_self (window_tab_ids_nodup hnodup hwin0) hsub hp'

/-- The `focusedWindowId` computation of `initialTabScan` (line 289). -/
def focusedWindowIdOf (w : World) : Option Int :=
  (w.windows.find? (fun win => win.focused)).map (fun win => win.id)

theorem focusedWindowIdOf_shape_eq {w w' : World}
    (h : windowsShape w = windowsShape w') :
    focusedWindowIdOf w = focusedWindowIdOf w' :=
  focusedId_shape_eq h

/-- Eligibility reads only the attribute part of a queried tab. -/
theorem isTabArchivable_props (t : Tab) (wid : Int) (idx : Nat)
    (la : Option Int) (settings : ExtensionSettings) (eff : Bool) (now : Int) :
    isTabArchivable (mkTab wid idx (tabProps t)) la settings eff now =
      isTabArchivable t la settings eff now := rfl

/-- Effective activeness reads only the attribute part and the window id. -/
theorem isTabEffectivelyActiveW_props (w : World) (t : Tab) (idx : Nat) :
    isTabEffectivelyActiveW w (mkTab t.windowId idx (tabProps t)) =
      isTabEffectivelyActiveW w t := rfl

/-- In the scan every `startArchiveTimer` call shares one `Date.now()`
reading, so an archivable tab always computes a zero delay. -/
theorem computeDelayInMinutes_zero_of_archivable {tab : Tab} {la : Option Int}
    {settings : ExtensionSettings} {eff : Bool} {nowE nowD : Int}
    (helig : isTabArchivable tab la settings eff nowE = true)
    (hclock : nowE ≤ nowD) :
    computeDelayInMinutes settings la nowD = 0 := by
  rcases (isTabArchivable_true_iff tab la settings eff nowE).mp helig with
    ⟨-, -, -, -, -, l, hl, hle⟩
  rw [hl]
  unfold computeDelayInMinutes
  by_cases hl0 : l = 0
  · simp [hl0]
  · simp only [hl0, if_false]
    have hnum : (((archiveThresholdMs settings : Int) : ℚ) -
        ((nowD : ℚ) - (l : ℚ))) ≤ 0 := by
      have h1 : ((archiveThresholdMs settings : Int) : ℚ) ≤
          ((nowE : ℚ) - (l : ℚ)) := by exact_mod_cast hle
      have h2 : ((nowE : ℚ) - (l : ℚ)) ≤ ((nowD : ℚ) - (l : ℚ)) := by
        have : (nowE : ℚ) ≤ (nowD : ℚ) := by exact_mod_cast hclock
        linarith
      linarith
    have hdiv : (((archiveThresholdMs settings : Int) : ℚ) -
        ((nowD : ℚ) - (l : ℚ))) / (60 * 1000) ≤ 0 := by
      apply div_nonpos_of_nonpos_of_nonneg hnum
      norm_num
    simp [max_eq_left hdiv]

/-- What the first scan guarantees, per surviving `(windowId, attributes)`
pair, for the second scan's step on that pair to be an identity.  The
branch condition mirrors `tab.active && tab.windowId === focusedWindowId`
at line 293. -/
def survivorOK (settings : ExtensionSettings) (w : World) (st : BgState)
    (winId : Int) (p : TabProps) : Prop :=
  if p.active = true ∧ focusedWindowIdOf w = some winId then
    p.id ≠ TAB_ID_NONE →
      st.tabLastActiveTimes p.id = some w.now ∧
      alarmCount st.alarms (getAlarmName p.id) = 0
  else
    (st.tabLastActiveTimes p.id).isSome = true ∧
    (settings.autoArchiveEnabled = true → p.id ≠ TAB_ID_NONE →
      alarmCount st.alarms (getAlarmName p.id) = 0 ∧
      (isTabEffectivelyActiveW w (mkTab winId 0 p) = false →
        isTabArchivable (mkTab winId 0 p) (st.tabLastActiveTimes p.id) settings
          false w.now = false))

/-- The survivor conditions only get easier as alarms are cleared, and only
depend on the ledger at the pair's own id. -/
theorem survivorOK_mono (settings : ExtensionSettings) (w : World)
    {st st' : BgState} {winId : Int} {p : TabProps}
    (hld : st'.tabLastActiveTimes p.id = st.tabLastActiveTimes p.id)
    (hsub : List.Sublist st'.alarms st.alarms)
    (h : survivorOK settings w st winId p) :
    survivorOK settings w st' winId p := by
  unfold survivorOK at *
  by_cases hc : p.active = true ∧ focusedWindowIdOf w = some winId
  · rw [if_pos hc] at h ⊢
    intro hi
    obtain ⟨h1, h2⟩ := h hi
    exact ⟨by rw [hld, h1], alarmCount_zero_of_sublist hsub h2⟩
  · rw [if_neg hc] at h ⊢
    obtain ⟨h1, h2⟩ := h
    refine ⟨by rw [hld]; exact h1, ?_⟩
    intro hen hi
    obtain ⟨h3, h4⟩ := h2 hen hi
    exact ⟨alarmCount_zero_of_sublist hsub h3, by rw [hld]; exact h4⟩

/-- The survivor conditions only depend on the world through its shape and
clock. -/
theorem survivorOK_shape (settings : ExtensionSettings) {w w' : World}
    (hshape : windowsShape w = windowsShape w') (hnow : w.now = w'.now)
    {st : BgState} {winId : Int} {p : TabProps}
    (h : survivorOK settings w st winId p) :
    survivorOK settings w' st winId p := by
  unfold survivorOK at *
  rw [← focusedWindowIdOf_shape_eq hshape, ← hnow,
    ← isTabEffectivelyActiveW_shape_eq hshape]
  exact h

/-- `startArchiveTimer` touches the ledger only at its own id (through the
possible synchronous `archiveTab`). -/
theorem startArchiveTimer_ledger_other (cs : Option ExtensionSettings) (tabId : Int)
    (tabInfoProvided : Option Tab) (env : ArmEnv) (st : BgState) (j : Int)
    (hne : j ≠ tabId) :
    (startArchiveTimer cs tabId tabInfoProvided env st).2.tabLastActiveTimes j =
      st.tabLastActiveTimes j := by
  cases cs with
  | none => rfl
  | some settings =>
      by_cases hg : ¬settings.autoArchiveEnabled ∨ tabId = TAB_ID_NONE
      · rcases hg with hg | hg <;> simp [startArchiveTimer, hg]
      · have hid : tabId ≠ TAB_ID_NONE := fun hc => hg (Or.inr hc)
        have hen : settings.autoArchiveEnabled = true := by
          by_contra hc
          exact hg (Or.inl (by simpa using hc))
        cases htab : tabInfoProvided.orElse (fun _ => env.tabGet) with
        | none => simp [startArchiveTimer, hen, hid, htab]
        | some tabInfo =>
            by_cases heff : env.effActive
            · simp [startArchiveTimer, hen, hid, htab, heff, cancelArchiveTimer]
            · have heff' : env.effActive = false := by simpa using heff
              by_cases harch : isTabArchivable tabInfo (st.tabLastActiveTimes tabId)
                  settings false env.nowElig
              · by_cases hd : computeDelayInMinutes settings
                    (st.tabLastActiveTimes tabId) env.nowDelay < (0.016 : ℚ)
                · have hred : (startArchiveTimer (some settings) tabId
                      tabInfoProvided env st).2 =
                      (archiveTab (some settings) tabId (some tabInfo) env.archiveEnv
                        { st with alarms :=
                            alarmsClear st.alarms (getAlarmName tabId) }).2 := by
                    simp [startArchiveTimer, hen, hid, htab, heff', harch, hd]
                  rw [hred, archiveTab_snd settings tabId _ _ _ hid]
                  simp [ledgerDelete, hne]
                · simp [startArchiveTimer, hen, hid, htab, heff', harch, hd]
              · simp [startArchiveTimer, hen, hid, htab, heff', harch]

/-- Under the scan's single clock reading, `startArchiveTimer` never creates
an alarm: its alarm effect is a chain of clears. -/
theorem startArchiveTimer_alarms_sublist (cs : Option ExtensionSettings)
    (tabId : Int) (tabInfoProvided : Option Tab) (env : ArmEnv) (st : BgState)
    (hclock : env.nowElig ≤ env.nowDelay) :
    List.Sublist (startArchiveTimer cs tabId tabInfoProvided env st).2.alarms
      st.alarms := by
  cases cs with
  | none => exact List.Sublist.refl _
  | some settings =>
      by_cases hg : ¬settings.autoArchiveEnabled ∨ tabId = TAB_ID_NONE
      · have hred : (startArchiveTimer (some settings) tabId tabInfoProvided
            env st).2.alarms = st.alarms := by
          rcases hg with hg | hg <;> simp [startArchiveTimer, hg]
        rw [hred]
      · have hid : tabId ≠ TAB_ID_NONE := fun hc => hg (Or.inr hc)
        have hen : settings.autoArchiveEnabled = true := by
          by_contra hc
          exact hg (Or.inl (by simpa using hc))
        cases htab : tabInfoProvided.orElse (fun _ => env.tabGet) with
        | none =>
            have hred : (startArchiveTimer (some settings) tabId tabInfoProvided
                env st).2.alarms = alarmsClear st.alarms (getAlarmName tabId) := by
              simp [startArchiveTimer, hen, hid, htab]
            rw [hred]
            exact alarmsClear_sublist _ _
        | some tabInfo =>
            by_cases heff : env.effActive
            · have hred : (startArchiveTimer (some settings) tabId tabInfoProvided
                  env st).2.alarms =
                  alarmsClear (alarmsClear st.alarms (getAlarmName tabId))
                    (getAlarmName tabId) := by
                simp [startArchiveTimer, hen, hid, htab, heff, cancelArchiveTimer]
              rw [hred]
              exact (alarmsClear_sublist _ _).trans (alarmsClear_sublist _ _)
            · have heff' : env.effActive = false := by simpa using heff
              by_cases harch : isTabArchivable tabInfo (st.tabLastActiveTimes tabId)
                  settings false env.nowElig
              · have hd : computeDelayInMinutes settings
                    (st.tabLastActiveTimes tabId) env.nowDelay < (0.016 : ℚ) := by
                  rw [computeDelayInMinutes_zero_of_archivable harch hclock]
                  norm_num
                have hred : (startArchiveTimer (some settings) tabId
                    tabInfoProvided env st).2 =
                    (archiveTab (some settings) tabId (some tabInfo) env.archiveEnv
                      { st with alarms :=
                          alarmsClear st.alarms (getAlarmName tabId) }).2 := by
                  simp [startArchiveTimer, hen, hid, htab, heff', harch, hd]
                rw [hred, archiveTab_snd settings tabId _ _ _ hid]
                exact (alarmsClear_sublist _ _).trans (alarmsClear_sublist _ _)
              · have hred : (startArchiveTimer (some settings) tabId tabInfoProvided
                    env st).2.alarms = alarmsClear st.alarms (getAlarmName tabId) := by
                  simp [startArchiveTimer, hen, hid, htab, heff', harch]
                rw [hred]
                exact alarmsClear_sublist _ _

theorem cancelArchiveTimer_ledger (st : BgState) (i : Int) :
    (cancelArchiveTimer st i).tabLastActiveTimes = st.tabLastActiveTimes := by
  unfold cancelArchiveTimer
  split <;> rfl

theorem updateTabLastActiveTime_alarms (st : BgState) (i now : Int) :
    (updateTabLastActiveTime st i now).alarms = st.alarms := by
  unfold updateTabLastActiveTime
  split <;> rfl

theorem updateTabLastActiveTime_ledger_other (st : BgState) (i now j : Int)
    (hne : j ≠ i) :
    (updateTabLastActiveTime st i now).tabLastActiveTimes j =
      st.tabLastActiveTimes j := by
  unfold updateTabLastActiveTime
  split
  · rfl
  · simp [ledgerSet, hne]

theorem startArchiveTimerW_snd (cs : Option ExtensionSettings) (i : Int)
    (tp : Option Tab) (w : World) (st : BgState) :
    (startArchiveTimerW cs i tp w st).2 =
      (startArchiveTimer cs i tp (armEnvW w i tp) st).2 := rfl

theorem armEnvW_clock (w : World) (i : Int) (tp : Option Tab) :
    (armEnvW w i tp).nowElig ≤ (armEnvW w i tp).nowDelay := le_refl _

theorem armWorld_cases (w : World) (i : Int) (o : ArmOutcome) :
    (match o with
     | ArmOutcome.archivedNow (ArchiveOutcome.removed a) => removeTabW w i
     | _ => w) = w ∨
    (match o with
     | ArmOutcome.archivedNow (ArchiveOutcome.removed a) => removeTabW w i
     | _ => w) = removeTabW w i := by
  rcases o with _ | _ | _ | o | d | _
  · exact Or.inl rfl
  · exact Or.inl rfl
  · exact Or.inl rfl
  · rcases o with _ | a | _ | _ | e
    · exact Or.inl rfl
    · exact Or.inr rfl
    · exact Or.inl rfl
    · exact Or.inl rfl
    · exact Or.inl rfl
  · exact Or.inl rfl
  · exact Or.inl rfl

theorem startArchiveTimerW_fst_cases (cs : Option ExtensionSettings) (i : Int)
    (tp : Option Tab) (w : World) (st : BgState) :
    (startArchiveTimerW cs i tp w st).1 = w ∨
    (startArchiveTimerW cs i tp w st).1 = removeTabW w i :=
  armWorld_cases w i (startArchiveTimer cs i tp (armEnvW w i tp) st).1

/-- One scan step either leaves the chrome world unchanged or removes
exactly the processed tab. -/
theorem scanTabStep_world_cases (settings : ExtensionSettings) (f : Option Int)
    (acc : World × BgState) (t : Tab) :
    (scanTabStep settings f acc t).1 = acc.1 ∨
    (scanTabStep settings f acc t).1 = removeTabW acc.1 t.id := by
  unfold scanTabStep
  by_cases hc : t.active = true ∧ f = some t.windowId
  · rw [if_pos hc]
    exact Or.inl rfl
  · rw [if_neg hc]
    exact startArchiveTimerW_fst_cases _ _ _ _ _

theorem scanTabStep_shape (settings : ExtensionSettings) (f : Option Int)
    (acc : World × BgState) (t : Tab) :
    windowsShape (scanTabStep settings f acc t).1 = windowsShape acc.1 ∧
    (scanTabStep settings f acc t).1.now = acc.1.now := by
  rcases scanTabStep_world_cases settings f acc t with h | h <;> rw [h]
  · exact ⟨rfl, rfl⟩
  · exact ⟨windowsShape_removeTabW _ _, now_removeTabW _ _⟩

/-- One scan step only shrinks the world's pair set. -/
theorem scanTabStep_wtabs_sublist (settings : ExtensionSettings) (f : Option Int)
    (acc : World × BgState) (t : Tab) :
    List.Sublist (wtabs (scanTabStep settings f acc t).1) (wtabs acc.1) := by
  rcases scanTabStep_world_cases settings f acc t with h | h
  · rw [h]
  · rw [h]
    exact wtabs_removeTabW_sublist _ _

/-- One scan step touches the ledger only at the processed tab's id. -/
theorem scanTabStep_ledger_other (settings : ExtensionSettings) (f : Option Int)
    (acc : World × BgState) (t : Tab) (j : Int) (hne : j ≠ t.id) :
    (scanTabStep settings f acc t).2.tabLastActiveTimes j =
      acc.2.tabLastActiveTimes j := by
  unfold scanTabStep
  by_cases hc : t.active = true ∧ f = some t.windowId
  · rw [if_pos hc]
    simp only [cancelArchiveTimer_ledger]
    exact updateTabLastActiveTime_ledger_other _ _ _ _ hne
  · rw [if_neg hc]
    by_cases hsome : (acc.2.tabLastActiveTimes t.id).isSome
    · simp only [hsome, if_true, startArchiveTimerW_snd]
      exact startArchiveTimer_ledger_other _ _ _ _ _ _ hne
    · simp only [hsome, if_false, startArchiveTimerW_snd]
      rw [startArchiveTimer_ledger_other _ _ _ _ _ _ hne]
      simp [ledgerSet, hne]

/-- One scan step never creates an alarm. -/
theorem scanTabStep_alarms_sublist (settings : ExtensionSettings) (f : Option Int)
    (acc : World × BgState) (t : Tab) :
    List.Sublist (scanTabStep settings f acc t).2.alarms acc.2.alarms := by
  unfold scanTabStep
  by_cases hc : t.active = true ∧ f = some t.windowId
  · rw [if_pos hc]
    unfold cancelArchiveTimer
    split
    · rw [updateTabLastActiveTime_alarms]
    · simp only [updateTabLastActiveTime_alarms]
      exact alarmsClear_sublist _ _
  · rw [if_neg hc]
    by_cases hsome : (acc.2.tabLastActiveTimes t.id).isSome
    · simp only [hsome, if_true, startArchiveTimerW_snd]
      exact startArchiveTimer_alarms_sublist _ _ _ _ _ (armEnvW_clock _ _ _)
    · simp only [hsome, if_false, startArchiveTimerW_snd]
      exact startArchiveTimer_alarms_sublist _ _ _ _ _ (armEnvW_clock _ _ _)

theorem survivorOK_active {settings : ExtensionSettings} {w : World} {st : BgState}
    {winId : Int} {p : TabProps} (h : survivorOK settings w st winId p)
    (hc : p.active = true ∧ focusedWindowIdOf w = some winId) :
    p.id ≠ TAB_ID_NONE →
      st.tabLastActiveTimes p.id = some w.now ∧
      alarmCount st.alarms (getAlarmName p.id) = 0 := by
  unfold survivorOK at h
  rwa [if_pos hc] at h

theorem survivorOK_inactive {settings : ExtensionSettings} {w : World} {st : BgState}
    {winId : Int} {p : TabProps} (h : survivorOK settings w st winId p)
    (hc : ¬(p.active = true ∧ focusedWindowIdOf w = some winId)) :
    (st.tabLastActiveTimes p.id).isSome = true ∧
    (settings.autoArchiveEnabled = true → p.id ≠ TAB_ID_NONE →
      alarmCount st.alarms (getAlarmName p.id) = 0 ∧
      (isTabEffectivelyActiveW w (mkTab winId 0 p) = false →
        isTabArchivable (mkTab winId 0 p) (st.tabLastActiveTimes p.id) settings
          false w.now = false)) := by
  unfold survivorOK at h
  rwa [if_neg hc] at h

/-- A world-wired `startArchiveTimer` call is an identity whenever the alarm
is already absent and the tab is not currently archivable. -/
theorem startArchiveTimerW_identity (settings : ExtensionSettings) (w : World)
    (st : BgState) (t : Tab)
    (himp : settings.autoArchiveEnabled = true → t.id ≠ TAB_ID_NONE →
      alarmCount st.alarms (getAlarmName t.id) = 0 ∧
      (isTabEffectivelyActiveW w t = false →
        isTabArchivable t (st.tabLastActiveTimes t.id) settings false w.now =
          false)) :
    startArchiveTimerW (some settings) t.id (some t) w st = (w, st) := by
  have htab : (some t).orElse (fun _ => (armEnvW w t.id (some t)).tabGet) =
      some t := rfl
  have heffeq : (armEnvW w t.id (some t)).effActive = isTabEffectivelyActiveW w t :=
    rfl
  have hnowE : (armEnvW w t.id (some t)).nowElig = w.now := rfl
  by_cases hg : ¬settings.autoArchiveEnabled ∨ t.id = TAB_ID_NONE
  · have hr : startArchiveTimer (some settings) t.id (some t)
        (armEnvW w t.id (some t)) st = (.earlyReturn, st) := by
      rcases hg with hg | hg <;> simp [startArchiveTimer, hg]
    unfold startArchiveTimerW
    rw [hr]
  · have hid : t.id ≠ TAB_ID_NONE := fun hc => hg (Or.inr hc)
    have hen : settings.autoArchiveEnabled = true := by
      by_contra hc
      exact hg (Or.inl (by simpa using hc))
    obtain ⟨habs, harchimp⟩ := himp hen hid
    have hclear :
        ({ st with alarms := alarmsClear st.alarms (getAlarmName t.id) } : BgState) =
          st :=
      bgstate_eta_alarms st (alarmsClear_eq_self habs)
    by_cases heff : isTabEffectivelyActiveW w t = true
    · have heffenv : (armEnvW w t.id (some t)).effActive = true := by
        rw [heffeq, heff]
      have hr : startArchiveTimer (some settings) t.id (some t)
          (armEnvW w t.id (some t)) st =
          (.cancelledActive, cancelArchiveTimer
            { st with alarms := alarmsClear st.alarms (getAlarmName t.id) } t.id) := by
        simp [startArchiveTimer, hen, hid, htab, heffenv]
      unfold startArchiveTimerW
      rw [hr]
      simp only
      rw [hclear, cancelArchiveTimer_eq_self (fun _ => habs)]
    · have heff' : isTabEffectivelyActiveW w t = false := by simpa using heff
      have heffenv : (armEnvW w t.id (some t)).effActive = false := by
        rw [heffeq, heff']
      have harch : isTabArchivable t (st.tabLastActiveTimes t.id) settings false
          (armEnvW w t.id (some t)).nowElig = false := by
        rw [hnowE]
        exact harchimp heff'
      have hr : startArchiveTimer (some settings) t.id (some t)
          (armEnvW w t.id (some t)) st =
          (.notArchivable,
            { st with alarms := alarmsClear st.alarms (getAlarmName t.id) }) := by
        simp [startArchiveTimer, hen, hid, htab, heffenv, harch]
      unfold startArchiveTimerW
      rw [hr]
      simp only
      rw [hclear]

/-- A scan step on a survivor pair is an identity. -/
theorem scanTabStep_identity (settings : ExtensionSettings) (w : World)
    (st : BgState) (t : Tab)
    (hsurv : survivorOK settings w st t.windowId (tabProps t)) :
    scanTabStep settings (focusedWindowIdOf w) (w, st) t = (w, st) := by
  unfold scanTabStep
  by_cases hc : t.active = true ∧ focusedWindowIdOf w = some t.windowId
  · rw [if_pos hc]
    have hA := survivorOK_active hsurv hc
    have h2 : cancelArchiveTimer (updateTabLastActiveTime st t.id w.now) t.id = st := by
      by_cases hid : t.id = TAB_ID_NONE
      · unfold updateTabLastActiveTime cancelArchiveTimer
        rw [if_pos hid, if_pos hid]
      · obtain ⟨hl, ha⟩ := hA hid
        have hl' : st.tabLastActiveTimes t.id = some w.now := hl
        have ha' : alarmCount st.alarms (getAlarmName t.id) = 0 := ha
        rw [updateTabLastActiveTime_eq_self (fun _ => hl')]
        exact cancelArchiveTimer_eq_self (fun _ => ha')
    rw [h2]
  · rw [if_neg hc]
    obtain ⟨hisSome, himp⟩ := survivorOK_inactive hsurv hc
    have hisSome' : (st.tabLastActiveTimes t.id).isSome = true := hisSome
    simp only [hisSome', if_true]
    exact startArchiveTimerW_identity settings w st t himp

/-- The scan's inactive branch either archives the tab out of the world or
leaves it satisfying the survivor conditions. -/
theorem startArchiveTimerW_establish (settings : ExtensionSettings)
    (wOrig w : World) (st1 : BgState) (t : Tab)
    (hshape : windowsShape w = windowsShape wOrig)
    (hnow : w.now = wOrig.now)
    (hmem : (t.windowId, tabProps t) ∈ wtabs w)
    (hnodup : (allTabIds w).Nodup)
    (hsome : (st1.tabLastActiveTimes t.id).isSome = true)
    (hc : ¬((tabProps t).active = true ∧ focusedWindowIdOf wOrig = some t.windowId)) :
    (t.windowId, tabProps t) ∉
        wtabs (startArchiveTimerW (some settings) t.id (some t) w st1).1 ∨
      survivorOK settings wOrig
        (startArchiveTimerW (some settings) t.id (some t) w st1).2
        t.windowId (tabProps t) := by
  have htab : (some t).orElse (fun _ => (armEnvW w t.id (some t)).tabGet) =
      some t := rfl
  have heffeq : (armEnvW w t.id (some t)).effActive = isTabEffectivelyActiveW w t :=
    rfl
  by_cases hg : ¬settings.autoArchiveEnabled ∨ t.id = TAB_ID_NONE
  · right
    have hr : startArchiveTimer (some settings) t.id (some t)
        (armEnvW w t.id (some t)) st1 = (.earlyReturn, st1) := by
      rcases hg with hg | hg <;> simp [startArchiveTimer, hg]
    have hsnd : (startArchiveTimerW (some settings) t.id (some t) w st1).2 = st1 := by
      unfold startArchiveTimerW
      rw [hr]
    rw [hsnd]
    unfold survivorOK
    rw [if_neg hc]
    refine ⟨hsome, ?_⟩
    intro hen hid
    rcases hg with hg | hg
    · exact absurd hen (by simpa using hg)
    · exact absurd hg hid
  · have hid : t.id ≠ TAB_ID_NONE := fun hcon => hg (Or.inr hcon)
    have hen : settings.autoArchiveEnabled = true := by
      by_contra hcon
      exact hg (Or.inl (by simpa using hcon))
    by_cases heff : isTabEffectivelyActiveW w t = true
    · right
      have heffenv : (armEnvW w t.id (some t)).effActive = true := by
        rw [heffeq, heff]
      have hr : startArchiveTimer (some settings) t.id (some t)
          (armEnvW w t.id (some t)) st1 =
          (.cancelledActive, cancelArchiveTimer
            { st1 with alarms := alarmsClear st1.alarms (getAlarmName t.id) }
              t.id) := by
        simp [startArchiveTimer, hen, hid, htab, heffenv]
      have hsnd : (startArchiveTimerW (some settings) t.id (some t) w st1).2 =
          cancelArchiveTimer
            { st1 with alarms := alarmsClear st1.alarms (getAlarmName t.id) }
              t.id := by
        unfold startArchiveTimerW
        rw [hr]
      rw [hsnd]
      unfold survivorOK
      rw [if_neg hc]
      constructor
      · rw [cancelArchiveTimer_ledger]
        exact hsome
      · intro hen' hid'
        constructor
        · show alarmCount (cancelArchiveTimer _ t.id).alarms (getAlarmName t.id) = 0
          unfold cancelArchiveTimer
          rw [if_neg hid]
          simp only
          exact alarmCount_zero_of_sublist (alarmsClear_sublist _ _)
            (alarmCount_clear_self _ _)
        · intro hfa
          exfalso
          have hfa' : isTabEffectivelyActiveW wOrig t = false := hfa
          have heq := isTabEffectivelyActiveW_shape_eq hshape t
          rw [heq, hfa'] at heff
          exact Bool.false_ne_true heff
    · have heff' : isTabEffectivelyActiveW w t = false := by simpa using heff
      have heffenv : (armEnvW w t.id (some t)).effActive = false := by
        rw [heffeq, heff']
      by_cases hb : isTabArchivable t (st1.tabLastActiveTimes t.id) settings false
          w.now = true
      · left
        have harchenv : isTabArchivable t (st1.tabLastActiveTimes t.id) settings
            false (armEnvW w t.id (some t)).nowElig = true := hb
        have hd : computeDelayInMinutes settings (st1.tabLastActiveTimes t.id)
            (armEnvW w t.id (some t)).nowDelay < (0.016 : ℚ) := by
          have h0 : computeDelayInMinutes settings (st1.tabLastActiveTimes t.id)
              ((armEnvW w t.id (some t)).nowDelay) = 0 :=
            computeDelayInMinutes_zero_of_archivable hb (le_refl w.now)
          rw [h0]
          norm_num
        have hr : startArchiveTimer (some settings) t.id (some t)
            (armEnvW w t.id (some t)) st1 =
            (.archivedNow (archiveTab (some settings) t.id (some t)
                (armEnvW w t.id (some t)).archiveEnv
                { st1 with alarms := alarmsClear st1.alarms (getAlarmName t.id) }).1,
              (archiveTab (some settings) t.id (some t)
                (armEnvW w t.id (some t)).archiveEnv
                { st1 with alarms :=
                    alarmsClear st1.alarms (getAlarmName t.id) }).2) := by
          simp [startArchiveTimer, hen, hid, htab, heffenv, harchenv, hd]
        have htab2 : (some t).orElse
            (fun _ => ((armEnvW w t.id (some t)).archiveEnv).tabGet) = some t := rfl
        have heligA : isTabArchivable t
            (({ st1 with alarms := alarmsClear st1.alarms (getAlarmName t.id) }
              : BgState).tabLastActiveTimes t.id) settings
            ((armEnvW w t.id (some t)).archiveEnv).effActive
            ((armEnvW w t.id (some t)).archiveEnv).now = true := by
          have heA : ((armEnvW w t.id (some t)).archiveEnv).effActive =
              isTabEffectivelyActiveW w t := rfl
          have hnA : ((armEnvW w t.id (some t)).archiveEnv).now = w.now := rfl
          rw [heA, heff', hnA]
          exact hb
        have h1 := archiveTab_fst_eligible settings t.id (some t)
          ((armEnvW w t.id (some t)).archiveEnv)
          { st1 with alarms := alarmsClear st1.alarms (getAlarmName t.id) }
          t hid htab2 heligA
        have hex : tabExistsW w t.id = true :=
          (tabExistsW_iff w t.id).mpr ⟨(t.windowId, tabProps t), hmem, rfl⟩
        have hres0 : ((armEnvW w t.id (some t)).archiveEnv).removeRes 0 =
            RemoveResult.ok := by
          show (if tabExistsW w t.id then RemoveResult.ok else RemoveResult.errOther)
            = RemoveResult.ok
          simp [hex]
        have hloop : tabsRemoveLoop
            ((armEnvW w t.id (some t)).archiveEnv).removeRes 0 MAX_RETRIES =
            RemoveLoopResult.success 0 := by
          show tabsRemoveLoop _ 0 (4 + 1) = _
          exact tabsRemoveLoop_ok _ 0 4 hres0
        have hout : (archiveTab (some settings) t.id (some t)
            (armEnvW w t.id (some t)).archiveEnv
            { st1 with alarms := alarmsClear st1.alarms (getAlarmName t.id) }).1 =
            ArchiveOutcome.removed 0 := by
          rw [h1, hloop]
        have hfst : (startArchiveTimerW (some settings) t.id (some t) w st1).1 =
            removeTabW w t.id := by
          unfold startArchiveTimerW
          rw [hr]
          simp [hout]
        rw [hfst]
        exact pair_not_mem_removeTabW hnodup hmem
      · right
        have hbf : isTabArchivable t (st1.tabLastActiveTimes t.id) settings false
            w.now = false := by simpa using hb
        have harchenv : isTabArchivable t (st1.tabLastActiveTimes t.id) settings
            false (armEnvW w t.id (some t)).nowElig = false := hbf
        have hr : startArchiveTimer (some settings) t.id (some t)
            (armEnvW w t.id (some t)) st1 =
            (.notArchivable,
              { st1 with alarms := alarmsClear st1.alarms (getAlarmName t.id) }) := by
          simp [startArchiveTimer, hen, hid, htab, heffenv, harchenv]
        have hsnd : (startArchiveTimerW (some settings) t.id (some t) w st1).2 =
            { st1 with alarms := alarmsClear st1.alarms (getAlarmName t.id) } := by
          unfold startArchiveTimerW
          rw [hr]
        rw [hsnd]
        unfold survivorOK
        rw [if_neg hc]
        refine ⟨hsome, ?_⟩
        intro hen' hid'
        refine ⟨alarmCount_clear_self _ _, ?_⟩
        intro _
        have hgoal : isTabArchivable t (st1.tabLastActiveTimes t.id) settings false
            wOrig.now = false := by
          rw [← hnow]
          exact hbf
        exact hgoal

/-- One first-scan step on a snapshot tab still present in the world either
archives it away or establishes the survivor conditions for its pair. -/
theorem scanTabStep_establish (settings : ExtensionSettings) (wOrig : World)
    (acc : World × BgState) (t : Tab)
    (hshape : windowsShape acc.1 = windowsShape wOrig)
    (hnow : acc.1.now = wOrig.now)
    (hmem : (t.windowId, tabProps t) ∈ wtabs acc.1)
    (hnodup : (allTabIds acc.1).Nodup) :
    (t.windowId, tabProps t) ∉
        wtabs (scanTabStep settings (focusedWindowIdOf wOrig) acc t).1 ∨
      survivorOK settings wOrig
        (scanTabStep settings (focusedWindowIdOf wOrig) acc t).2
        t.windowId (tabProps t) := by
  unfold scanTabStep
  by_cases hc : t.active = true ∧ focusedWindowIdOf wOrig = some t.windowId
  · rw [if_pos hc]
    right
    unfold survivorOK
    rw [if_pos (show (tabProps t).active = true ∧
      focusedWindowIdOf wOrig = some t.windowId from hc)]
    intro hid
    have hid' : t.id ≠ TAB_ID_NONE := hid
    constructor
    · show (cancelArchiveTimer (updateTabLastActiveTime acc.2 t.id acc.1.now)
          t.id).tabLastActiveTimes t.id = some wOrig.now
      rw [cancelArchiveTimer_ledger]
      unfold updateTabLastActiveTime
      rw [if_neg hid']
      simp [ledgerSet, hnow]
    · show alarmCount (cancelArchiveTimer (updateTabLastActiveTime acc.2 t.id
          acc.1.now) t.id).alarms (getAlarmName t.id) = 0
      unfold cancelArchiveTimer
      rw [if_neg hid']
      exact alarmCount_clear_self _ _
  · rw [if_neg hc]
    by_cases hsome : (acc.2.tabLastActiveTimes t.id).isSome = true
    · rw [if_pos hsome]
      exact startArchiveTimerW_establish settings wOrig acc.1 acc.2 t hshape hnow
        hmem hnodup hsome hc
    · rw [if_neg hsome]
      refine startArchiveTimerW_establish settings wOrig acc.1 _ t hshape hnow
        hmem hnodup ?_ hc
      simp [ledgerSet]

/-- The first scan's per-tab loop: after processing a duplicate-free snapshot
whose tabs are all present, every surviving pair satisfies the survivor
conditions, the world only shrank, and shape, clock and id-distinctness are
preserved. -/
theorem scanFold_invariant (settings : ExtensionSettings) (wOrig : World) :
    ∀ (ts : List Tab) (acc : World × BgState),
      (ts.map (fun t => t.id)).Nodup →
      windowsShape acc.1 = windowsShape wOrig →
      acc.1.now = wOrig.now →
      (allTabIds acc.1).Nodup →
      (∀ t ∈ ts, (t.windowId, tabProps t) ∈ wtabs acc.1) →
      (∀ q ∈ wtabs acc.1, (∀ t ∈ ts, t.id ≠ q.2.id) →
        survivorOK settings wOrig acc.2 q.1 q.2) →
      windowsShape
          (ts.foldl (scanTabStep settings (focusedWindowIdOf wOrig)) acc).1 =
        windowsShape wOrig ∧
      (ts.foldl (scanTabStep settings (focusedWindowIdOf wOrig)) acc).1.now =
        wOrig.now ∧
      (allTabIds
        (ts.foldl (scanTabStep settings (focusedWindowIdOf wOrig)) acc).1).Nodup ∧
      List.Sublist
        (wtabs (ts.foldl (scanTabStep settings (focusedWindowIdOf wOrig)) acc).1)
        (wtabs acc.1) ∧
      (∀ q ∈ wtabs (ts.foldl (scanTabStep settings (focusedWindowIdOf wOrig)) acc).1,
        survivorOK settings wOrig
          (ts.foldl (scanTabStep settings (focusedWindowIdOf wOrig)) acc).2
          q.1 q.2) := by
  intro ts
  induction ts with
  | nil =>
      intro acc hts hshape hnow hnodup hrem hproc
      refine ⟨hshape, hnow, hnodup, List.Sublist.refl _, ?_⟩
      intro q hq
      exact hproc q hq (fun t ht => absurd ht (List.not_mem_nil t))
  | cons t rest ih =>
      intro acc hts hshape hnow hnodup hrem hproc
      simp only [List.map_cons, List.nodup_cons] at hts
      obtain ⟨htid, hts'⟩ := hts
      simp only [List.foldl_cons]
      have hstep_shape := scanTabStep_shape settings (focusedWindowIdOf wOrig) acc t
      have hstep_sub := scanTabStep_wtabs_sublist settings (focusedWindowIdOf wOrig)
        acc t
      have hpairmem : (t.windowId, tabProps t) ∈ wtabs acc.1 :=
        hrem t (List.mem_cons_self t rest)
      have hshape' : windowsShape
          (scanTabStep settings (focusedWindowIdOf wOrig) acc t).1 =
          windowsShape wOrig := hstep_shape.1.trans hshape
      have hnow' : (scanTabStep settings (focusedWindowIdOf wOrig) acc t).1.now =
          wOrig.now := hstep_shape.2.trans hnow
      have hnodup' : (allTabIds
          (scanTabStep settings (focusedWindowIdOf wOrig) acc t).1).Nodup :=
        List.Nodup.sublist (List.Sublist.map _ hstep_sub) hnodup
      have hrem' : ∀ t' ∈ rest, (t'.windowId, tabProps t') ∈
          wtabs (scanTabStep settings (focusedWindowIdOf wOrig) acc t).1 := by
        intro t' ht'
        have hin := hrem t' (List.mem_cons_of_mem t ht')
        have hne : (tabProps t').id ≠ t.id := by
          intro hcon
          exact htid (by
            rw [← hcon]
            exact List.mem_map_of_mem (fun x => x.id) ht')
        rcases scanTabStep_world_cases settings (focusedWindowIdOf wOrig) acc t with
          h | h
        · rw [h]; exact hin
        · rw [h]
          exact mem_wtabs_removeTabW_of_ne hin hne
      have hproc' : ∀ q ∈ wtabs
          (scanTabStep settings (focusedWindowIdOf wOrig) acc t).1,
          (∀ t' ∈ rest, t'.id ≠ q.2.id) →
          survivorOK settings wOrig
            (scanTabStep settings (focusedWindowIdOf wOrig) acc t).2 q.1 q.2 := by
        intro q hq hqrest
        have hqacc : q ∈ wtabs acc.1 := hstep_sub.mem hq
        by_cases hqid : q.2.id = t.id
        · have hqeq : q = (t.windowId, tabProps t) :=
            wtabs_unique_id hnodup hqacc hpairmem hqid
          rcases scanTabStep_establish settings wOrig acc t hshape hnow hpairmem
            hnodup with h | h
          · exact absurd (hqeq ▸ hq) h
          · rw [hqeq]
            exact h
        · have hqall : ∀ t' ∈ t :: rest, t'.id ≠ q.2.id := by
            intro t' ht'
            rcases List.mem_cons.mp ht' with h | h
            · rw [h]
              exact fun hcon => hqid hcon.symm
            · exact hqrest t' h
          have hbase := hproc q hqacc hqall
          exact survivorOK_mono settings wOrig
            (scanTabStep_ledger_other settings (focusedWindowIdOf wOrig) acc t
              q.2.id (fun hcon => hqid hcon))
            (scanTabStep_alarms_sublist settings (focusedWindowIdOf wOrig) acc t)
            hbase
      obtain ⟨c1, c2, c3, c4, c5⟩ := ih
        (scanTabStep settings (focusedWindowIdOf wOrig) acc t) hts' hshape' hnow'
        hnodup' hrem' hproc'
      exact ⟨c1, c2, c3, c4.trans hstep_sub, c5⟩

theorem find_win_of_mem_nodup :
    ∀ (ws : List Window) (win : Window), win ∈ ws →
      (ws.map (fun x => x.id)).Nodup →
      ws.find? (fun x => x.id = win.id) = some win := by
  intro ws
  induction ws with
  | nil => intro win h _; simp at h
  | cons a as ih =>
      intro win hmem hnodup
      simp only [List.map_cons, List.nodup_cons] at hnodup
      rcases List.mem_cons.mp hmem with h | h
      · subst h
        rw [List.find?_cons_of_pos _ (by simp)]
      · by_cases ha : a.id = win.id
        · exact absurd (ha ▸ List.mem_map_of_mem (fun x => x.id) h) hnodup.1
        · rw [List.find?_cons_of_neg _ (by simpa using ha)]
          exact ih win h hnodup.2

theorem findWindow_of_mem_nodup {w : World} {win : Window} (hmem : win ∈ w.windows)
    (hnodup : (w.windows.map (fun x => x.id)).Nodup) :
    findWindow w win.id = some win :=
  find_win_of_mem_nodup w.windows win hmem hnodup

theorem findWindow_mem {w : World} {wid : Int} {win : Window}
    (h : findWindow w wid = some win) : win ∈ w.windows :=
  List.mem_of_find?_eq_some h

theorem findWindow_id {w : World} {wid : Int} {win : Window}
    (h : findWindow w wid = some win) : win.id = wid := by
  have := List.find?_some h
  simpa using this

/-- The window id list is part of the shape. -/
theorem winIds_of_shape {w w' : World} (h : windowsShape w = windowsShape w') :
    w.windows.map (fun x => x.id) = w'.windows.map (fun x => x.id) := by
  have h1 : (windowsShape w).map Prod.fst = (windowsShape w').map Prod.fst := by
    rw [h]
  unfold windowsShape at h1
  simpa [List.map_map, Function.comp] using h1

theorem flatten_perm_of_pointwise {α β : Type} (ws : List β) (f g : β → List α)
    (h : ∀ x ∈ ws, List.Perm (f x) (g x)) :
    List.Perm ((ws.map f).flatten) ((ws.map g).flatten) := by
  induction ws with
  | nil => exact List.Perm.refl _
  | cons a as ih =>
      simp only [List.map_cons, List.flatten_cons]
      exact List.Perm.append (h a (List.mem_cons_self a as))
        (ih (fun x hx => h x (List.mem_cons_of_mem a hx)))

theorem wtabs_updateWindowTabs_subset {w : World} {wid : Int} {ts : List TabProps}
    {win : Window} (hfind : findWindow w wid = some win)
    (hts : ∀ p ∈ ts, p ∈ win.tabs)
    (hnodupW : (w.windows.map (fun x => x.id)).Nodup) :
    ∀ q ∈ wtabs (updateWindowTabs w wid ts), q ∈ wtabs w := by
  intro q hq
  obtain ⟨winId, p⟩ := q
  rw [mem_wtabs_iff] at hq
  obtain ⟨win', hwin', hid', hp'⟩ := hq
  unfold updateWindowTabs at hwin'
  simp only [List.mem_map] at hwin'
  obtain ⟨win0, hwin0, heq⟩ := hwin'
  by_cases h0 : win0.id = wid
  · rw [if_pos h0] at heq
    have hwin0win : win0 = win := by
      have hwmem := findWindow_mem hfind
      have hwid := findWindow_id hfind
      exact List.inj_on_of_nodup_map hnodupW hwin0 hwmem (by rw [h0, hwid])
    subst heq
    simp only at hid' hp'
    rw [mem_wtabs_iff]
    exact ⟨win0, hwin0, hid', by rw [hwin0win]; exact hts p hp'⟩
  · rw [if_neg h0] at heq
    subst heq
    rw [mem_wtabs_iff]
    exact ⟨win0, hwin0, hid', hp'⟩

theorem allTabIds_updateWindowTabs_nodup {w : World} {wid : Int}
    {ts : List TabProps} {win : Window} (hfind : findWindow w wid = some win)
    (hperm : List.Perm ts win.tabs)
    (hnodupW : (w.windows.map (fun x => x.id)).Nodup)
    (hnodupT : (allTabIds w).Nodup) :
    (allTabIds (updateWindowTabs w wid ts)).Nodup := by
  have hperm2 : List.Perm (allTabIds (updateWindowTabs w wid ts)) (allTabIds w) := by
    rw [allTabIds_eq_flatten, allTabIds_eq_flatten]
    unfold updateWindowTabs
    simp only [List.map_map]
    apply flatten_perm_of_pointwise
    intro win0 hwin0
    simp only [Function.comp]
    by_cases h0 : win0.id = wid
    · rw [if_pos h0]
      have hwin0win : win0 = win := by
        have hwmem := findWindow_mem hfind
        have hwid := findWindow_id hfind
        exact List.inj_on_of_nodup_map hnodupW hwin0 hwmem (by rw [h0, hwid])
      simp only
      rw [hwin0win]
      exact hperm.map _
    · rw [if_neg h0]
  exact hperm2.symm.nodup hnodupT

theorem sortTabsInWindow_disabled (settings : ExtensionSettings) (w : World)
    (wid : Int) (hs : settings.tabSortingEnabled = false) :
    sortTabsInWindow (some settings) w wid = w := by
  show (if ¬settings.tabSortingEnabled then w
    else match findWindow w wid with
      | none => w
      | some win =>
          updateWindowTabs w wid
            (applyMoves win.tabs (sortTabsMoves (queryWindowTabs win)))) = w
  rw [if_pos (by simp [hs])]

theorem sortTabsInWindow_notFound (settings : ExtensionSettings) (w : World)
    (wid : Int) (hfind : findWindow w wid = none) :
    sortTabsInWindow (some settings) w wid = w := by
  show (if ¬settings.tabSortingEnabled then w
    else match findWindow w wid with
      | none => w
      | some win =>
          updateWindowTabs w wid
            (applyMoves win.tabs (sortTabsMoves (queryWindowTabs win)))) = w
  by_cases hs : ¬settings.tabSortingEnabled
  · rw [if_pos hs]
  · rw [if_neg hs, hfind]

theorem sortTabsInWindow_found (settings : ExtensionSettings) (w : World)
    (wid : Int) {win : Window} (hen : settings.tabSortingEnabled = true)
    (hfind : findWindow w wid = some win) :
    sortTabsInWindow (some settings) w wid =
      updateWindowTabs w wid
        (applyMoves win.tabs (sortTabsMoves (queryWindowTabs win))) := by
  show (if ¬settings.tabSortingEnabled then w
    else match findWindow w wid with
      | none => w
      | some win =>
          updateWindowTabs w wid
            (applyMoves win.tabs (sortTabsMoves (queryWindowTabs win)))) = _
  rw [if_neg (by simp [hen]), hfind]

/-- One iteration of the scan's reorder loop (lines 311–315). -/
def sortFoldStep (settings : ExtensionSettings) (wacc : World) (wid : Int) : World :=
  if wid ≠ 0 then sortTabsInWindow (some settings) wacc wid else wacc

/-- The first scan's reorder loop: shape, clock and ids are preserved, the
pair set is only permuted within windows, and afterwards every processed
window is at a reorder fixpoint. -/
theorem sortFold_post (settings : ExtensionSettings) :
    ∀ (l : List Int) (u : World),
      (u.windows.map (fun x => x.id)).Nodup →
      (allTabIds u).Nodup →
      windowsShape (l.foldl (sortFoldStep settings) u) = windowsShape u ∧
      (l.foldl (sortFoldStep settings) u).now = u.now ∧
      (∀ q ∈ wtabs (l.foldl (sortFoldStep settings) u), q ∈ wtabs u) ∧
      (allTabIds (l.foldl (sortFoldStep settings) u)).Nodup ∧
      (∀ win ∈ (l.foldl (sortFoldStep settings) u).windows, win.id ∉ l →
        win ∈ u.windows) ∧
      (∀ win ∈ (l.foldl (sortFoldStep settings) u).windows, win.id ≠ 0 →
        win.id ∈ l → settings.tabSortingEnabled = true →
        sortTabsMoves (etabs win.id 0 win.tabs) = []) := by
  intro l
  induction l with
  | nil =>
      intro u hW hT
      refine ⟨rfl, rfl, fun q hq => hq, hT, fun win hwin _ => hwin, ?_⟩
      intro win _ _ hmem _
      exact absurd hmem (List.not_mem_nil _)
  | cons wid rest ih =>
      intro u hW hT
      simp only [List.foldl_cons]
      by_cases hwid0 : wid ≠ 0
      · by_cases hen : settings.tabSortingEnabled = true
        · cases hfind : findWindow u wid with
          | none =>
              have hstep : sortFoldStep settings u wid = u := by
                unfold sortFoldStep
                rw [if_pos hwid0]
                exact sortTabsInWindow_notFound settings u wid hfind
              rw [hstep]
              obtain ⟨c1, c2, c3, c4, c5, c6⟩ := ih u hW hT
              refine ⟨c1, c2, c3, c4, ?_, ?_⟩
              · intro win hwin hnotin
                exact c5 win hwin (fun hc => hnotin (List.mem_cons_of_mem _ hc))
              · intro win hwin hid0 hidin hen'
                by_cases hrest : win.id ∈ rest
                · exact c6 win hwin hid0 hrest hen'
                · exfalso
                  have hidwid : win.id = wid := by
                    rcases List.mem_cons.mp hidin with h | h
                    · exact h
                    · exact absurd h hrest
                  have hwinu : win ∈ u.windows := c5 win hwin hrest
                  unfold findWindow at hfind
                  rw [List.find?_eq_none] at hfind
                  exact hfind win hwinu (by simpa using hidwid)
          | some win0 =>
              have hwin0mem : win0 ∈ u.windows := findWindow_mem hfind
              have hwin0id : win0.id = wid := findWindow_id hfind
              have hperm : List.Perm
                  (applyMoves win0.tabs (sortTabsMoves (queryWindowTabs win0)))
                  win0.tabs :=
                applyMoves_perm _ win0.tabs (window_tab_ids_nodup hT hwin0mem)
              have hstep : sortFoldStep settings u wid =
                  updateWindowTabs u wid
                    (applyMoves win0.tabs (sortTabsMoves (queryWindowTabs win0))) := by
                unfold sortFoldStep
                rw [if_pos hwid0]
                exact sortTabsInWindow_found settings u wid hen hfind
              rw [hstep]
              have hshapeU : windowsShape (updateWindowTabs u wid
                  (applyMoves win0.tabs (sortTabsMoves (queryWindowTabs win0)))) =
                  windowsShape u := windowsShape_updateWindowTabs _ _ _
              have hW' : ((updateWindowTabs u wid
                  (applyMoves win0.tabs
                    (sortTabsMoves (queryWindowTabs win0)))).windows.map
                  (fun x => x.id)).Nodup := by
                rw [winIds_of_shape hshapeU]
                exact hW
              have hT' := allTabIds_updateWindowTabs_nodup hfind hperm hW hT
              obtain ⟨c1, c2, c3, c4, c5, c6⟩ := ih _ hW' hT'
              refine ⟨c1.trans hshapeU, c2.trans (now_updateWindowTabs _ _ _),
                ?_, c4, ?_, ?_⟩
              · intro q hq
                exact wtabs_updateWindowTabs_subset hfind
                  (fun p hp => hperm.mem_iff.mp hp) hW q (c3 q hq)
              · intro win hwin hnotin
                simp only [List.mem_cons, not_or] at hnotin
                obtain ⟨hne, hnotrest⟩ := hnotin
                have hwinu' := c5 win hwin hnotrest
                unfold updateWindowTabs at hwinu'
                simp only [List.mem_map] at hwinu'
                obtain ⟨win1, hwin1, heq⟩ := hwinu'
                by_cases h1 : win1.id = wid
                · exfalso
                  apply hne
                  rw [← heq, if_pos h1]
                  exact h1
                · rw [← heq, if_neg h1]
                  exact hwin1
              · intro win hwin hid0 hidin hen'
                by_cases hrest : win.id ∈ rest
                · exact c6 win hwin hid0 hrest hen'
                · have hidwid : win.id = wid := by
                    rcases List.mem_cons.mp hidin with h | h
                    · exact h
                    · exact absurd h hrest
                  have hwinu' := c5 win hwin hrest
                  unfold updateWindowTabs at hwinu'
                  simp only [List.mem_map] at hwinu'
                  obtain ⟨win1, hwin1, heq⟩ := hwinu'
                  by_cases h1 : win1.id = wid
                  · have hwin1win0 : win1 = win0 :=
                      List.inj_on_of_nodup_map hW hwin1 hwin0mem
                        (by rw [h1, hwin0id])
                    have hwineq : win =
                        { win0 with
                            tabs := applyMoves win0.tabs
                              (sortTabsMoves (queryWindowTabs win0)) } := by
                      rw [← heq, if_pos h1, hwin1win0]
                    rw [hwineq]
                    show sortTabsMoves (etabs win0.id 0
                      (applyMoves win0.tabs (sortTabsMoves (queryWindowTabs win0))))
                      = []
                    rw [queryWindowTabs_eq_etabs]
                    exact sortTabsMoves_after_pass_nil win0.id win0.tabs
                      (window_tab_ids_nodup hT hwin0mem)
                  · exfalso
                    apply h1
                    rw [← hidwid, ← heq, if_neg h1]
        · have hstep : sortFoldStep settings u wid = u := by
            unfold sortFoldStep
            rw [if_pos hwid0]
            exact sortTabsInWindow_disabled settings u wid (by simpa using hen)
          rw [hstep]
          obtain ⟨c1, c2, c3, c4, c5, c6⟩ := ih u hW hT
          refine ⟨c1, c2, c3, c4, ?_, ?_⟩
          · intro win hwin hnotin
            exact c5 win hwin (fun hc => hnotin (List.mem_cons_of_mem _ hc))
          · intro win hwin hid0 hidin hen'
            exact absurd hen' hen
      · have hstep : sortFoldStep settings u wid = u := by
          unfold sortFoldStep
          rw [if_neg hwid0]
        rw [hstep]
        obtain ⟨c1, c2, c3, c4, c5, c6⟩ := ih u hW hT
        refine ⟨c1, c2, c3, c4, ?_, ?_⟩
        · intro win hwin hnotin
          exact c5 win hwin (fun hc => hnotin (List.mem_cons_of_mem _ hc))
        · intro win hwin hid0 hidin hen'
          by_cases hrest : win.id ∈ rest
          · exact c6 win hwin hid0 hrest hen'
          · exfalso
            have hidwid : win.id = wid := by
              rcases List.mem_cons.mp hidin with h | h
              · exact h
              · exact absurd h hrest
            simp only [ne_eq, not_not] at hwid0
            exact hid0 (hidwid.trans hwid0)

theorem foldl_fixed {α β : Type} (f : β → α → β) (b : β) :
    ∀ (l : List α), (∀ a ∈ l, f b a = b) → l.foldl f b = b := by
  intro l
  induction l with
  | nil => intro _; rfl
  | cons x xs ih =>
      intro h
      rw [List.foldl_cons, h x (List.mem_cons_self x xs)]
      exact ih (fun a ha => h a (List.mem_cons_of_mem x ha))

/-- `initialTabScan` on loaded settings is the tab fold followed by the
reorder fold. -/
theorem initialTabScan_some_eq (settings : ExtensionSettings) (w : World)
    (st : BgState) :
    initialTabScan (some settings) w st =
      ((w.windows.map (fun win => win.id)).foldl (sortFoldStep settings)
          ((queryAllTabs w).foldl
            (scanTabStep settings (focusedWindowIdOf w)) (w, st)).1,
       ((queryAllTabs w).foldl
          (scanTabStep settings (focusedWindowIdOf w)) (w, st)).2) := rfl

/-- A scan over a world whose pairs all satisfy the survivor conditions and
whose windows are all at the reorder fixpoint changes nothing. -/
theorem initialTabScan_fixed (settings : ExtensionSettings) (w2 : World)
    (st2 : BgState)
    (hWids : (w2.windows.map (fun x => x.id)).Nodup)
    (hsurv : ∀ q ∈ wtabs w2, survivorOK settings w2 st2 q.1 q.2)
    (hsorted : settings.tabSortingEnabled = true → ∀ win ∈ w2.windows,
      win.id ≠ 0 → sortTabsMoves (etabs win.id 0 win.tabs) = []) :
    initialTabScan (some settings) w2 st2 = (w2, st2) := by
  rw [initialTabScan_some_eq]
  have hfold1 : (queryAllTabs w2).foldl
      (scanTabStep settings (focusedWindowIdOf w2)) (w2, st2) = (w2, st2) := by
    apply foldl_fixed
    intro t ht
    exact scanTabStep_identity settings w2 st2 t
      (hsurv (t.windowId, tabProps t) (mem_wtabs_of_mem_query ht))
  rw [hfold1]
  have hfold2 : (w2.windows.map (fun win => win.id)).foldl
      (sortFoldStep settings) w2 = w2 := by
    apply foldl_fixed
    intro wid hwid
    unfold sortFoldStep
    by_cases h0 : wid ≠ 0
    · rw [if_pos h0]
      by_cases hen : settings.tabSortingEnabled = true
      · obtain ⟨win, hwinmem, hwideq⟩ := List.mem_map.mp hwid
        have hfind : findWindow w2 wid = some win := by
          rw [← hwideq]
          exact findWindow_of_mem_nodup hwinmem hWids
        rw [sortTabsInWindow_found settings w2 wid hen hfind]
        have hmoves : sortTabsMoves (queryWindowTabs win) = [] := by
          rw [queryWindowTabs_eq_etabs]
          exact hsorted hen win hwinmem (by rw [hwideq]; exact h0)
        rw [hmoves]
        show updateWindowTabs w2 wid win.tabs = w2
        rw [← hwideq]
        exact updateWindowTabs_self w2 hwinmem hWids
      · rw [sortTabsInWindow_disabled settings w2 wid (by simpa using hen)]
    · rw [if_neg h0]
  rw [hfold2]

/-- **C5.** Running the Reconciliation Scan (`initialTabScan`) twice in
succession with no intervening external events and unchanged external
tab/window state produces, after the second run, a ledger, timer set, and
tab ordering identical to the state after the first run: the second run
makes no additional state changes.  The well-formedness hypotheses are
chrome's guarantees that window ids and tab ids are unique. -/
theorem initialTabScan_idempotent (cs : Option ExtensionSettings) (w : World)
    (st : BgState)
    (hW : (w.windows.map (fun x => x.id)).Nodup)
    (hT : (allTabIds w).Nodup) :
    initialTabScan cs (initialTabScan cs w st).1 (initialTabScan cs w st).2 =
      initialTabScan cs w st := by
  cases cs with
  | none => rfl
  | some settings =>
      have hsnap : ((queryAllTabs w).map (fun t => t.id)).Nodup := by
        rw [queryAllTabs_ids]
        exact hT
      have hinit : ∀ q ∈ wtabs w, (∀ t ∈ queryAllTabs w, t.id ≠ q.2.id) →
          survivorOK settings w st q.1 q.2 := by
        intro q hq hnone
        rw [← queryAllTabs_pairs] at hq
        obtain ⟨t, ht, hteq⟩ := List.mem_map.mp hq
        cases hteq
        exact absurd rfl (hnone t ht)
      obtain ⟨a1, a2, a3, a4, a5⟩ := scanFold_invariant settings w (queryAllTabs w)
        (w, st) hsnap rfl rfl hT (fun t ht => mem_wtabs_of_mem_query ht) hinit
      have hWA : (((queryAllTabs w).foldl
          (scanTabStep settings (focusedWindowIdOf w)) (w, st)).1.windows.map
          (fun x => x.id)).Nodup := by
        rw [winIds_of_shape a1]
        exact hW
      obtain ⟨b1, b2, b3, b4, b5, b6⟩ := sortFold_post settings
        (w.windows.map (fun win => win.id))
        ((queryAllTabs w).foldl (scanTabStep settings (focusedWindowIdOf w))
          (w, st)).1
        hWA a3
      have h1 : (((w.windows.map (fun win => win.id)).foldl (sortFoldStep settings)
          ((queryAllTabs w).foldl (scanTabStep settings (focusedWindowIdOf w))
            (w, st)).1).windows.map (fun x => x.id)).Nodup := by
        rw [winIds_of_shape b1, winIds_of_shape a1]
        exact hW
      have h2 : ∀ q ∈ wtabs ((w.windows.map (fun win => win.id)).foldl
          (sortFoldStep settings)
          ((queryAllTabs w).foldl (scanTabStep settings (focusedWindowIdOf w))
            (w, st)).1),
          survivorOK settings
            ((w.windows.map (fun win => win.id)).foldl (sortFoldStep settings)
              ((queryAllTabs w).foldl (scanTabStep settings (focusedWindowIdOf w))
                (w, st)).1)
            ((queryAllTabs w).foldl (scanTabStep settings (focusedWindowIdOf w))
              (w, st)).2 q.1 q.2 := by
        intro q hq
        exact survivorOK_shape settings (b1.trans a1).symm (b2.trans a2).symm
          (a5 q (b3 q hq))
      have h3 : settings.tabSortingEnabled = true →
          ∀ win ∈ ((w.windows.map (fun win => win.id)).foldl
            (sortFoldStep settings)
            ((queryAllTabs w).foldl (scanTabStep settings (focusedWindowIdOf w))
              (w, st)).1).windows,
          win.id ≠ 0 → sortTabsMoves (etabs win.id 0 win.tabs) = [] := by
        intro hen win hwin hid0
        apply b6 win hwin hid0 ?_ hen
        have hmem : win.id ∈ (((w.windows.map (fun win => win.id)).foldl
            (sortFoldStep settings)
            ((queryAllTabs w).foldl (scanTabStep settings (focusedWindowIdOf w))
              (w, st)).1).windows.map (fun x => x.id)) :=
          List.mem_map_of_mem (fun x => x.id) hwin
        rw [winIds_of_shape b1, winIds_of_shape a1] at hmem
        exact hmem
      rw [initialTabScan_some_eq settings w st]
      exact initialTabScan_fixed settings _ _ h1 h2 h3

/-- A small concrete world for exercising the reconciliation scan: two
windows, one focused, one tab each. -/
def scanDemoWorld : World :=
  { windows :=
      [ { id := 1, focused := true,
          tabs := [{ id := 10, pinned := false, groupId := -1,
                     incognito := false, active := true }] },
        { id := 2, focused := false,
          tabs := [{ id := 20, pinned := false, groupId := -1,
                     incognito := false, active := false }] } ]
    now := 0 }

/-- An empty extension state. -/
def scanDemoState : BgState := { tabLastActiveTimes := fun _ => none, alarms := [] }

/-- Witness for `initialTabScan_idempotent`: the well-formedness hypotheses
hold at a concrete world, and the scan is idempotent there. -/
theorem initialTabScan_idempotent_witness :
    ((scanDemoWorld.windows.map (fun x => x.id)).Nodup ∧
      (allTabIds scanDemoWorld).Nodup) ∧
    initialTabScan (some DefaultSettings)
        (initialTabScan (some DefaultSettings) scanDemoWorld scanDemoState).1
        (initialTabScan (some DefaultSettings) scanDemoWorld scanDemoState).2 =
      initialTabScan (some DefaultSettings) scanDemoWorld scanDemoState :=
  ⟨⟨by decide, by decide⟩,
    initialTabScan_idempotent (some DefaultSettings) scanDemoWorld scanDemoState
      (by decide) (by decide)⟩

end ArcLike
